import Mathlib

/-!
# DeviceEnforcer (work-device-enforcer.cc): rate-paced sender

Shallow embedding of the sender application of `src/work/model/work-device-enforcer.cc`.

Modelling conventions.

* Simulation time (`ns3::Time`) is an exact rational number of seconds; the
  `double` quotient `bits / static_cast<double>(rate)` and the fixed-point product
  `delta.To(Time::S) * rate` are taken as the exact rational quotient and product,
  and `int64x64_t::GetHigh` as the integer floor.
* `uint32_t` and `uint64_t` members are natural numbers; every operation of the source
  that can leave the range is reduced modulo `2^32` resp. `2^64` explicitly.
* The event queue of the simulator is part of the state: an `EventId` member is only a
  handle, and overwriting a handle does not remove the event it referred to.
* `NS_ABORT_*`, `NS_FATAL_ERROR`, a failing `NS_ASSERT` (assertions enabled, as in the
  default build profile) and a null `m_socket` dereference end the run; they are the
  `Except.error` results.
* Logging and trace sources are omitted.
-/

namespace ns3

/-- Simulation time, in seconds. -/
abbrev Time := ℚ

/-- Conversion of a signed integer to `uint32_t` (also the cast `(unsigned)actual`). -/
def toUint32 (z : Int) : Nat := (z % 4294967296).toNat

/-- Conversion of a natural number to `uint64_t`. -/
def toUint64 (n : Nat) : Nat := n % 18446744073709551616

/-- The `SeqTsSizeHeader` fields: sequence number, timestamp, declared total size. -/
structure SeqTsSizeHeader where
  seq : Nat
  ts : Time
  size : Nat
deriving DecidableEq

/-- A packet: an optional `SeqTsSizeHeader` in front of the payload bytes. -/
structure Packet where
  header : Option SeqTsSizeHeader
  payload : List Nat
deriving DecidableEq

/-- The bytes of the literal `z_message = "Message!"` of `SendPacket`. -/
def z_message : List Nat := [77, 101, 115, 115, 97, 103, 101, 33]

/-- An event in the simulator queue whose callback is `DeviceEnforcer::SendPacket`
of the session: its unique id and the time it is due. -/
structure ScheduledEvent where
  uid : Nat
  ts : Time
deriving DecidableEq

/-- An `EventId` handle: `none` is the default-constructed handle, `some u` refers to
the event with unique id `u`. -/
abbrev EventId := Option Nat

/-- Modelled from the spec: the scheduler abstraction consumed by the sender
(`scheduleAfter(duration, callback) -> cancellableHandle`, `cancel(handle)`, `now()`),
which is the ns-3 `Simulator` and not part of this repository. `events` are the
scheduled `SendPacket` events that have neither run nor been cancelled. -/
structure Simulator where
  events : List ScheduledEvent
  nextUid : Nat
deriving DecidableEq

/-- `EventId::IsRunning`: the event the handle refers to is still going to run. -/
def Simulator.IsRunning (sim : Simulator) (id : EventId) : Bool :=
  match id with
  | none => false
  | some u => sim.events.any (fun e => e.uid == u)

/-- `EventId::IsExpired`, the negation of `IsRunning`. -/
def Simulator.IsExpired (sim : Simulator) (id : EventId) : Bool :=
  !(sim.IsRunning id)

/-- `Simulator::Cancel (id)`: the event the handle refers to will not run. -/
def Simulator.Cancel (sim : Simulator) (id : EventId) : Simulator :=
  match id with
  | none => sim
  | some u => { sim with events := sim.events.filter (fun e => e.uid != u) }

/-- `Simulator::Schedule (delay, &DeviceEnforcer::SendPacket, this)` called at time `now`:
a new event with a fresh id is queued, and the handle to it is returned. -/
def Simulator.Schedule (sim : Simulator) (now delay : Time) : Simulator × EventId :=
  ({ events := sim.events ++ [{ uid := sim.nextUid, ts := now + delay }],
     nextUid := sim.nextUid + 1 },
   some sim.nextUid)

/-- The number of `SendPacket` events of the session that are outstanding. -/
def Simulator.outstanding (sim : Simulator) : Nat := sim.events.length

/-- The socket behind `m_socket`, as far as the sender observes it. -/
structure Socket where
  closed : Bool
deriving DecidableEq

/-- The data members of `DeviceEnforcer` (work-device-enforcer.h, lines 130-147). -/
structure DeviceEnforcer where
  m_socket : Option Socket
  m_connected : Bool
  m_cbrRate : Nat
  m_cbrRateFailSafe : Nat
  m_pktSize : Nat
  m_residualBits : Nat
  m_lastStartTime : Time
  m_maxBytes : Nat
  m_totBytes : Nat
  m_startStopEvent : EventId
  m_sendEvent : EventId
  m_seq : Nat
  m_unsentPacket : Option Packet
  m_enableSeqTsSizeHeader : Bool
deriving DecidableEq

/-- A sender session: the application object, the simulator queue it schedules into, and
the record of every `m_socket->Send (packet)` call (packet offered, value returned). -/
structure Session where
  app : DeviceEnforcer
  sim : Simulator
  wire : List (Packet × Int)
deriving DecidableEq

/-- The ways a run ends abnormally. -/
inductive Fault where
  | residualOverflow
  | headerLargerThanPacket
  | sendEventNotExpired
  | nullSocket
  | bindFailed
deriving DecidableEq

/-- The state built by the constructor `DeviceEnforcer::DeviceEnforcer ()` together with the
attribute values and an empty simulator queue. -/
def DeviceEnforcer.init (rate pktSize maxBytes : Nat) (hdr : Bool) : DeviceEnforcer :=
  { m_socket := none, m_connected := false, m_cbrRate := rate, m_cbrRateFailSafe := 0,
    m_pktSize := pktSize, m_residualBits := 0, m_lastStartTime := 0, m_maxBytes := maxBytes,
    m_totBytes := 0, m_startStopEvent := none, m_sendEvent := none, m_seq := 0,
    m_unsentPacket := none, m_enableSeqTsSizeHeader := hdr }

/-- A fresh session around `DeviceEnforcer.init`. -/
def Session.init (rate pktSize maxBytes : Nat) (hdr : Bool) : Session :=
  { app := DeviceEnforcer.init rate pktSize maxBytes hdr,
    sim := { events := [], nextUid := 0 }, wire := [] }

/-- `DeviceEnforcer::CancelEvents` (lines 240-259) at simulation time `now`. -/
def CancelEvents (now : Time) (w : Session) : Session :=
  let residual :=
    if w.sim.IsRunning w.app.m_sendEvent && w.app.m_cbrRateFailSafe == w.app.m_cbrRate then
      toUint32 ((w.app.m_residualBits : Int)
        + Int.floor ((now - w.app.m_lastStartTime) * (w.app.m_cbrRate : ℚ)))
    else w.app.m_residualBits
  { w with
    app := { w.app with
      m_residualBits := residual
      m_cbrRateFailSafe := w.app.m_cbrRate
      m_unsentPacket := none }
    sim := (w.sim.Cancel w.app.m_sendEvent).Cancel w.app.m_startStopEvent }

/-- The test `m_maxBytes == 0 || m_totBytes < m_maxBytes` of `ScheduleNextTx`. -/
def budgetAllows (a : DeviceEnforcer) : Bool :=
  a.m_maxBytes == 0 || decide (a.m_totBytes < a.m_maxBytes)

/-- The `uint32_t` product `m_pktSize * 8`. -/
def pktBits (a : DeviceEnforcer) : Nat := toUint32 ((a.m_pktSize : Int) * 8)

/-- `DeviceEnforcer::ScheduleNextTx` (lines 270-287) at simulation time `now`. The delay is
the exact quotient `bits / rate`; statements about delays assume a positive rate (for rate 0
the `double` quotient of the source is infinite, the rational one is 0). The source forms
the quotient in `double` and converts it with `Seconds ()`: the two agree when the quotient
is a whole number of seconds (`bits < 2^32`, so the `double` is exact); otherwise the
delay of the source is the `double` nearest to the quotient, as the `Time` library
converts it. -/
def ScheduleNextTx (now : Time) (w : Session) : Except Fault Session :=
  if budgetAllows w.app then
    if w.app.m_residualBits > pktBits w.app then
      .error Fault.residualOverflow
    else
      let bits : Nat := pktBits w.app - w.app.m_residualBits
      let nextTime : Time := (bits : ℚ) / (w.app.m_cbrRate : ℚ)
      let r := w.sim.Schedule now nextTime
      .ok { w with app := { w.app with m_sendEvent := r.2 }, sim := r.1 }
  else
    .ok w

/-- `DeviceEnforcer::StartSending` (lines 262-267) at simulation time `now`. -/
def StartSending (now : Time) (w : Session) : Except Fault Session :=
  ScheduleNextTx now { w with app := { w.app with m_lastStartTime := now } }

/-- The packet `SendPacket` hands to the socket and the sequence counter afterwards
(lines 296-316); `hdrSize` is `SeqTsSizeHeader::GetSerializedSize ()`. -/
def buildPacket (hdrSize : Nat) (now : Time) (a : DeviceEnforcer) :
    Except Fault (Packet × Nat) :=
  match a.m_unsentPacket with
  | some p => .ok (p, a.m_seq)
  | none =>
    if a.m_enableSeqTsSizeHeader then
      match a.m_socket with
      | none => .error Fault.nullSocket
      | some _ =>
        if a.m_pktSize < hdrSize then .error Fault.headerLargerThanPacket
        else
          .ok ({ header := some { seq := a.m_seq, ts := now, size := a.m_pktSize },
                 payload := List.replicate (a.m_pktSize - hdrSize) 0 },
               toUint32 ((a.m_seq : Int) + 1))
    else
      .ok ({ header := none, payload := z_message }, a.m_seq)

/-- `DeviceEnforcer::SendPacket` (lines 289-365) at simulation time `now`; `actual` is the
value returned by `m_socket->Send (packet)`. -/
def SendPacket (hdrSize : Nat) (now : Time) (actual : Int) (w : Session) :
    Except Fault Session :=
  if w.sim.IsRunning w.app.m_sendEvent then .error Fault.sendEventNotExpired
  else
    match buildPacket hdrSize now w.app with
    | .error f => .error f
    | .ok (packet, seq) =>
      match w.app.m_socket with
      | none => .error Fault.nullSocket
      | some _ =>
        let sent : Bool := toUint32 actual == w.app.m_pktSize
        .ok { w with
          app := { w.app with
            m_seq := seq
            m_totBytes :=
              if sent then toUint64 (w.app.m_totBytes + w.app.m_pktSize) else w.app.m_totBytes
            m_unsentPacket := if sent then none else some packet
            m_residualBits := 0
            m_lastStartTime := now }
          wire := w.wire ++ [(packet, actual)] }

/-- `DeviceEnforcer::StartApplication` (lines 126-211) at simulation time `now`. Addresses
are not modelled: `bindOk` tells whether the address check and `Bind` succeeded when the
socket has to be created. -/
def StartApplication (bindOk : Bool) (now : Time) (w : Session) : Except Fault Session :=
  match w.app.m_socket with
  | none =>
    if bindOk then
      .ok (CancelEvents now { w with app := { w.app with
              m_socket := some { closed := false }
              m_cbrRateFailSafe := w.app.m_cbrRate } })
    else .error Fault.bindFailed
  | some _ =>
    .ok (CancelEvents now { w with app := { w.app with
            m_cbrRateFailSafe := w.app.m_cbrRate } })

/-- `DeviceEnforcer::StopApplication` (lines 213-238) at simulation time `now`. -/
def StopApplication (now : Time) (w : Session) : Session :=
  let w1 := CancelEvents now w
  match w1.app.m_socket with
  | some _ => { w1 with app := { w1.app with m_socket := some { closed := true } } }
  | none => w1

/-- The simulator runs the outstanding event `uid`: the event leaves the queue (its handle
reads expired from then on) and `SendPacket` runs at the time the event was due. Nothing
happens when no such event is outstanding. -/
def fire (hdrSize : Nat) (uid : Nat) (actual : Int) (w : Session) : Except Fault Session :=
  match w.sim.events.find? (fun e => e.uid == uid) with
  | none => .ok w
  | some e =>
    SendPacket hdrSize e.ts actual
      { w with sim := { w.sim with events := w.sim.events.filter (fun x => x.uid != uid) } }

/-- The calls a sender session receives: the application interface, and the simulator
running an outstanding `SendPacket` event (with the value `Send` returns in it). -/
inductive Action where
  | startApplication (bindOk : Bool) (now : Time)
  | startSending (now : Time)
  | sendPacketFires (uid : Nat) (actual : Int)
  | cancelEvents (now : Time)
  | stopApplication (now : Time)

/-- The effect of one call on the session. -/
def step (hdrSize : Nat) (a : Action) (w : Session) : Except Fault Session :=
  match a with
  | .startApplication bindOk now => StartApplication bindOk now w
  | .startSending now => StartSending now w
  | .sendPacketFires uid actual => fire hdrSize uid actual w
  | .cancelEvents now => .ok (CancelEvents now w)
  | .stopApplication now => .ok (StopApplication now w)

/-- The effect of a sequence of calls, stopping at the first fault. -/
def run (hdrSize : Nat) : List Action → Session → Except Fault Session
  | [], w => .ok w
  | a :: rest, w =>
    match step hdrSize a w with
    | .error f => .error f
    | .ok w1 => run hdrSize rest w1

/-- One sending round: `StartSending` at time `now`, after which the simulator runs the
event `m_sendEvent` refers to (when it is outstanding) and the socket takes the whole
`m_pktSize` bytes. -/
def sendRound (hdrSize : Nat) (now : Time) (w : Session) : Except Fault Session :=
  match StartSending now w with
  | .error f => .error f
  | .ok w1 =>
    match w1.app.m_sendEvent with
    | none => .ok w1
    | some u => fire hdrSize u (w1.app.m_pktSize : Int) w1

/-- Sending rounds at the given times, one after the other. -/
def sendRounds (hdrSize : Nat) : List Time → Session → Except Fault Session
  | [], w => .ok w
  | t :: rest, w =>
    match sendRound hdrSize t w with
    | .error f => .error f
    | .ok w1 => sendRounds hdrSize rest w1

/-! ## Concrete sessions used as test inputs -/

/-- A connected session with the given attributes, nothing scheduled, nothing sent, the
rate snapshot equal to the rate. -/
def Session.connected (rate pktSize maxBytes : Nat) (hdr : Bool) : Session :=
  { app := { DeviceEnforcer.init rate pktSize maxBytes hdr with
             m_socket := some { closed := false }, m_cbrRateFailSafe := rate },
    sim := { events := [], nextUid := 0 }, wire := [] }

/-- The example of the class documentation: packet size 1000 bits, rate 500 bit/s. -/
def docSession : Session := Session.connected 500 125 0 false

/-- A session at the edge of the `uint32_t` range: packet size `2^29` bytes, rate 1 bit/s,
no byte limit, and the given residual debt. -/
def overflowSession (residual : Nat) : Session :=
  { Session.connected 1 536870912 0 false with
    app := { (Session.connected 1 536870912 0 false).app with m_residualBits := residual } }

/-- Packet size one byte and a residual debt of nine bits, with the given byte limit and
byte count. -/
def debtSession (maxBytes totBytes : Nat) : Session :=
  { Session.connected 1 1 maxBytes false with
    app := { (Session.connected 1 1 maxBytes false).app with
             m_residualBits := 9, m_totBytes := totBytes } }

/-- Packet size eight bytes (the length of `z_message`), rate 64 bit/s, headers off. -/
def messageSession (maxBytes : Nat) : Session := Session.connected 64 8 maxBytes false

/-- Header mode: packet size 125 bytes, rate 500 bit/s. -/
def headerSession : Session := Session.connected 500 125 0 true

/-- The documentation example after `StartSending` at 3 s: the send event is due at 5 s. -/
def pendingSession : Session :=
  { docSession with
    app := { docSession.app with m_lastStartTime := 3, m_sendEvent := some 0 }
    sim := { events := [{ uid := 0, ts := 5 }], nextUid := 1 } }

/-! ## Sequence numbers of the frames of a run -/

/-- What becomes of a frame built in header mode: the socket takes it in full (`Send`
returns `m_pktSize`), or a call of `CancelEvents` drops it from the cache. -/
inductive FrameEvent where
  | sent (seq : Nat)
  | discarded (seq : Nat)
deriving DecidableEq

/-- The sequence number of the frame a `FrameEvent` is about. -/
def FrameEvent.seq : FrameEvent → Nat
  | .sent n => n
  | .discarded n => n

/-- The sequence number of the cached unsent frame, when there is one with a header. -/
def cachedSeqs (a : DeviceEnforcer) : List Nat :=
  match a.m_unsentPacket with
  | none => []
  | some p =>
    match p.header with
    | none => []
    | some h => [h.seq]

/-- The frame events of one call that took the session from `w` to `w1`: a firing
`SendPacket` records the frame it offered when the socket took it in full; every call that
runs `CancelEvents` (`StartApplication`, `CancelEvents`, `StopApplication`) records the
cached frame it discards. -/
def stepEvents (a : Action) (w w1 : Session) : List FrameEvent :=
  match a with
  | .sendPacketFires _ _ =>
    (w1.wire.drop w.wire.length).filterMap (fun x =>
      if toUint32 x.2 == w.app.m_pktSize then
        x.1.header.map (fun h => FrameEvent.sent h.seq)
      else none)
  | .startSending _ => []
  | _ => (cachedSeqs w.app).map FrameEvent.discarded

/-- The frame events of a sequence of calls, in order (up to the first fault). -/
def frameEvents (hdrSize : Nat) : List Action → Session → List FrameEvent
  | [], _ => []
  | a :: rest, w =>
    match step hdrSize a w with
    | .error _ => []
    | .ok w1 => stepEvents a w w1 ++ frameEvents hdrSize rest w1

/-- A header-mode run (packet size 125 bytes, rate 500 bit/s) in which frame 0 is sent,
frame 1 meets a short write, is cached and then dropped by `CancelEvents`, and frame 2 is
sent. -/
def gapRun : List Action :=
  [Action.startApplication true 0,
   Action.startSending 1, Action.sendPacketFires 0 125,
   Action.startSending 4, Action.sendPacketFires 1 (-1),
   Action.cancelEvents 7,
   Action.startSending 8, Action.sendPacketFires 2 125]

/-! # WorkServer (work-server.cc): per-peer reassembly and responses

The class declaration `work-server.h` and the ns-3 `Packet` library are not part of the
sources. A packet or receive buffer is its list of bytes; `AddAtEnd` is `++`,
`CreateFragment (0, n)` is `take n`, `RemoveAtStart (n)` is `drop n`. What
`Packet::PeekHeader` and `Packet::RemoveHeader` deserialize from given bytes is a parameter
of the model (`HeaderCodec`). A loop that may run forever takes fuel: the result `none`
means that the fuel did not suffice. -/

/-- The identity of a peer (address and port), or of a socket. -/
abbrev Address := Nat

/-- The ways a call into the server ends abnormally. -/
inductive ServerFault where
  | zeroSizeHeader
  | readPastEnd
deriving DecidableEq

/-- Modelled from the spec: the header codec (`peekHeader(buffer) -> BinaryHeader |
IncompleteError`), that is `SeqTsSizeHeader` and the header reads of the ns-3 `Packet`
library, which are not part of this repository. `serializedSize` is
`SeqTsSizeHeader::GetSerializedSize ()`; `peek bytes` is the header that a read at the
head of a packet with these bytes yields, or the fault with which the library refuses
the read. -/
structure HeaderCodec where
  serializedSize : Nat
  peek : List Nat → Except ServerFault SeqTsSizeHeader

/-- A frame handed to the trace source `m_rxTraceWithSeqTsSize`: the bytes cut from the
head of the buffer, the header `RemoveHeader` read from them and what is left of them. -/
structure Frame where
  raw : List Nat
  header : SeqTsSizeHeader
  payload : List Nat
deriving DecidableEq

/-- Modelled from the spec: the members of `WorkServer` that work-server.cc uses (the class
declaration work-server.h is missing): the listening socket, the accepted sockets, the
receive buffer of each peer (`m_buffer`, absent for an unseen peer), the byte counter, the
header switch, and whether a callback is connected to the trace source
`m_rxTraceWithSeqTsSize`. -/
structure WorkServer where
  m_socket : Option Socket
  m_socketList : List Address
  m_buffer : Address → Option (List Nat)
  m_totalRx : Nat
  m_enableSeqTsSizeHeader : Bool
  rxWithSeqTsSizeTraced : Bool

/-- The state built by the constructor `WorkServer::WorkServer ()`. -/
def WorkServer.init (hdr traced : Bool) : WorkServer :=
  { m_socket := none, m_socketList := [], m_buffer := fun _ => none, m_totalRx := 0,
    m_enableSeqTsSizeHeader := hdr, rxWithSeqTsSizeTraced := traced }

/-- The buffer of a peer, empty when the peer has none yet (`m_buffer.find`, then
`m_buffer.insert` of an empty packet). -/
def WorkServer.bufferOf (srv : WorkServer) (peer : Address) : List Nat :=
  (srv.m_buffer peer).getD []

/-- The server with the buffer of `peer` replaced. -/
def WorkServer.setBuffer (srv : WorkServer) (peer : Address) (buffer : List Nat) :
    WorkServer :=
  { srv with m_buffer := fun a => if a = peer then some buffer else srv.m_buffer a }

/-- The `while` loop of `WorkServer::PacketReceived` (lines 230-247), entered with the
buffer and the header peeked last; it yields the buffer left and the frames extracted, in
order. One unit of fuel is used per iteration. -/
def extractLoop (c : HeaderCodec) :
    Nat → List Nat → SeqTsSizeHeader → Option (Except ServerFault (List Nat × List Frame))
  | fuel, buffer, header =>
    if header.size ≤ buffer.length then
      match fuel with
      | 0 => none
      | fuel + 1 =>
        let complete := buffer.take header.size
        let buffer1 := buffer.drop header.size
        match c.peek complete with
        | .error f => some (.error f)
        | .ok removed =>
          let frame : Frame :=
            { raw := complete, header := removed, payload := complete.drop c.serializedSize }
          if c.serializedSize < buffer1.length then
            match c.peek buffer1 with
            | .error f => some (.error f)
            | .ok next =>
              match extractLoop c fuel buffer1 next with
              | none => none
              | some (.error f) => some (.error f)
              | some (.ok (rest, frames)) => some (.ok (rest, frame :: frames))
          else some (.ok (buffer1, [frame]))
    else some (.ok (buffer, []))

/-- `WorkServer::PacketReceived` (lines 214-248): the packet `p` arrives from `peer`. The
result is the server afterwards and the frames handed to the trace source. -/
def PacketReceived (c : HeaderCodec) (fuel : Nat) (srv : WorkServer) (peer : Address)
    (p : List Nat) : Option (Except ServerFault (WorkServer × List Frame)) :=
  let buffer := srv.bufferOf peer ++ p
  match c.peek buffer with
  | .error f => some (.error f)
  | .ok header =>
    if header.size == 0 then some (.error ServerFault.zeroSizeHeader)
    else
      match extractLoop c fuel buffer header with
      | none => none
      | some (.error f) => some (.error f)
      | some (.ok (rest, frames)) => some (.ok (srv.setBuffer peer rest, frames))

/-- Successive calls of `PacketReceived`, one per arriving (peer, packet), stopping at the
first fault: an abort ends the whole run. The frames come with the peer they are from. -/
def receiveAll (c : HeaderCodec) (fuel : Nat) :
    List (Address × List Nat) → WorkServer →
      Option (Except ServerFault (WorkServer × List (Address × Frame)))
  | [], srv => some (.ok (srv, []))
  | (peer, p) :: rest, srv =>
    match PacketReceived c fuel srv peer p with
    | none => none
    | some (.error f) => some (.error f)
    | some (.ok (srv1, frames)) =>
      match receiveAll c fuel rest srv1 with
      | none => none
      | some (.error f) => some (.error f)
      | some (.ok (srv2, more)) => some (.ok (srv2, frames.map (fun f => (peer, f)) ++ more))

/-- The bytes of the literal `"[Accepted]"`. -/
def acceptedText : List Nat := [91, 65, 99, 99, 101, 112, 116, 101, 100, 93]

/-- The bytes of the literal `"[Refused]"`. -/
def refusedText : List Nat := [91, 82, 101, 102, 117, 115, 101, 100, 93]

/-- `WorkServer::HandlePacket` (lines 282-296): the packets sent, each with the socket it
is sent on. -/
def HandlePacket (buffer : List Nat) (socket : Address) : List (Address × List Nat) :=
  if buffer.isEmpty then []
  else
    let buffer1 := buffer.drop 1
    let buffer2 := buffer1.take (buffer1.length - 1)
    let respStr := if buffer2.length > 0 then acceptedText else refusedText
    [(socket, respStr)]

/-- A packet returned by `socket->RecvFrom (from)`: its bytes, the peer it is from, and the
bytes that follow its copy in memory (`new uint8_t[size]` is not NUL-terminated, so the
conversion `(char *) buffer` reads on until the first NUL byte). -/
structure Received where
  data : List Nat
  peer : Address
  beyond : List Nat
deriving DecidableEq

/-- The string `newBuffer = (char *) buffer`: the bytes up to the first NUL byte. -/
def cString (data beyond : List Nat) : List Nat :=
  (data ++ beyond).takeWhile (fun b => b != 0)

/-- The text frame of a packet (lines 159-161): the string up to and including its first
`]` (byte 93), or the empty string when it has none (`npos + 1` is 0). -/
def textFrame (data beyond : List Nat) : List Nat :=
  match (cString data beyond).findIdx? (fun b => b == 93) with
  | some endOfMsg => (cString data beyond).take (endOfMsg + 1)
  | none => []

/-- The receive loop of `WorkServer::HandleRead` (lines 151-210) over the packets the
socket holds; it stops at an empty packet. It yields the server, the last value of
`newBuffer` and the binary frames extracted on the way. -/
def readLoop (c : HeaderCodec) (fuel : Nat) :
    List Received → WorkServer → List Nat →
      Option (Except ServerFault (WorkServer × List Nat × List Frame))
  | [], srv, newBuffer => some (.ok (srv, newBuffer, []))
  | r :: rest, srv, newBuffer =>
    if r.data.length == 0 then some (.ok (srv, newBuffer, []))
    else
      let newBuffer1 := textFrame r.data r.beyond
      let srv1 := { srv with m_totalRx := toUint64 (srv.m_totalRx + r.data.length) }
      if srv.rxWithSeqTsSizeTraced && srv.m_enableSeqTsSizeHeader then
        match PacketReceived c fuel srv1 r.peer r.data with
        | none => none
        | some (.error f) => some (.error f)
        | some (.ok (srv2, frames)) =>
          match readLoop c fuel rest srv2 newBuffer1 with
          | none => none
          | some (.error f) => some (.error f)
          | some (.ok (srv3, last, more)) => some (.ok (srv3, last, frames ++ more))
      else readLoop c fuel rest srv1 newBuffer1

/-- What one call of `HandleRead` leaves: the server, the responses sent (socket and
bytes) and the binary frames extracted. -/
structure ReadResult where
  srv : WorkServer
  responses : List (Address × List Nat)
  frames : List Frame

/-- `WorkServer::HandleRead` (lines 144-212) on `socket`, which holds the packets
`pending`. -/
def HandleRead (c : HeaderCodec) (fuel : Nat) (srv : WorkServer) (socket : Address)
    (pending : List Received) : Option (Except ServerFault ReadResult) :=
  match readLoop c fuel pending srv [] with
  | none => none
  | some (.error f) => some (.error f)
  | some (.ok (srv1, newBuffer, frames)) =>
    some (.ok { srv := srv1, responses := HandlePacket newBuffer socket, frames := frames })

/-! ## Concrete codec and inputs for the server -/

/-- The big-endian number written in the given bytes. -/
def bigEndian (bytes : List Nat) : Nat := bytes.foldl (fun acc b => acc * 256 + b) 0

/-- The `n` bytes from position `start` on, a byte past the end reading as 0. -/
def readBytes (bytes : List Nat) (start n : Nat) : List Nat :=
  (List.range n).map (fun i => bytes.getD (start + i) 0)

/-- A codec with the layout of the ns-3 `SeqTsSizeHeader` (size in 8 bytes, sequence number
in 4, timestamp in nanoseconds in 8; 20 bytes in all) whose reads do not fault: a byte past
the end of the packet reads as 0. -/
def lenientCodec : HeaderCodec :=
  { serializedSize := 20
    peek := fun bytes => .ok
      { size := bigEndian (readBytes bytes 0 8)
        seq := bigEndian (readBytes bytes 8 4)
        ts := (bigEndian (readBytes bytes 12 8) : ℚ) / 1000000000 } }

/-- The same layout with reads that fault when the packet holds fewer than 20 bytes. -/
def strictCodec : HeaderCodec :=
  { serializedSize := 20
    peek := fun bytes =>
      if bytes.length < 20 then .error ServerFault.readPastEnd else lenientCodec.peek bytes }

/-- The 20 header bytes declaring the total size `size` and the sequence number `seq`
(both below 256), timestamp 0. -/
def headerBytes (size seq : Nat) : List Nat :=
  [0, 0, 0, 0, 0, 0, 0, size, 0, 0, 0, seq, 0, 0, 0, 0, 0, 0, 0, 0]

/-- A server in header mode with a callback on `m_rxTraceWithSeqTsSize` and no buffers. -/
def binaryServer : WorkServer := WorkServer.init true true

/-- A server with headers off (the text path only). -/
def textServer : WorkServer := WorkServer.init false false

/-- A frame of 20 bytes (header only), declaring size 20 and sequence number 7. -/
def frame20 : List Nat := headerBytes 20 7

/-- Two header-only frames of 20 bytes each (sequence numbers 7 and 8) in one delivery. -/
def twoFrames : List Nat := frame20 ++ headerBytes 20 8

/-- A frame of 20 bytes followed by 21 bytes whose header declares size 0. -/
def zeroSizeSecond : List Nat := frame20 ++ (headerBytes 0 8 ++ [1])

/-- The bytes of the text `"[hello]"`. -/
def helloText : List Nat := [91, 104, 101, 108, 108, 111, 93]

/-! ## Connections and successive calls into the server -/

/-- `WorkServer::HandleAccept` (lines 270-280): the accepted socket gets `HandleRead` as its
receive callback and is appended to `m_socketList`. -/
def WorkServer.HandleAccept (srv : WorkServer) (s : Address) : WorkServer :=
  { srv with m_socketList := srv.m_socketList ++ [s] }

/-- `WorkServer::HandlePeerClose` (lines 250-252): the body only logs. -/
def WorkServer.HandlePeerClose (srv : WorkServer) (_socket : Address) : WorkServer := srv

/-- `WorkServer::HandlePeerError` (lines 254-256): the body only logs. -/
def WorkServer.HandlePeerError (srv : WorkServer) (_socket : Address) : WorkServer := srv

/-- `WorkServer::StopApplication` (lines 128-142): every socket of `m_socketList` is taken
from the front of the list and closed, then the listening socket is closed. The result is
the server afterwards and the accepted sockets closed, in the order of the calls of
`Close`. -/
def WorkServer.StopApplication (srv : WorkServer) : WorkServer × List Address :=
  ({ srv with
      m_socketList := []
      m_socket := srv.m_socket.map (fun _ => { closed := true }) },
   srv.m_socketList)

/-- The calls the server receives from its sockets and from the simulator. -/
inductive ServerEvent where
  | accept (s : Address)
  | peerClose (s : Address)
  | peerError (s : Address)
  | read (socket : Address) (pending : List Received)
  | stop

/-- The effect of one call on the server, with the responses sent during the call. -/
def serverStep (c : HeaderCodec) (fuel : Nat) (e : ServerEvent) (srv : WorkServer) :
    Option (Except ServerFault (WorkServer × List (Address × List Nat))) :=
  match e with
  | .accept s => some (.ok (srv.HandleAccept s, []))
  | .peerClose s => some (.ok (srv.HandlePeerClose s, []))
  | .peerError s => some (.ok (srv.HandlePeerError s, []))
  | .read socket pending =>
    match HandleRead c fuel srv socket pending with
    | none => none
    | some (.error f) => some (.error f)
    | some (.ok r) => some (.ok (r.srv, r.responses))
  | .stop => some (.ok (srv.StopApplication.1, []))

/-- The effect of a sequence of calls, stopping at the first fault, with all the responses
sent, in order. -/
def serve (c : HeaderCodec) (fuel : Nat) :
    List ServerEvent → WorkServer →
      Option (Except ServerFault (WorkServer × List (Address × List Nat)))
  | [], srv => some (.ok (srv, []))
  | e :: rest, srv =>
    match serverStep c fuel e srv with
    | none => none
    | some (.error f) => some (.error f)
    | some (.ok (srv1, out)) =>
      match serve c fuel rest srv1 with
      | none => none
      | some (.error f) => some (.error f)
      | some (.ok (srv2, more)) => some (.ok (srv2, out ++ more))

/-- The sockets accepted by the calls of a sequence, in order. -/
def acceptedIn : List ServerEvent → List Address
  | [] => []
  | .accept s :: rest => s :: acceptedIn rest
  | _ :: rest => acceptedIn rest

/-- Whether a sequence of calls holds a call of `StopApplication`. -/
def hasStop : List ServerEvent → Bool
  | [] => false
  | .stop :: _ => true
  | _ :: rest => hasStop rest

/-- A read event on `socket` that delivers the single packet `data` from `peer`, with
`beyond` following the copy of the packet in memory. -/
def readOne (socket peer : Address) (data beyond : List Nat) : ServerEvent :=
  ServerEvent.read socket [{ data := data, peer := peer, beyond := beyond }]

/-- The text frame `[` content `]`. -/
def bracketed (content : List Nat) : List Nat := 91 :: content ++ [93]

/-- The response `HandlePacket` gives to the text frame with the given content. -/
def verdict (content : List Nat) : List Nat :=
  if content = [] then refusedText else acceptedText

/-- The packets one call of `HandleRead` drains from the socket: those before the first
empty packet. -/
def drained (pending : List Received) : List Received :=
  pending.takeWhile (fun r => r.data.length != 0)

/-- The value of `newBuffer` after the loop of `HandleRead` has drained the given packets:
the text frame of the last of them, the empty string when there was none. -/
def lastFrame (packets : List Received) : List Nat :=
  match packets.getLast? with
  | none => []
  | some r => textFrame r.data r.beyond

/-- The byte counter `m_totalRx` after the packets were counted (`uint64_t` additions). -/
def countRx (total : Nat) (packets : List Received) : Nat :=
  packets.foldl (fun acc r => toUint64 (acc + r.data.length)) total

/-! ## Timing of the calls of a sender session -/

/-- Whether a call comes at a possible time in the state `w`: not before `m_lastStartTime`
(the clock does not run backwards), and, for a call that runs `CancelEvents`, not after the
time at which the event `m_sendEvent` refers to is due (the simulator runs an event when it
is due). A firing event runs at its due time by construction. -/
def timely (a : Action) (w : Session) : Bool :=
  match a with
  | .sendPacketFires _ _ => true
  | .startSending now => decide (w.app.m_lastStartTime ≤ now)
  | .startApplication _ now | .cancelEvents now | .stopApplication now =>
    decide (w.app.m_lastStartTime ≤ now) &&
      w.sim.events.all (fun e => !(w.app.m_sendEvent == some e.uid) || decide (now ≤ e.ts))

/-- Whether every call of a run comes at a possible time (up to the first fault). -/
def timelyRun (hdrSize : Nat) : List Action → Session → Bool
  | [], _ => true
  | a :: rest, w =>
    timely a w &&
      match step hdrSize a w with
      | .error _ => true
      | .ok w1 => timelyRun hdrSize rest w1

/-- The bookkeeping that keeps the debt within one packet: `m_residualBits` is at most
`m_pktSize * 8`; an outstanding event that `m_sendEvent` refers to is due no later than
the debt and the bits generated since `m_lastStartTime` make up one packet; and the ids of
the outstanding events are below the next id of the simulator. -/
def debtInv (w : Session) : Prop :=
  w.app.m_residualBits ≤ pktBits w.app ∧
  (∀ e ∈ w.sim.events, w.app.m_sendEvent = some e.uid →
    (e.ts - w.app.m_lastStartTime) * (w.app.m_cbrRate : ℚ)
      ≤ ((pktBits w.app - w.app.m_residualBits : Nat) : ℚ)) ∧
  (∀ e ∈ w.sim.events, e.uid < w.sim.nextUid)

/-- A run of the documentation example (packet size 1000 bits, rate 500 bit/s) in which two
cancellations, 1 s after each start, bring the debt to 1000 bits. -/
def debtRun : List Action :=
  [Action.startApplication true 0,
   Action.startSending 1, Action.cancelEvents 2,
   Action.startSending 3, Action.cancelEvents 4]

/-- Successive runs of `SendPacket` at the given times, the socket returning `actual` each
time. -/
def sendAll (hdrSize : Nat) (actual : Int) : List Time → Session → Except Fault Session
  | [], w => .ok w
  | t :: rest, w =>
    match SendPacket hdrSize t actual w with
    | .error f => .error f
    | .ok w1 => sendAll hdrSize actual rest w1

/-- The documentation session (packet size 1000 bits) in which `StartSending` ran at 3 s
with the rate 250 bit/s (send event due at 7 s) and the rate attribute was then set to
500 bit/s: the snapshot still holds the old rate. -/
def rateChangedSession : Session :=
  { docSession with
    app := { docSession.app with
             m_cbrRateFailSafe := 250, m_lastStartTime := 3, m_sendEvent := some 0 }
    sim := { events := [{ uid := 0, ts := 7 }], nextUid := 1 } }

/-- The documentation session after the rate attribute was set from 250 bit/s to 500 bit/s
and before any call of `StartApplication` or `CancelEvents`: the rate is 500 bit/s, the
snapshot still 250 bit/s, nothing is scheduled. -/
def staleSnapshotSession : Session :=
  { docSession with app := { docSession.app with m_cbrRateFailSafe := 250 } }

/-! ## Arithmetic and simulator lemmas -/

theorem toUint32_of_lt (n : Nat) (h : n < 4294967296) : toUint32 (n : Int) = n := by
  unfold toUint32
  omega

theorem pktBits_of_lt (a : DeviceEnforcer) (h : 8 * a.m_pktSize < 4294967296) :
    pktBits a = 8 * a.m_pktSize := by
  unfold pktBits toUint32
  omega

theorem budgetAllows_congr (a b : DeviceEnforcer) (h1 : a.m_maxBytes = b.m_maxBytes)
    (h2 : a.m_totBytes = b.m_totBytes) : budgetAllows a = budgetAllows b := by
  simp [budgetAllows, h1, h2]

theorem IsRunning_Cancel (sim : Simulator) (id : EventId) :
    (sim.Cancel id).IsRunning id = false := by
  cases id with
  | none => rfl
  | some u => simp [Simulator.Cancel, Simulator.IsRunning]

theorem IsRunning_Cancel_of_false (sim : Simulator) (id other : EventId)
    (h : sim.IsRunning id = false) : (sim.Cancel other).IsRunning id = false := by
  cases id with
  | none => rfl
  | some u =>
    cases other with
    | none => simpa [Simulator.Cancel] using h
    | some v =>
      simp only [Simulator.IsRunning, Simulator.Cancel, List.any_eq_false, List.mem_filter] at h ⊢
      intro e he
      exact h e he.1

/-! ## ScheduleNextTx -/

/-- When the budget test passes and the residual guard does not abort, `ScheduleNextTx`
queues exactly one new event, due `(m_pktSize * 8 - m_residualBits) / rate` from now, and
stores its handle in `m_sendEvent`. -/
theorem ScheduleNextTx_schedules (now : Time) (w : Session)
    (hb : budgetAllows w.app = true) (hr : w.app.m_residualBits ≤ pktBits w.app) :
    ScheduleNextTx now w = .ok
      { w with
        app := { w.app with m_sendEvent := some w.sim.nextUid }
        sim := { events := w.sim.events ++
                   [{ uid := w.sim.nextUid,
                      ts := now + ((pktBits w.app - w.app.m_residualBits : Nat) : ℚ)
                              / (w.app.m_cbrRate : ℚ) }],
                 nextUid := w.sim.nextUid + 1 } } := by
  simp [ScheduleNextTx, hb, Nat.not_lt.mpr hr, Simulator.Schedule]

/-- The in-range delay `(8 * S - D) / R` is strictly decreasing in the residual `D`. -/
theorem delay_strictly_decreasing (S R D1 D2 : Nat) (hR : 0 < R) (h : D1 < D2) :
    ((8 * S : ℚ) - (D2 : ℚ)) / (R : ℚ) < ((8 * S : ℚ) - (D1 : ℚ)) / (R : ℚ) := by
  have hRq : (0 : ℚ) < (R : ℚ) := by exact_mod_cast hR
  have hD : (D1 : ℚ) < (D2 : ℚ) := by exact_mod_cast h
  exact div_lt_div_of_pos_right (by linarith) hRq

/-- Claim C1 (defect): with `m_pktSize = 2^29` the `uint32_t` product `m_pktSize * 8` is 0.
At residual 0 (within `0 <= D <= 8 * S`) `ScheduleNextTx` called at 3 s queues the send for
3 s, a delay of 0 s and not `8 * 2^29 / 1` s; at residual 1 (also within the range) it
aborts instead of scheduling. -/
theorem C1_ScheduleNextTx_pktBits_wraps :
    budgetAllows (overflowSession 0).app = true ∧
    (∃ w, ScheduleNextTx 3 (overflowSession 0) = .ok w ∧
        w.sim.events = [{ uid := 0, ts := 3 }]) ∧
    (3 : ℚ) ≠ 3 + ((8 * 536870912 : ℚ) - 0) / 1 ∧
    (1 : Nat) ≤ 8 * 536870912 ∧
    ScheduleNextTx 3 (overflowSession 1) = .error Fault.residualOverflow := by
  refine ⟨by simp [budgetAllows, overflowSession, Session.connected, DeviceEnforcer.init],
    ⟨_, rfl, ?_⟩, by norm_num, by norm_num, ?_⟩
  · simp [overflowSession, Session.connected, DeviceEnforcer.init, pktBits, toUint32,
      Simulator.Schedule]
  · simp [ScheduleNextTx, overflowSession, Session.connected, DeviceEnforcer.init, pktBits,
      toUint32, budgetAllows]

/-! ## CancelEvents -/

@[simp] theorem CancelEvents_cbrRate (now : Time) (w : Session) :
    (CancelEvents now w).app.m_cbrRate = w.app.m_cbrRate := rfl

@[simp] theorem CancelEvents_maxBytes (now : Time) (w : Session) :
    (CancelEvents now w).app.m_maxBytes = w.app.m_maxBytes := rfl

@[simp] theorem CancelEvents_totBytes (now : Time) (w : Session) :
    (CancelEvents now w).app.m_totBytes = w.app.m_totBytes := rfl

@[simp] theorem CancelEvents_unsentPacket (now : Time) (w : Session) :
    (CancelEvents now w).app.m_unsentPacket = none := rfl

@[simp] theorem CancelEvents_nextUid (now : Time) (w : Session) :
    (CancelEvents now w).sim.nextUid = w.sim.nextUid := by
  unfold CancelEvents Simulator.Cancel
  cases w.app.m_sendEvent <;> cases w.app.m_startStopEvent <;> rfl

/-- The residual after `CancelEvents` when the send event is pending and the rate equals
its snapshot. -/
theorem CancelEvents_residual_pending (now : Time) (w : Session)
    (hrun : w.sim.IsRunning w.app.m_sendEvent = true)
    (hsnap : w.app.m_cbrRateFailSafe = w.app.m_cbrRate) :
    (CancelEvents now w).app.m_residualBits =
      toUint32 ((w.app.m_residualBits : Int)
        + Int.floor ((now - w.app.m_lastStartTime) * (w.app.m_cbrRate : ℚ))) := by
  simp [CancelEvents, hrun, hsnap]

/-- The residual after `CancelEvents` when no send event is pending or the rate differs
from its snapshot. -/
theorem CancelEvents_residual_idle (now : Time) (w : Session)
    (h : w.sim.IsRunning w.app.m_sendEvent = false ∨
      w.app.m_cbrRateFailSafe ≠ w.app.m_cbrRate) :
    (CancelEvents now w).app.m_residualBits = w.app.m_residualBits := by
  rcases h with h | h
  · simp [CancelEvents, h]
  · simp [CancelEvents, h]

/-- `StartSending` leaves the rate and its snapshot as they are. -/
theorem StartSending_rate_fields (now : Time) (w w1 : Session)
    (h : StartSending now w = .ok w1) :
    w1.app.m_cbrRateFailSafe = w.app.m_cbrRateFailSafe ∧ w1.app.m_cbrRate = w.app.m_cbrRate := by
  simp only [StartSending, ScheduleNextTx] at h
  split at h
  · split at h
    · cases h
    · injection h with h
      subst h
      exact ⟨rfl, rfl⟩
  · injection h with h
    subst h
    exact ⟨rfl, rfl⟩

/-- Claim C3 (counterexample): a send event is pending and the rate (500 bit/s) has not
changed since the event was scheduled, yet `CancelEvents` one second later adds no debt,
because the snapshot is not taken when the event is scheduled. First for a session fresh
from the constructor (`StartApplication` has not run, the snapshot is 0), then for a
session whose rate attribute was set before `StartSending` (the snapshot is the old
rate). -/
theorem C3_counterexample :
    (∃ w1, StartSending 3 (Session.init 500 125 0 false) = .ok w1 ∧
      w1.sim.IsRunning w1.app.m_sendEvent = true ∧
      w1.app.m_cbrRate = (Session.init 500 125 0 false).app.m_cbrRate ∧
      (CancelEvents 4 w1).app.m_residualBits = 0) ∧
    (∃ w1, StartSending 3 staleSnapshotSession = .ok w1 ∧
      w1.sim.IsRunning w1.app.m_sendEvent = true ∧
      w1.app.m_cbrRate = staleSnapshotSession.app.m_cbrRate ∧
      (CancelEvents 4 w1).app.m_residualBits = 0) ∧
    Int.floor (((4 : ℚ) - 3) * ((500 : Nat) : ℚ)) = 500 := by
  refine ⟨?_, ?_, by norm_num⟩
  · simp [StartSending, ScheduleNextTx, budgetAllows, Session.init, DeviceEnforcer.init,
      pktBits, toUint32, Simulator.Schedule, CancelEvents, Simulator.Cancel,
      Simulator.IsRunning]
  · simp [StartSending, ScheduleNextTx, budgetAllows, staleSnapshotSession, docSession,
      Session.connected, DeviceEnforcer.init, pktBits, toUint32, Simulator.Schedule,
      CancelEvents, Simulator.Cancel, Simulator.IsRunning]

/-- Claim C3 (amended): `CancelEvents` adds debt exactly when the send event is pending and
the rate equals the snapshot `m_cbrRateFailSafe`: then `m_residualBits` grows by the whole
number `floor ((now - m_lastStartTime) * rate)` (the sum being a `uint32_t` value); when
no send event is pending, or the rate differs from the snapshot, `m_residualBits` stays
as it was. The snapshot is the rate at the end of the last `CancelEvents` (or
`StartApplication`): `CancelEvents` sets it, `StartSending` does not. -/
theorem C3_CancelEvents_debt (now : Time) (w : Session) :
    (w.sim.IsRunning w.app.m_sendEvent = true →
      w.app.m_cbrRateFailSafe = w.app.m_cbrRate →
      0 ≤ Int.floor ((now - w.app.m_lastStartTime) * (w.app.m_cbrRate : ℚ)) →
      (w.app.m_residualBits : Int)
        + Int.floor ((now - w.app.m_lastStartTime) * (w.app.m_cbrRate : ℚ)) < 4294967296 →
      ((CancelEvents now w).app.m_residualBits : Int) =
        (w.app.m_residualBits : Int)
          + Int.floor ((now - w.app.m_lastStartTime) * (w.app.m_cbrRate : ℚ))) ∧
    (w.sim.IsRunning w.app.m_sendEvent = false ∨
        w.app.m_cbrRateFailSafe ≠ w.app.m_cbrRate →
      (CancelEvents now w).app.m_residualBits = w.app.m_residualBits) ∧
    (CancelEvents now w).app.m_cbrRateFailSafe = w.app.m_cbrRate ∧
    (∀ t w1, StartSending t w = .ok w1 →
      w1.app.m_cbrRateFailSafe = w.app.m_cbrRateFailSafe ∧
      w1.app.m_cbrRate = w.app.m_cbrRate) := by
  refine ⟨fun hrun hsnap h0 hlt => ?_, CancelEvents_residual_idle now w, rfl,
    fun t w1 h => StartSending_rate_fields t w w1 h⟩
  rw [CancelEvents_residual_pending now w hrun hsnap]
  unfold toUint32
  omega

/-- Claim C3 (witness): cancelling the documentation example at 4 s, one second after the
start at 3 s, adds 500 bits; cancelling with nothing pending adds nothing. -/
theorem C3_CancelEvents_debt_witness :
    ((CancelEvents 4 pendingSession).app.m_residualBits : Int) = 0 + 500 ∧
    (CancelEvents 4 docSession).app.m_residualBits = 0 := by
  have hfloor : Int.floor ((4 - pendingSession.app.m_lastStartTime)
      * (pendingSession.app.m_cbrRate : ℚ)) = 500 := by
    norm_num [pendingSession, docSession, Session.connected, DeviceEnforcer.init]
  constructor
  · have h := (C3_CancelEvents_debt 4 pendingSession).1
      (by simp [pendingSession, Simulator.IsRunning])
      (by simp [pendingSession, docSession, Session.connected, DeviceEnforcer.init])
      (by rw [hfloor]; norm_num)
      (by rw [hfloor]; norm_num [pendingSession, docSession, Session.connected,
            DeviceEnforcer.init])
    rw [hfloor] at h
    simpa [pendingSession, docSession, Session.connected, DeviceEnforcer.init] using h
  · exact (C3_CancelEvents_debt 4 docSession).2.1
      (Or.inl (by simp [docSession, Session.connected, DeviceEnforcer.init,
        Simulator.IsRunning]))

/-- Claim C4 (counterexample): with the byte budget used up (`m_maxBytes = m_totBytes = 1`)
and a residual of 9 bits against a packet of 8 bits, `ScheduleNextTx` returns normally
with the session unchanged: it does not abort. -/
theorem C4_counterexample :
    8 * (debtSession 1 1).app.m_pktSize < (debtSession 1 1).app.m_residualBits ∧
    ScheduleNextTx 0 (debtSession 1 1) = .ok (debtSession 1 1) := by
  constructor
  · simp [debtSession, Session.connected, DeviceEnforcer.init]
  · simp [ScheduleNextTx, budgetAllows, debtSession, Session.connected, DeviceEnforcer.init]

/-- Claim C4 (amended): in every session state with `m_residualBits > 8 * m_pktSize` in which
the byte budget allows scheduling, `ScheduleNextTx` aborts: no successor state exists, so
no send event is scheduled and the residual is not clamped. When the budget is used up it
returns without aborting and leaves the session as it was. -/
theorem C4_abort_inside_budget_gate (now : Time) (w : Session)
    (hwf : w.app.m_residualBits < 4294967296)
    (h : 8 * w.app.m_pktSize < w.app.m_residualBits) :
    (budgetAllows w.app = true → ScheduleNextTx now w = .error Fault.residualOverflow) ∧
    (budgetAllows w.app = false → ScheduleNextTx now w = .ok w) := by
  constructor
  · intro hb
    have hp := pktBits_of_lt w.app (by omega)
    simp [ScheduleNextTx, hb, hp, h]
  · intro hb
    simp [ScheduleNextTx, hb]

/-- Claim C4 (witness): residual 9 bits against a packet of 8 bits aborts when there is no
byte limit, and returns unchanged when the limit of one byte is used up. -/
theorem C4_abort_inside_budget_gate_witness :
    ScheduleNextTx 0 (debtSession 0 0) = .error Fault.residualOverflow ∧
    ScheduleNextTx 0 (debtSession 2 2) = .ok (debtSession 2 2) :=
  ⟨(C4_abort_inside_budget_gate 0 (debtSession 0 0)
      (by simp [debtSession, Session.connected, DeviceEnforcer.init])
      (by simp [debtSession, Session.connected, DeviceEnforcer.init])).1
      (by simp [budgetAllows, debtSession, Session.connected, DeviceEnforcer.init]),
   (C4_abort_inside_budget_gate 0 (debtSession 2 2)
      (by simp [debtSession, Session.connected, DeviceEnforcer.init])
      (by simp [debtSession, Session.connected, DeviceEnforcer.init])).2
      (by simp [budgetAllows, debtSession, Session.connected, DeviceEnforcer.init])⟩

/-! ## SendPacket -/

/-- Once the assertion, the packet construction and the socket dereference have passed,
`SendPacket` ends in the state written out here; it never touches the simulator queue. -/
theorem SendPacket_reaches_send (hdrSize : Nat) (now : Time) (actual : Int) (w : Session)
    (packet : Packet) (seq : Nat)
    (hexp : w.sim.IsRunning w.app.m_sendEvent = false)
    (hbuild : buildPacket hdrSize now w.app = .ok (packet, seq))
    (hsock : w.app.m_socket.isSome = true) :
    SendPacket hdrSize now actual w = .ok
      { w with
        app := { w.app with
          m_seq := seq
          m_totBytes :=
            if toUint32 actual = w.app.m_pktSize then
              toUint64 (w.app.m_totBytes + w.app.m_pktSize)
            else w.app.m_totBytes
          m_unsentPacket := if toUint32 actual = w.app.m_pktSize then none else some packet
          m_residualBits := 0
          m_lastStartTime := now }
        wire := w.wire ++ [(packet, actual)] } := by
  cases hs : w.app.m_socket with
  | none => simp [hs] at hsock
  | some sock =>
    simp only [SendPacket, hexp, hbuild, hs]
    by_cases h : toUint32 actual = w.app.m_pktSize <;> simp [h]

/-- A successful `SendPacket` passed the assertion, built a packet and had a socket. -/
theorem SendPacket_ok_inv (hdrSize : Nat) (now : Time) (actual : Int) (w w1 : Session)
    (h : SendPacket hdrSize now actual w = .ok w1) :
    w.sim.IsRunning w.app.m_sendEvent = false ∧
    (∃ packet seq, buildPacket hdrSize now w.app = .ok (packet, seq)) ∧
    w.app.m_socket.isSome = true := by
  unfold SendPacket at h
  cases hrun : w.sim.IsRunning w.app.m_sendEvent with
  | true => simp [hrun] at h
  | false =>
    cases hb : buildPacket hdrSize now w.app with
    | error f => simp [hrun, hb] at h
    | ok r =>
      cases hs : w.app.m_socket with
      | none => simp [hrun, hb, hs] at h
      | some sock => exact ⟨rfl, ⟨r.1, r.2, rfl⟩, rfl⟩

/-- Claim C5 (counterexample): a connected session with packet size 8 bytes and no byte limit
is started at 3 s and its send event fires at 4 s with the socket taking all 8 bytes. The
cache is empty, 8 bytes are counted, the residual is 0 and the time is stamped, but no
send event is outstanding afterwards and `m_sendEvent` is expired, although the byte
budget would allow another transmission. -/
theorem C5_counterexample :
    ∃ w, run 20 [Action.startSending 3, Action.sendPacketFires 0 8] (messageSession 0)
        = .ok w ∧
      w.wire = [({ header := none, payload := z_message }, 8)] ∧
      w.app.m_unsentPacket = none ∧
      w.app.m_totBytes = 8 ∧
      w.app.m_residualBits = 0 ∧
      w.app.m_lastStartTime = 4 ∧
      budgetAllows w.app = true ∧
      w.sim.events = [] ∧
      w.sim.IsRunning w.app.m_sendEvent = false := by
  simp [run, step, fire, StartSending, ScheduleNextTx, SendPacket, buildPacket, budgetAllows,
    messageSession, Session.connected, DeviceEnforcer.init, pktBits, toUint32, toUint64,
    Simulator.Schedule, Simulator.IsRunning]
  norm_num

/-- Claim C5 (amended): whenever the send of `SendPacket` is reached and returns exactly
`m_pktSize`, the cached unsent packet is cleared, `m_totBytes` grows by `m_pktSize` (the
`uint64_t` counter not overflowing), `m_residualBits` is reset to 0 and `m_lastStartTime`
is set to the current time. The simulator queue and `m_sendEvent` are what they were:
`SendPacket` itself schedules no further transmission. -/
theorem C5_full_write_no_reschedule (hdrSize : Nat) (now : Time) (actual : Int) (w : Session)
    (packet : Packet) (seq : Nat)
    (hexp : w.sim.IsRunning w.app.m_sendEvent = false)
    (hbuild : buildPacket hdrSize now w.app = .ok (packet, seq))
    (hsock : w.app.m_socket.isSome = true)
    (hfull : actual = (w.app.m_pktSize : Int)) (hint : actual < 2147483648)
    (htot : w.app.m_totBytes + w.app.m_pktSize < 18446744073709551616) :
    ∃ w1, SendPacket hdrSize now actual w = .ok w1 ∧
      w1.wire = w.wire ++ [(packet, actual)] ∧
      w1.app.m_unsentPacket = none ∧
      w1.app.m_totBytes = w.app.m_totBytes + w.app.m_pktSize ∧
      w1.app.m_residualBits = 0 ∧
      w1.app.m_lastStartTime = now ∧
      w1.sim = w.sim ∧ w1.app.m_sendEvent = w.app.m_sendEvent := by
  have hfull32 : toUint32 actual = w.app.m_pktSize := by
    unfold toUint32
    omega
  refine ⟨_, SendPacket_reaches_send hdrSize now actual w packet seq hexp hbuild hsock, ?_⟩
  simp [hfull32, toUint64, Nat.mod_eq_of_lt htot]

/-- Claim C5 (witness): header mode, packet size 125 bytes, the socket takes all 125 bytes at
5 s. -/
theorem C5_full_write_no_reschedule_witness :
    ∃ w1, SendPacket 20 5 125 headerSession = .ok w1 ∧
      w1.wire = headerSession.wire ++
        [({ header := some { seq := 0, ts := 5, size := 125 },
            payload := List.replicate 105 0 }, 125)] ∧
      w1.app.m_unsentPacket = none ∧
      w1.app.m_totBytes = headerSession.app.m_totBytes + headerSession.app.m_pktSize ∧
      w1.app.m_residualBits = 0 ∧
      w1.app.m_lastStartTime = 5 ∧
      w1.sim = headerSession.sim ∧ w1.app.m_sendEvent = headerSession.app.m_sendEvent :=
  C5_full_write_no_reschedule 20 5 125 headerSession
    { header := some { seq := 0, ts := 5, size := 125 }, payload := List.replicate 105 0 } 1
    (by simp [headerSession, Session.connected, DeviceEnforcer.init, Simulator.IsRunning])
    (by simp [buildPacket, headerSession, Session.connected, DeviceEnforcer.init, toUint32])
    (by simp [headerSession, Session.connected, DeviceEnforcer.init])
    (by simp [headerSession, Session.connected, DeviceEnforcer.init])
    (by norm_num)
    (by simp [headerSession, Session.connected, DeviceEnforcer.init])

/-- Claim C6: whenever the send of `SendPacket` is reached and returns a byte count other
than `m_pktSize` (a negative return is covered as well when `m_pktSize < 2^31`), the
packet handed to the socket becomes the cached unsent packet, `m_totBytes` is unchanged,
and neither the simulator queue nor `m_sendEvent` changes: nothing is scheduled. -/
theorem C6_short_write_caches (hdrSize : Nat) (now : Time) (actual : Int) (w : Session)
    (packet : Packet) (seq : Nat)
    (hexp : w.sim.IsRunning w.app.m_sendEvent = false)
    (hbuild : buildPacket hdrSize now w.app = .ok (packet, seq))
    (hsock : w.app.m_socket.isSome = true)
    (hlo : -2147483648 ≤ actual) (hhi : actual < 2147483648)
    (hcount : 0 ≤ actual ∨ w.app.m_pktSize < 2147483648)
    (hne : actual ≠ (w.app.m_pktSize : Int)) :
    ∃ w1, SendPacket hdrSize now actual w = .ok w1 ∧
      w1.wire = w.wire ++ [(packet, actual)] ∧
      w1.app.m_unsentPacket = some packet ∧
      w1.app.m_totBytes = w.app.m_totBytes ∧
      w1.sim = w.sim ∧ w1.app.m_sendEvent = w.app.m_sendEvent := by
  have hshort : toUint32 actual ≠ w.app.m_pktSize := by
    unfold toUint32
    omega
  refine ⟨_, SendPacket_reaches_send hdrSize now actual w packet seq hexp hbuild hsock, ?_⟩
  simp [hshort]

/-- Claim C6 (witness): header mode, packet size 125 bytes; the socket takes 100 bytes (and,
in the second conjunct, returns -1). The frame with sequence number 0 is cached. -/
theorem C6_short_write_caches_witness :
    (∃ w1, SendPacket 20 5 100 headerSession = .ok w1 ∧
      w1.wire = headerSession.wire ++
        [({ header := some { seq := 0, ts := 5, size := 125 },
            payload := List.replicate 105 0 }, 100)] ∧
      w1.app.m_unsentPacket = some { header := some { seq := 0, ts := 5, size := 125 },
                                     payload := List.replicate 105 0 } ∧
      w1.app.m_totBytes = headerSession.app.m_totBytes ∧
      w1.sim = headerSession.sim ∧ w1.app.m_sendEvent = headerSession.app.m_sendEvent) ∧
    (∃ w1, SendPacket 20 5 (-1) headerSession = .ok w1 ∧
      w1.wire = headerSession.wire ++
        [({ header := some { seq := 0, ts := 5, size := 125 },
            payload := List.replicate 105 0 }, -1)] ∧
      w1.app.m_unsentPacket = some { header := some { seq := 0, ts := 5, size := 125 },
                                     payload := List.replicate 105 0 } ∧
      w1.app.m_totBytes = headerSession.app.m_totBytes ∧
      w1.sim = headerSession.sim ∧ w1.app.m_sendEvent = headerSession.app.m_sendEvent) :=
  ⟨C6_short_write_caches 20 5 100 headerSession
      { header := some { seq := 0, ts := 5, size := 125 }, payload := List.replicate 105 0 } 1
      (by simp [headerSession, Session.connected, DeviceEnforcer.init, Simulator.IsRunning])
      (by simp [buildPacket, headerSession, Session.connected, DeviceEnforcer.init, toUint32])
      (by simp [headerSession, Session.connected, DeviceEnforcer.init])
      (by norm_num) (by norm_num) (Or.inl (by norm_num))
      (by simp [headerSession, Session.connected, DeviceEnforcer.init]),
   C6_short_write_caches 20 5 (-1) headerSession
      { header := some { seq := 0, ts := 5, size := 125 }, payload := List.replicate 105 0 } 1
      (by simp [headerSession, Session.connected, DeviceEnforcer.init, Simulator.IsRunning])
      (by simp [buildPacket, headerSession, Session.connected, DeviceEnforcer.init, toUint32])
      (by simp [headerSession, Session.connected, DeviceEnforcer.init])
      (by norm_num) (by norm_num)
      (Or.inr (by simp [headerSession, Session.connected, DeviceEnforcer.init]))
      (by simp [headerSession, Session.connected, DeviceEnforcer.init])⟩

/-- After `StartSending` on a session whose residual is 0 and whose budget is open, the
handle `m_sendEvent` refers to a freshly queued event. -/
theorem StartSending_after_send (now : Time) (w : Session)
    (hres : w.app.m_residualBits = 0) (hb : budgetAllows w.app = true) :
    StartSending now w = .ok
      { w with
        app := { w.app with m_lastStartTime := now, m_sendEvent := some w.sim.nextUid }
        sim := { events := w.sim.events ++
                   [{ uid := w.sim.nextUid,
                      ts := now + ((pktBits w.app - 0 : Nat) : ℚ) / (w.app.m_cbrRate : ℚ) }],
                 nextUid := w.sim.nextUid + 1 } } := by
  have h := ScheduleNextTx_schedules now
    { w with app := { w.app with m_lastStartTime := now } } hb (by simp [hres])
  simpa [StartSending, hres] using h

/-- Running the event a handle refers to: when that event is outstanding, `SendPacket` runs
on a queue from which it has been removed. -/
theorem fire_running (hdrSize uid : Nat) (actual : Int) (w : Session)
    (h : w.sim.IsRunning (some uid) = true) :
    ∃ e, e ∈ w.sim.events ∧ fire hdrSize uid actual w =
      SendPacket hdrSize e.ts actual
        { w with sim := { w.sim with
            events := w.sim.events.filter (fun x => x.uid != uid) } } := by
  unfold fire
  cases hf : w.sim.events.find? (fun e => e.uid == uid) with
  | none =>
    simp only [Simulator.IsRunning, List.any_eq_true] at h
    obtain ⟨e, he, hu⟩ := h
    have := List.find?_eq_none.mp hf e he
    exact absurd hu this
  | some e => exact ⟨e, List.mem_of_find?_eq_some hf, rfl⟩

/-- Running an event that is not outstanding does nothing. -/
theorem fire_not_running (hdrSize uid : Nat) (actual : Int) (w : Session)
    (h : w.sim.IsRunning (some uid) = false) : fire hdrSize uid actual w = .ok w := by
  unfold fire
  cases hf : w.sim.events.find? (fun e => e.uid == uid) with
  | none => rfl
  | some e =>
    have he := List.mem_of_find?_eq_some hf
    have hu := List.find?_some hf
    simp only [Simulator.IsRunning, List.any_eq_false] at h
    exact absurd hu (h e he)

/-- Once its event has been removed from the queue, a handle reads expired. -/
theorem IsRunning_filter_self (evs : List ScheduledEvent) (n uid : Nat) :
    Simulator.IsRunning { events := evs.filter (fun x => x.uid != uid), nextUid := n }
      (some uid) = false := by
  simp [Simulator.IsRunning]

/-- Claim C7: after a short write in `SendPacket` exactly the packet `p` that was offered to
the socket is cached. When `StartSending` then schedules the next `SendPacket` (no
`CancelEvents` in between) and that event fires, the socket is offered the same `p` again,
`m_seq` is what it was after the short write (no new frame is built), and the cache is
cleared if this retry is taken at full size and still holds `p` otherwise. -/
theorem C7_retry_resends_cached_packet (hdrSize : Nat) (now1 now2 : Time) (a1 a2 : Int)
    (w w1 : Session)
    (h1 : SendPacket hdrSize now1 a1 w = .ok w1)
    (hshort : toUint32 a1 ≠ w.app.m_pktSize)
    (hb : budgetAllows w1.app = true) :
    ∃ p w2 w3,
      w1.wire = w.wire ++ [(p, a1)] ∧
      w1.app.m_unsentPacket = some p ∧
      StartSending now2 w1 = .ok w2 ∧
      w2.app.m_sendEvent = some w1.sim.nextUid ∧
      w2.app.m_unsentPacket = some p ∧
      fire hdrSize w1.sim.nextUid a2 w2 = .ok w3 ∧
      w3.wire = w1.wire ++ [(p, a2)] ∧
      w3.app.m_seq = w1.app.m_seq ∧
      (toUint32 a2 = w1.app.m_pktSize → w3.app.m_unsentPacket = none) ∧
      (toUint32 a2 ≠ w1.app.m_pktSize → w3.app.m_unsentPacket = some p) := by
  obtain ⟨hexp, ⟨p, seq, hbuild⟩, hsock⟩ := SendPacket_ok_inv hdrSize now1 a1 w w1 h1
  have hw1 := SendPacket_reaches_send hdrSize now1 a1 w p seq hexp hbuild hsock
  rw [h1] at hw1
  injection hw1 with hw1
  have hres1 : w1.app.m_residualBits = 0 := by rw [hw1]
  have hun1 : w1.app.m_unsentPacket = some p := by rw [hw1]; simp [hshort]
  have hsock1 : w1.app.m_socket.isSome = true := by rw [hw1]; exact hsock
  have hwire1 : w1.wire = w.wire ++ [(p, a1)] := by rw [hw1]
  have hw2 := StartSending_after_send now2 w1 hres1 hb
  obtain ⟨w2, hw2def⟩ : ∃ w2 : Session, w2 =
      { w1 with
        app := { w1.app with m_lastStartTime := now2, m_sendEvent := some w1.sim.nextUid }
        sim := { events := w1.sim.events ++
                   [{ uid := w1.sim.nextUid,
                      ts := now2 + ((pktBits w1.app - 0 : Nat) : ℚ) / (w1.app.m_cbrRate : ℚ) }],
                 nextUid := w1.sim.nextUid + 1 } } := ⟨_, rfl⟩
  rw [← hw2def] at hw2
  have hrun2 : w2.sim.IsRunning (some w1.sim.nextUid) = true := by
    rw [hw2def]
    simp [Simulator.IsRunning]
  obtain ⟨e, -, hfire⟩ := fire_running hdrSize w1.sim.nextUid a2 w2 hrun2
  have hsend := SendPacket_reaches_send hdrSize e.ts a2
    { w2 with sim := { w2.sim with
        events := w2.sim.events.filter (fun x => x.uid != w1.sim.nextUid) } }
    p w1.app.m_seq
    (by
      have : w2.app.m_sendEvent = some w1.sim.nextUid := by rw [hw2def]
      simp only [this]
      exact IsRunning_filter_self _ _ _)
    (by
      have : w2.app.m_unsentPacket = some p := by rw [hw2def]; exact hun1
      have hs : w2.app.m_seq = w1.app.m_seq := by rw [hw2def]
      simp [buildPacket, this, hs])
    (by rw [hw2def]; exact hsock1)
  have hpk : w2.app.m_pktSize = w1.app.m_pktSize := by rw [hw2def]
  have hwi : w2.wire = w1.wire := by rw [hw2def]
  refine ⟨p, w2, _, hwire1, hun1, hw2, by rw [hw2def], by rw [hw2def]; exact hun1,
    hfire.trans hsend, by simp [hwi], rfl, ?_, ?_⟩
  · intro h; simp [hpk, h]
  · intro h; simp [hpk, h]

/-- Claim C7 (witness): header mode, packet size 125 bytes. The first `SendPacket` at 5 s is
a short write of 100 bytes and caches the frame with sequence number 0; after
`StartSending` at 6 s the next `SendPacket` offers that very frame again, the counter
`m_seq` stays 1, and the full-size retry clears the cache. -/
theorem C7_retry_resends_cached_packet_witness :
    ∃ w1 w2 w3,
      SendPacket 20 5 100 headerSession = .ok w1 ∧
      w1.wire = [({ header := some { seq := 0, ts := 5, size := 125 },
                    payload := List.replicate 105 0 }, 100)] ∧
      StartSending 6 w1 = .ok w2 ∧
      fire 20 w1.sim.nextUid 125 w2 = .ok w3 ∧
      w3.wire = [({ header := some { seq := 0, ts := 5, size := 125 },
                    payload := List.replicate 105 0 }, 100),
                 ({ header := some { seq := 0, ts := 5, size := 125 },
                    payload := List.replicate 105 0 }, 125)] ∧
      w3.app.m_seq = 1 ∧
      w3.app.m_unsentPacket = none := by
  have hw1 : SendPacket 20 5 100 headerSession = .ok
      { headerSession with
        app := { headerSession.app with
          m_seq := 1
          m_unsentPacket := some { header := some { seq := 0, ts := 5, size := 125 },
                                   payload := List.replicate 105 0 }
          m_lastStartTime := 5 }
        wire := [({ header := some { seq := 0, ts := 5, size := 125 },
                    payload := List.replicate 105 0 }, 100)] } := by
    simp [SendPacket, buildPacket, headerSession, Session.connected, DeviceEnforcer.init,
      toUint32, Simulator.IsRunning]
  obtain ⟨p, w2, w3, g1, g2, g3, -, -, g4, g5, g6, g7, -⟩ :=
    C7_retry_resends_cached_packet 20 5 6 100 125 headerSession _ hw1
      (by simp [headerSession, Session.connected, DeviceEnforcer.init, toUint32])
      (by simp [budgetAllows, headerSession, Session.connected, DeviceEnforcer.init])
  have hp : p = { header := some { seq := 0, ts := 5, size := 125 },
                  payload := List.replicate 105 0 } := by
    simpa using g2.symm
  subst hp
  refine ⟨_, w2, w3, hw1, rfl, g3, g4, ?_, ?_, ?_⟩
  · simpa using g5
  · simpa using g6
  · exact g7 (by simp [headerSession, Session.connected, DeviceEnforcer.init, toUint32])

/-! ## Byte budget -/

/-- With a socket, and either headers off or a packet size that holds the header,
`SendPacket` can build (or reuse) a packet. -/
theorem buildPacket_ok (hdrSize : Nat) (now : Time) (a : DeviceEnforcer)
    (hsock : a.m_socket.isSome = true)
    (hhdr : a.m_enableSeqTsSizeHeader = false ∨ hdrSize ≤ a.m_pktSize) :
    ∃ packet seq, buildPacket hdrSize now a = .ok (packet, seq) := by
  unfold buildPacket
  cases hu : a.m_unsentPacket with
  | some p => exact ⟨p, a.m_seq, rfl⟩
  | none =>
    cases hh : a.m_enableSeqTsSizeHeader with
    | false => exact ⟨_, _, rfl⟩
    | true =>
      cases hs : a.m_socket with
      | none => simp [hs] at hsock
      | some sock =>
        have hle : hdrSize ≤ a.m_pktSize := by
          rcases hhdr with h | h
          · simp [hh] at h
          · exact h
        simp [Nat.not_lt.mpr hle]

/-- A sending round with an open budget hands exactly one packet to the socket and counts
`m_pktSize` bytes. -/
theorem sendRound_emits (hdrSize : Nat) (now : Time) (w : Session)
    (hb : budgetAllows w.app = true)
    (hres : w.app.m_residualBits = 0)
    (hsock : w.app.m_socket.isSome = true)
    (hhdr : w.app.m_enableSeqTsSizeHeader = false ∨ hdrSize ≤ w.app.m_pktSize)
    (hS : w.app.m_pktSize < 2147483648)
    (htot : w.app.m_totBytes + w.app.m_pktSize < 18446744073709551616) :
    ∃ w1 p, sendRound hdrSize now w = .ok w1 ∧
      w1.wire = w.wire ++ [(p, (w.app.m_pktSize : Int))] ∧
      w1.app.m_totBytes = w.app.m_totBytes + w.app.m_pktSize ∧
      w1.app.m_residualBits = 0 ∧
      w1.app.m_socket = w.app.m_socket ∧
      w1.app.m_pktSize = w.app.m_pktSize ∧
      w1.app.m_maxBytes = w.app.m_maxBytes ∧
      w1.app.m_enableSeqTsSizeHeader = w.app.m_enableSeqTsSizeHeader ∧
      w1.sim.IsRunning w1.app.m_sendEvent = false := by
  have hw2 := StartSending_after_send now w hres hb
  obtain ⟨w2, hw2def⟩ : ∃ w2 : Session, w2 =
      { w with
        app := { w.app with m_lastStartTime := now, m_sendEvent := some w.sim.nextUid }
        sim := { events := w.sim.events ++
                   [{ uid := w.sim.nextUid,
                      ts := now + ((pktBits w.app - 0 : Nat) : ℚ) / (w.app.m_cbrRate : ℚ) }],
                 nextUid := w.sim.nextUid + 1 } } := ⟨_, rfl⟩
  rw [← hw2def] at hw2
  have hid : w2.app.m_sendEvent = some w.sim.nextUid := by rw [hw2def]
  have hpk : w2.app.m_pktSize = w.app.m_pktSize := by rw [hw2def]
  have hrun2 : w2.sim.IsRunning (some w.sim.nextUid) = true := by
    rw [hw2def]
    simp [Simulator.IsRunning]
  obtain ⟨e, -, hfire⟩ := fire_running hdrSize w.sim.nextUid (w.app.m_pktSize : Int) w2 hrun2
  obtain ⟨p, seq, hbuild⟩ := buildPacket_ok hdrSize e.ts w2.app
    (by rw [hw2def]; exact hsock) (by rw [hw2def]; exact hhdr)
  have hsend := SendPacket_reaches_send hdrSize e.ts (w.app.m_pktSize : Int)
    { w2 with sim := { w2.sim with
        events := w2.sim.events.filter (fun x => x.uid != w.sim.nextUid) } }
    p seq
    (by simp only [hid]; exact IsRunning_filter_self _ _ _)
    hbuild
    (by rw [hw2def]; exact hsock)
  have h32 : toUint32 (w.app.m_pktSize : Int) = w.app.m_pktSize :=
    toUint32_of_lt _ (by omega)
  have hround : sendRound hdrSize now w = fire hdrSize w.sim.nextUid (w.app.m_pktSize : Int) w2 := by
    simp only [sendRound, hw2, hid, hpk]
  refine ⟨_, p, hround.trans (hfire.trans hsend), ?_, ?_, rfl, ?_, ?_, ?_, ?_, ?_⟩
  · simp [hw2def]
  · simp [hpk, h32, hw2def, toUint64, Nat.mod_eq_of_lt htot]
  · simp [hw2def]
  · simp [hw2def]
  · simp [hw2def]
  · simp [hw2def]
  · simp only [hid]; exact IsRunning_filter_self _ _ _

/-- A sending round with the budget used up and no event pending only stamps
`m_lastStartTime`. -/
theorem sendRound_quiescent (hdrSize : Nat) (now : Time) (w : Session)
    (hb : budgetAllows w.app = false)
    (hexp : w.sim.IsRunning w.app.m_sendEvent = false) :
    sendRound hdrSize now w = .ok { w with app := { w.app with m_lastStartTime := now } } := by
  have hb2 : budgetAllows ({ w with app := { w.app with m_lastStartTime := now } } : Session).app
      = false := by
    rw [← hb]; exact budgetAllows_congr _ _ rfl rfl
  have hstart : StartSending now w
      = .ok { w with app := { w.app with m_lastStartTime := now } } := by
    simp only [StartSending, ScheduleNextTx, hb2]
    rfl
  simp only [sendRound, hstart]
  cases hid : w.app.m_sendEvent with
  | none => rfl
  | some u =>
    simp only []
    exact fire_not_running hdrSize u _ _ (by rw [← hid]; exact hexp)

/-- With an exhausted budget `ScheduleNextTx` changes nothing. -/
theorem ScheduleNextTx_exhausted (now : Time) (w : Session)
    (hb : budgetAllows w.app = false) : ScheduleNextTx now w = .ok w := by
  simp [ScheduleNextTx, hb]

/-- Sending rounds under a byte limit of two packets, started with `n` packets counted. -/
theorem sendRounds_budget (hdrSize : Nat) (times : List Time) :
    ∀ (w : Session) (n : Nat), n ≤ 2 →
      w.app.m_maxBytes = 2 * w.app.m_pktSize →
      0 < w.app.m_pktSize → w.app.m_pktSize < 2147483648 →
      w.app.m_residualBits = 0 →
      w.app.m_socket.isSome = true →
      (w.app.m_enableSeqTsSizeHeader = false ∨ hdrSize ≤ w.app.m_pktSize) →
      w.app.m_totBytes = n * w.app.m_pktSize →
      (n = 2 → w.sim.IsRunning w.app.m_sendEvent = false) →
      ∃ w1, sendRounds hdrSize times w = .ok w1 ∧
        w1.wire.length = w.wire.length + min times.length (2 - n) ∧
        w1.app.m_maxBytes = w.app.m_maxBytes ∧
        (2 - n ≤ times.length →
          w1.app.m_totBytes = w1.app.m_maxBytes ∧ budgetAllows w1.app = false) := by
  induction times with
  | nil =>
    intro w n hn hmax hS0 hS hres hsock hhdr htot hexp
    refine ⟨w, rfl, by simp, rfl, ?_⟩
    intro h2
    have hn2 : n = 2 := by simp at h2; omega
    subst hn2
    refine ⟨by omega, ?_⟩
    simp [budgetAllows, hmax, htot]
    omega
  | cons t rest ih =>
    intro w n hn hmax hS0 hS hres hsock hhdr htot hexp
    by_cases hlt : n < 2
    · have hb : budgetAllows w.app = true := by
        simp only [budgetAllows, Bool.or_eq_true, decide_eq_true_eq, hmax, htot]
        right
        nlinarith
      obtain ⟨w1, p, hr, hwire, ht1, hres1, hsock1, hpk1, hmax1, hhdr1, hexp1⟩ :=
        sendRound_emits hdrSize t w hb hres hsock hhdr hS (by rw [htot]; nlinarith)
      obtain ⟨w2, hrs, hlen, hm, hq⟩ := ih w1 (n + 1) (by omega)
        (by rw [hmax1, hpk1]; exact hmax) (by rw [hpk1]; exact hS0) (by rw [hpk1]; exact hS)
        hres1 (by rw [hsock1]; exact hsock) (by rw [hhdr1, hpk1]; exact hhdr)
        (by rw [ht1, hpk1, htot]; ring) (fun _ => hexp1)
      refine ⟨w2, ?_, ?_, hm.trans hmax1, ?_⟩
      · simp only [sendRounds, hr]
        exact hrs
      · rw [hlen, hwire]
        simp only [List.length_append, List.length_cons, List.length_nil]
        omega
      · intro h2
        exact hq (by simp only [List.length_cons] at h2; omega)
    · have hn2 : n = 2 := by omega
      subst hn2
      have hb : budgetAllows w.app = false := by
        simp [budgetAllows, hmax, htot]
        omega
      have hr := sendRound_quiescent hdrSize t w hb (hexp rfl)
      obtain ⟨w2, hrs, hlen, hm, hq⟩ :=
        ih { w with app := { w.app with m_lastStartTime := t } } 2 (le_refl 2)
          hmax hS0 hS hres hsock hhdr htot (fun _ => hexp rfl)
      refine ⟨w2, ?_, ?_, hm, ?_⟩
      · simp only [sendRounds, hr]
        exact hrs
      · rw [hlen]
        simp only [List.length_cons]
        omega
      · intro _
        exact hq (by omega)

/-- Claim C8 (counterexample): (a) no byte limit (`m_maxBytes = 0`), a packet of 8 bits and a
residual of 9 bits: the budget test passes, yet `ScheduleNextTx` aborts and schedules
nothing. (b) Packet size 8 bytes and `m_maxBytes = 16 = 2 * m_pktSize`: after
`StartSending` at 3 s and the full-size send of the scheduled `SendPacket`, one packet has
been emitted, 8 of the 16 bytes are counted and no send event is outstanding. -/
theorem C8_counterexample :
    (((debtSession 0 0).app.m_maxBytes = 0 ∨
        (debtSession 0 0).app.m_totBytes < (debtSession 0 0).app.m_maxBytes) ∧
      ¬ ∃ s1, ScheduleNextTx 0 (debtSession 0 0) = .ok s1 ∧
          s1.sim.outstanding = (debtSession 0 0).sim.outstanding + 1) ∧
    (∃ w, run 20 [Action.startSending 3, Action.sendPacketFires 0 8] (messageSession 16)
        = .ok w ∧
      w.wire.length = 1 ∧ w.app.m_totBytes = 8 ∧ w.app.m_maxBytes = 16 ∧
      w.sim.outstanding = 0) := by
  refine ⟨⟨?_, ?_⟩, ?_⟩
  · left
    simp [debtSession, Session.connected, DeviceEnforcer.init]
  · have h : ScheduleNextTx 0 (debtSession 0 0) = .error Fault.residualOverflow := by
      simp [ScheduleNextTx, budgetAllows, debtSession, Session.connected, DeviceEnforcer.init,
        pktBits, toUint32]
    rintro ⟨s1, hs, -⟩
    rw [h] at hs
    cases hs
  · simp [run, step, fire, StartSending, ScheduleNextTx, SendPacket, buildPacket, budgetAllows,
      messageSession, Session.connected, DeviceEnforcer.init, pktBits, toUint32, toUint64,
      Simulator.Schedule, Simulator.IsRunning, Simulator.outstanding]

/-- Claim C8 (amended): `ScheduleNextTx` schedules a send iff the budget test passes
(`m_maxBytes = 0` or `m_totBytes < m_maxBytes`) and the residual guard does not abort
(`m_residualBits <= m_pktSize * 8` in `uint32_t`). With `m_maxBytes = 2 * m_pktSize`,
nothing counted yet and every send full-size, sending rounds (`StartSending`, then the
scheduled `SendPacket`) hand exactly `min k 2` packets to the socket in `k` rounds; from
the second round on `m_totBytes = m_maxBytes` and every later `ScheduleNextTx` returns
the session unchanged, scheduling nothing. -/
theorem C8_byte_budget (hdrSize : Nat) (w : Session) (times : List Time)
    (hS0 : 0 < w.app.m_pktSize) (hS : w.app.m_pktSize < 2147483648)
    (hmax : w.app.m_maxBytes = 2 * w.app.m_pktSize)
    (htot : w.app.m_totBytes = 0)
    (hres : w.app.m_residualBits = 0)
    (hsock : w.app.m_socket.isSome = true)
    (hhdr : w.app.m_enableSeqTsSizeHeader = false ∨ hdrSize ≤ w.app.m_pktSize) :
    (∀ (now : Time) (s : Session),
      (∃ s1, ScheduleNextTx now s = .ok s1 ∧ s1.sim.outstanding = s.sim.outstanding + 1) ↔
        ((s.app.m_maxBytes = 0 ∨ s.app.m_totBytes < s.app.m_maxBytes) ∧
          s.app.m_residualBits ≤ pktBits s.app)) ∧
    ∃ w1, sendRounds hdrSize times w = .ok w1 ∧
      w1.wire.length = w.wire.length + min times.length 2 ∧
      (2 ≤ times.length →
        w1.app.m_totBytes = w.app.m_maxBytes ∧ ∀ now, ScheduleNextTx now w1 = .ok w1) := by
  constructor
  · intro now s
    have hbud : budgetAllows s.app = true ↔
        (s.app.m_maxBytes = 0 ∨ s.app.m_totBytes < s.app.m_maxBytes) := by
      simp [budgetAllows]
    constructor
    · rintro ⟨s1, hs, hout⟩
      by_cases hb : budgetAllows s.app = true
      · refine ⟨hbud.mp hb, ?_⟩
        by_contra hgt
        simp [ScheduleNextTx, hb, Nat.lt_of_not_le hgt] at hs
      · have hb2 : budgetAllows s.app = false := by simpa using hb
        rw [ScheduleNextTx_exhausted now s hb2] at hs
        injection hs with hs
        subst hs
        omega
    · rintro ⟨hb, hr⟩
      refine ⟨_, ScheduleNextTx_schedules now s (hbud.mpr hb) hr, ?_⟩
      simp [Simulator.outstanding]
  · obtain ⟨w1, hrs, hlen, hm, hq⟩ := sendRounds_budget hdrSize times w 0 (by omega)
      hmax hS0 hS hres hsock hhdr (by simp [htot]) (by omega)
    refine ⟨w1, hrs, by simpa using hlen, ?_⟩
    intro h2
    obtain ⟨ht, hb⟩ := hq (by omega)
    exact ⟨ht.trans hm, fun now => ScheduleNextTx_exhausted now w1 hb⟩

/-- Claim C8 (witness): packet size 8 bytes, byte limit 16. Three sending rounds hand two
packets to the socket; 16 bytes are counted and `ScheduleNextTx` schedules nothing more. -/
theorem C8_byte_budget_witness :
    ∃ w1, sendRounds 20 [3, 5, 7] (messageSession 16) = .ok w1 ∧
      w1.wire.length = 2 ∧
      w1.app.m_totBytes = 16 ∧
      ∀ now, ScheduleNextTx now w1 = .ok w1 := by
  obtain ⟨w1, h1, h2, h3⟩ := (C8_byte_budget 20 (messageSession 16) [3, 5, 7]
    (by simp [messageSession, Session.connected, DeviceEnforcer.init])
    (by simp [messageSession, Session.connected, DeviceEnforcer.init])
    (by simp [messageSession, Session.connected, DeviceEnforcer.init])
    (by simp [messageSession, Session.connected, DeviceEnforcer.init])
    (by simp [messageSession, Session.connected, DeviceEnforcer.init])
    (by simp [messageSession, Session.connected, DeviceEnforcer.init])
    (Or.inl (by simp [messageSession, Session.connected, DeviceEnforcer.init]))).2
  obtain ⟨h4, h5⟩ := h3 (by simp)
  refine ⟨w1, h1, ?_, ?_, h5⟩
  · simpa [messageSession, Session.connected] using h2
  · simpa [messageSession, Session.connected, DeviceEnforcer.init] using h4

/-! ## Outstanding send events, StopApplication -/

/-- After `CancelEvents` neither `m_sendEvent` nor `m_startStopEvent` is running, and the
cache is empty. -/
theorem CancelEvents_handles_expired (now : Time) (w : Session) :
    (CancelEvents now w).sim.IsRunning (CancelEvents now w).app.m_sendEvent = false ∧
    (CancelEvents now w).sim.IsRunning (CancelEvents now w).app.m_startStopEvent = false ∧
    (CancelEvents now w).app.m_unsentPacket = none := by
  refine ⟨?_, ?_, rfl⟩
  · exact IsRunning_Cancel_of_false _ _ _ (IsRunning_Cancel _ _)
  · exact IsRunning_Cancel _ _

/-- Claim C9 (defect): `StartApplication` at 0 s, `StartSending` at 3 s and `StartSending` again
at 3.5 s (packet size 64 bits, rate 64 bit/s). The second call overwrites the handle
`m_sendEvent` without cancelling the first event, so two `SendPacket` events are
outstanding; when the first one fires, `NS_ASSERT (m_sendEvent.IsExpired ())` fails. -/
theorem C9_two_send_events_outstanding :
    ∃ w, run 20 [Action.startApplication true 0, Action.startSending 3,
                 Action.startSending (7 / 2)] (Session.init 64 8 0 false) = .ok w ∧
      w.sim.events = [{ uid := 0, ts := 4 }, { uid := 1, ts := 9 / 2 }] ∧
      w.sim.outstanding = 2 ∧
      w.app.m_sendEvent = some 1 ∧
      fire 20 0 8 w = .error Fault.sendEventNotExpired := by
  simp [run, step, fire, StartApplication, CancelEvents, StartSending, ScheduleNextTx,
    SendPacket, budgetAllows, Session.init, DeviceEnforcer.init, pktBits, toUint32,
    Simulator.Schedule, Simulator.IsRunning, Simulator.Cancel, Simulator.outstanding]
  norm_num

/-- Claim C10 (defect): `StartApplication` at 0 s, `StartSending` at 3 s and at 3.5 s, then
`StopApplication` at 3.75 s. The stop cancels the event `m_sendEvent` refers to, closes the
socket and empties the cache, but the event queued by the first `StartSending` is still
outstanding, due at 4 s; when it fires after the stop, `SendPacket` runs and offers a
packet to the closed socket. -/
theorem C10_stop_leaves_send_event :
    ∃ w, run 20 [Action.startApplication true 0, Action.startSending 3,
                 Action.startSending (7 / 2), Action.stopApplication (15 / 4)]
          (Session.init 64 8 0 false) = .ok w ∧
      w.sim.events = [{ uid := 0, ts := 4 }] ∧
      w.sim.IsRunning w.app.m_sendEvent = false ∧
      w.app.m_socket = some { closed := true } ∧
      w.app.m_unsentPacket = none ∧
      ∃ w2, fire 20 0 (-1) w = .ok w2 ∧
        w2.wire = [({ header := none, payload := z_message }, -1)] := by
  simp [run, step, fire, StartApplication, StopApplication, CancelEvents, StartSending,
    ScheduleNextTx, SendPacket, buildPacket, budgetAllows, Session.init, DeviceEnforcer.init,
    pktBits, toUint32, Simulator.Schedule, Simulator.IsRunning, Simulator.Cancel]
  norm_num

/-! ## Stop is idempotent -/

theorem filter_ne_comm (evs : List ScheduledEvent) (u v : Nat) :
    (evs.filter (fun e => e.uid != u)).filter (fun e => e.uid != v)
      = (evs.filter (fun e => e.uid != v)).filter (fun e => e.uid != u) := by
  simp only [List.filter_filter]
  congr 1
  funext e
  exact Bool.and_comm _ _

/-- Invariant of header-mode runs: a cached frame carries the latest sequence number. -/
theorem cachedSeqs_of_cached (a : DeviceEnforcer) (p : Packet) (h : SeqTsSizeHeader)
    (hu : a.m_unsentPacket = some p) (hh : p.header = some h) : cachedSeqs a = [h.seq] := by
  simp [cachedSeqs, hu, hh]

theorem cachedSeqs_of_empty (a : DeviceEnforcer) (hu : a.m_unsentPacket = none) :
    cachedSeqs a = [] := by
  simp [cachedSeqs, hu]

theorem map_seq_discarded (l : List Nat) :
    (l.map FrameEvent.discarded).map FrameEvent.seq = l := by
  induction l with
  | nil => rfl
  | cons x xs ih =>
    simp only [List.map_cons, FrameEvent.seq, ih]

/-- The application fields a call of `CancelEvents` leaves alone, and the cache it
empties. -/
theorem CancelEvents_seq_fields (now : Time) (w : Session) :
    (CancelEvents now w).app.m_seq = w.app.m_seq ∧
    (CancelEvents now w).app.m_enableSeqTsSizeHeader = w.app.m_enableSeqTsSizeHeader ∧
    (CancelEvents now w).app.m_unsentPacket = none :=
  ⟨rfl, rfl, rfl⟩

theorem StopApplication_seq_fields (now : Time) (w : Session) :
    (StopApplication now w).app.m_seq = w.app.m_seq ∧
    (StopApplication now w).app.m_enableSeqTsSizeHeader = w.app.m_enableSeqTsSizeHeader ∧
    (StopApplication now w).app.m_unsentPacket = none := by
  unfold StopApplication
  simp only []
  split <;> exact ⟨rfl, rfl, rfl⟩

theorem StartApplication_seq_fields (bindOk : Bool) (now : Time) (w w1 : Session)
    (h : StartApplication bindOk now w = .ok w1) :
    w1.app.m_seq = w.app.m_seq ∧
    w1.app.m_enableSeqTsSizeHeader = w.app.m_enableSeqTsSizeHeader ∧
    w1.app.m_unsentPacket = none := by
  unfold StartApplication at h
  cases hs : w.app.m_socket with
  | none =>
    cases bindOk with
    | false => simp [hs] at h
    | true =>
      simp only [hs, if_true] at h
      injection h with h
      subst h
      exact ⟨rfl, rfl, rfl⟩
  | some s =>
    simp only [hs] at h
    injection h with h
    subst h
    exact ⟨rfl, rfl, rfl⟩

theorem StartSending_seq_fields (now : Time) (w w1 : Session)
    (h : StartSending now w = .ok w1) :
    w1.app.m_seq = w.app.m_seq ∧
    w1.app.m_enableSeqTsSizeHeader = w.app.m_enableSeqTsSizeHeader ∧
    w1.app.m_unsentPacket = w.app.m_unsentPacket ∧
    w1.wire = w.wire := by
  unfold StartSending ScheduleNextTx at h
  split at h
  · split at h
    · cases h
    · injection h with h
      subst h
      exact ⟨rfl, rfl, rfl, rfl⟩
  · injection h with h
    subst h
    exact ⟨rfl, rfl, rfl, rfl⟩

/-- One call keeps the bookkeeping of sequence numbers: the numbers recorded so far,
followed by the number of the cached frame, are `0, 1, ..., m_seq - 1`. -/
theorem step_seq_invariant (hdrSize : Nat) (a : Action) (w w1 : Session) (pre : List Nat)
    (hhdr : w.app.m_enableSeqTsSizeHeader = true)
    (hcache : ∀ p, w.app.m_unsentPacket = some p →
      ∃ h, p.header = some h ∧ h.seq + 1 = w.app.m_seq)
    (hpre : pre ++ cachedSeqs w.app = List.range w.app.m_seq)
    (hwrap : w.app.m_seq + 1 < 4294967296)
    (hstep : step hdrSize a w = .ok w1) :
    w1.app.m_enableSeqTsSizeHeader = true ∧
    (∀ p, w1.app.m_unsentPacket = some p →
      ∃ h, p.header = some h ∧ h.seq + 1 = w1.app.m_seq) ∧
    (pre ++ (stepEvents a w w1).map FrameEvent.seq) ++ cachedSeqs w1.app
      = List.range w1.app.m_seq ∧
    w1.app.m_seq ≤ w.app.m_seq + 1 := by
  -- the three calls that run CancelEvents
  have hdiscard : ∀ (ev : List FrameEvent),
      ev = (cachedSeqs w.app).map FrameEvent.discarded →
      w1.app.m_seq = w.app.m_seq →
      w1.app.m_enableSeqTsSizeHeader = w.app.m_enableSeqTsSizeHeader →
      w1.app.m_unsentPacket = none →
      w1.app.m_enableSeqTsSizeHeader = true ∧
      (∀ p, w1.app.m_unsentPacket = some p →
        ∃ h, p.header = some h ∧ h.seq + 1 = w1.app.m_seq) ∧
      (pre ++ ev.map FrameEvent.seq) ++ cachedSeqs w1.app = List.range w1.app.m_seq ∧
      w1.app.m_seq ≤ w.app.m_seq + 1 := by
    intro ev hev hs hh hu
    refine ⟨hh.trans hhdr, ?_, ?_, by omega⟩
    · intro p hp
      rw [hu] at hp
      cases hp
    · rw [hev, map_seq_discarded, cachedSeqs_of_empty _ hu, hs, List.append_nil]
      exact hpre
  cases a with
  | startApplication bindOk now =>
    obtain ⟨hs, hh, hu⟩ := StartApplication_seq_fields bindOk now w w1 hstep
    exact hdiscard _ rfl hs hh hu
  | cancelEvents now =>
    simp only [step] at hstep
    injection hstep with hstep
    subst hstep
    exact hdiscard _ rfl rfl rfl rfl
  | stopApplication now =>
    simp only [step] at hstep
    injection hstep with hstep
    subst hstep
    obtain ⟨hs, hh, hu⟩ := StopApplication_seq_fields now w
    exact hdiscard _ rfl hs hh hu
  | startSending now =>
    obtain ⟨hs, hh, hu, -⟩ := StartSending_seq_fields now w w1 hstep
    refine ⟨hh.trans hhdr, ?_, ?_, by omega⟩
    · intro p hp
      rw [hu] at hp
      rw [hs]
      exact hcache p hp
    · have hc : cachedSeqs w1.app = cachedSeqs w.app := by simp [cachedSeqs, hu]
      simp only [stepEvents, List.map_nil, List.append_nil, hc, hs]
      exact hpre
  | sendPacketFires uid actual =>
    simp only [step, fire] at hstep
    cases hf : w.sim.events.find? (fun e => e.uid == uid) with
    | none =>
      simp only [hf] at hstep
      injection hstep with hstep
      subst hstep
      refine ⟨hhdr, hcache, ?_, by omega⟩
      simp only [stepEvents, List.drop_length, List.filterMap_nil, List.map_nil,
        List.append_nil]
      exact hpre
    | some e =>
      simp only [hf] at hstep
      obtain ⟨hexp, ⟨packet, seq, hbuild⟩, hsock⟩ :=
        SendPacket_ok_inv hdrSize e.ts actual _ w1 hstep
      have hw1 := SendPacket_reaches_send hdrSize e.ts actual _ packet seq hexp hbuild hsock
      rw [hstep] at hw1
      injection hw1 with hw1
      simp only at hw1 hbuild
      have hwire : w1.wire = w.wire ++ [(packet, actual)] := by rw [hw1]
      have hseq1 : w1.app.m_seq = seq := by rw [hw1]
      have hhdr1 : w1.app.m_enableSeqTsSizeHeader = w.app.m_enableSeqTsSizeHeader := by
        rw [hw1]
      have hun1 : w1.app.m_unsentPacket
          = if toUint32 actual = w.app.m_pktSize then none else some packet := by rw [hw1]
      -- the packet offered carries the number `n`, and `seq` is the counter afterwards
      have hpk : ∃ h, packet.header = some h ∧ h.seq + 1 = seq ∧
          pre ++ [h.seq] = List.range seq ∧ seq ≤ w.app.m_seq + 1 := by
        unfold buildPacket at hbuild
        cases hu : w.app.m_unsentPacket with
        | some p =>
          simp only [hu] at hbuild
          injection hbuild with hbuild
          injection hbuild with hp hs
          obtain ⟨h, hh, hn⟩ := hcache p hu
          subst hp
          refine ⟨h, hh, by omega, ?_, by omega⟩
          rw [← hs, ← hpre, cachedSeqs_of_cached _ _ h hu hh]
        | none =>
          simp only [hu, hhdr, if_true] at hbuild
          cases hs : w.app.m_socket with
          | none => simp [hs] at hbuild
          | some sock =>
            simp only [hs] at hbuild
            split at hbuild
            · cases hbuild
            · injection hbuild with hbuild
              injection hbuild with hp hq
              have h32 : toUint32 ((w.app.m_seq : Int) + 1) = w.app.m_seq + 1 := by
                unfold toUint32
                omega
              rw [h32] at hq
              subst hp
              refine ⟨_, rfl, by simpa using hq, ?_, by omega⟩
              rw [← hq, List.range_succ, ← hpre, cachedSeqs_of_empty _ hu, List.append_nil]
      obtain ⟨h, hh, hn, hrange, hle⟩ := hpk
      have hdrop : w1.wire.drop w.wire.length = [(packet, actual)] := by
        rw [hwire]
        simp
      refine ⟨hhdr1.trans hhdr, ?_, ?_, by omega⟩
      · intro p hp
        rw [hun1] at hp
        split at hp
        · cases hp
        · injection hp with hp
          subst hp
          exact ⟨h, hh, by omega⟩
      · by_cases hfull : toUint32 actual = w.app.m_pktSize
        · have hu : w1.app.m_unsentPacket = none := by rw [hun1]; simp [hfull]
          simp only [stepEvents, hdrop, cachedSeqs_of_empty _ hu, List.append_nil]
          simp [hfull, hh, FrameEvent.seq, hseq1, hrange]
        · have hu : w1.app.m_unsentPacket = some packet := by rw [hun1]; simp [hfull]
          simp only [stepEvents, hdrop, cachedSeqs_of_cached _ _ h hu hh]
          simp [hfull, hseq1, hrange]
/-- A run keeps the bookkeeping of sequence numbers of `step_seq_invariant`. -/
theorem run_seq_invariant (hdrSize : Nat) :
    ∀ (acts : List Action) (w w1 : Session) (pre : List Nat),
      w.app.m_enableSeqTsSizeHeader = true →
      (∀ p, w.app.m_unsentPacket = some p →
        ∃ h, p.header = some h ∧ h.seq + 1 = w.app.m_seq) →
      pre ++ cachedSeqs w.app = List.range w.app.m_seq →
      w.app.m_seq + acts.length < 4294967296 →
      run hdrSize acts w = .ok w1 →
      (pre ++ (frameEvents hdrSize acts w).map FrameEvent.seq) ++ cachedSeqs w1.app
        = List.range w1.app.m_seq := by
  intro acts
  induction acts with
  | nil =>
    intro w w1 pre hhdr hcache hpre _ hrun
    simp only [run] at hrun
    injection hrun with hrun
    subst hrun
    simpa [frameEvents] using hpre
  | cons a rest ih =>
    intro w w1 pre hhdr hcache hpre hwrap hrun
    simp only [List.length_cons] at hwrap
    cases hs : step hdrSize a w with
    | error f => simp [run, hs] at hrun
    | ok w2 =>
      simp only [run, hs] at hrun
      obtain ⟨h1, h2, h3, h4⟩ :=
        step_seq_invariant hdrSize a w w2 pre hhdr hcache hpre (by omega) hs
      have := ih w2 w1 (pre ++ (stepEvents a w w2).map FrameEvent.seq) h1 h2 h3
        (by omega) hrun
      simpa [frameEvents, hs, List.append_assoc] using this

/-- Claim C12: in header mode, in every run of fewer than `2^32` calls from a fresh session
(`m_seq = 0`), the sequence numbers of the frames the socket took in full and of the
cached frames dropped by `CancelEvents`, in the order of these events and followed by the
number of a frame still cached, are exactly `0, 1, ..., m_seq - 1`: every fresh frame takes
the next number, a retry repeats its number, and the numbers of the frames sent are
consecutive except where a cached frame was dropped. The run `gapRun` shows such a gap:
frames 0 and 2 are sent, frame 1 is dropped. -/
theorem C12_sequence_numbers :
    (∀ (hdrSize rate pktSize maxBytes : Nat) (acts : List Action) (w : Session),
      acts.length < 4294967296 →
      run hdrSize acts (Session.init rate pktSize maxBytes true) = .ok w →
      (frameEvents hdrSize acts (Session.init rate pktSize maxBytes true)).map FrameEvent.seq
          ++ cachedSeqs w.app
        = List.range w.app.m_seq) ∧
    (∃ w, run 20 gapRun (Session.init 500 125 0 true) = .ok w ∧
      frameEvents 20 gapRun (Session.init 500 125 0 true)
        = [FrameEvent.sent 0, FrameEvent.discarded 1, FrameEvent.sent 2]) := by
  constructor
  · intro hdrSize rate pktSize maxBytes acts w hlen hrun
    have := run_seq_invariant hdrSize acts (Session.init rate pktSize maxBytes true) w []
      rfl (by intro p hp; simp [Session.init, DeviceEnforcer.init] at hp)
      (by simp [Session.init, DeviceEnforcer.init, cachedSeqs])
      (by simpa [Session.init, DeviceEnforcer.init] using hlen) hrun
    simpa using this
  · simp [gapRun, run, frameEvents, stepEvents, cachedSeqs, step, fire, StartApplication,
      CancelEvents, StartSending, ScheduleNextTx, SendPacket, buildPacket, budgetAllows,
      Session.init, DeviceEnforcer.init, pktBits, toUint32, toUint64, Simulator.Schedule,
      Simulator.IsRunning, Simulator.Cancel]

/-- Claim C12 (witness): in `gapRun` the numbers 0 (sent), 1 (dropped), 2 (sent), followed by
the number of a frame still cached, are `0, ..., m_seq - 1`. -/
theorem C12_sequence_numbers_witness :
    ∃ w, run 20 gapRun (Session.init 500 125 0 true) = .ok w ∧
      [0, 1, 2] ++ cachedSeqs w.app = List.range w.app.m_seq := by
  obtain ⟨w, hrun, hev⟩ := C12_sequence_numbers.2
  have h := C12_sequence_numbers.1 20 500 125 0 gapRun w (by simp [gapRun]) hrun
  rw [hev] at h
  exact ⟨w, hrun, by simpa [FrameEvent.seq] using h⟩

/-! ## PacketReceived -/

/-- The loop is not entered when the buffer is shorter than the declared size. -/
theorem extractLoop_short (c : HeaderCodec) (fuel : Nat) (buffer : List Nat)
    (header : SeqTsSizeHeader) (h : buffer.length < header.size) :
    extractLoop c fuel buffer header = some (.ok (buffer, [])) := by
  cases fuel <;> simp [extractLoop, Nat.not_le.mpr h]

/-- One iteration of the loop that ends it: the frame is cut from the head and at most a
header's worth of bytes is left. -/
theorem extractLoop_last (c : HeaderCodec) (fuel : Nat) (buffer : List Nat)
    (header removed : SeqTsSizeHeader)
    (hsize : header.size ≤ buffer.length)
    (hrem : c.peek (buffer.take header.size) = .ok removed)
    (hleft : (buffer.drop header.size).length ≤ c.serializedSize) :
    extractLoop c (fuel + 1) buffer header = some (.ok (buffer.drop header.size,
      [{ raw := buffer.take header.size, header := removed,
         payload := (buffer.take header.size).drop c.serializedSize }])) := by
  have hnot : ¬ c.serializedSize < (buffer.drop header.size).length := Nat.not_lt.mpr hleft
  simp only [extractLoop, hsize, if_true, hrem, hnot, if_false]

/-- Whatever the loop extracts, its first frame is the declared number of bytes at the head
of the buffer. -/
theorem extractLoop_first (c : HeaderCodec) (fuel : Nat) (buffer : List Nat)
    (header : SeqTsSizeHeader) (rest : List Nat) (frames : List Frame)
    (hsize : header.size ≤ buffer.length)
    (h : extractLoop c fuel buffer header = some (.ok (rest, frames))) :
    ∃ first more, frames = first :: more ∧ first.raw = buffer.take header.size ∧
      first.raw.length = header.size := by
  cases fuel with
  | zero => simp [extractLoop, hsize] at h
  | succ fuel =>
    simp only [extractLoop, hsize, if_true] at h
    cases hrem : c.peek (buffer.take header.size) with
    | error f => simp [hrem] at h
    | ok removed =>
      simp only [hrem] at h
      split at h
      · cases hnext : c.peek (buffer.drop header.size) with
        | error f => simp [hnext] at h
        | ok next =>
          simp only [hnext] at h
          cases hrec : extractLoop c fuel (buffer.drop header.size) next with
          | none => simp [hrec] at h
          | some r =>
            cases r with
            | error f => simp [hrec] at h
            | ok pr =>
              obtain ⟨rest1, frames1⟩ := pr
              simp only [hrec, Option.some.injEq, Except.ok.injEq, Prod.mk.injEq] at h
              obtain ⟨-, hf⟩ := h
              exact ⟨_, frames1, hf.symm, rfl, by simp [hsize]⟩
      · simp only [Option.some.injEq, Except.ok.injEq, Prod.mk.injEq] at h
        obtain ⟨-, hf⟩ := h
        exact ⟨_, [], hf.symm, rfl, by simp [hsize]⟩

/-- Framing once the first peek has yielded a header: let `h` be the header that
`PeekHeader` reads at the head of the peer's buffer after the arriving bytes were
appended, with a declared size other than 0. When the buffer is shorter than `h.size`,
`PacketReceived` extracts no frame and the buffer keeps every byte. When it is at least
that long, the first frame extracted is exactly the first `h.size` bytes; and when at most
a header's worth of bytes follows them, that frame is the only one and the buffer holds
the bytes that followed. -/
theorem PacketReceived_framing (c : HeaderCodec) (fuel : Nat) (srv : WorkServer) (peer : Address)
    (p : List Nat) (h : SeqTsSizeHeader)
    (hpeek : c.peek (srv.bufferOf peer ++ p) = .ok h) (h0 : h.size ≠ 0) :
    ((srv.bufferOf peer ++ p).length < h.size →
      PacketReceived c fuel srv peer p
        = some (.ok (srv.setBuffer peer (srv.bufferOf peer ++ p), []))) ∧
    (h.size ≤ (srv.bufferOf peer ++ p).length →
      (∀ srv1 frames, PacketReceived c fuel srv peer p = some (.ok (srv1, frames)) →
        ∃ first more, frames = first :: more ∧
          first.raw = (srv.bufferOf peer ++ p).take h.size ∧ first.raw.length = h.size) ∧
      (∀ removed, c.peek ((srv.bufferOf peer ++ p).take h.size) = .ok removed →
        ((srv.bufferOf peer ++ p).drop h.size).length ≤ c.serializedSize →
        PacketReceived c (fuel + 1) srv peer p
          = some (.ok (srv.setBuffer peer ((srv.bufferOf peer ++ p).drop h.size),
              [{ raw := (srv.bufferOf peer ++ p).take h.size, header := removed,
                 payload := ((srv.bufferOf peer ++ p).take h.size).drop
                   c.serializedSize }])))) := by
  refine ⟨fun hlt => ?_, fun hle => ⟨fun srv1 frames hr => ?_, fun removed hrem hleft => ?_⟩⟩
  · simp [PacketReceived, hpeek, h0, extractLoop_short c fuel _ h hlt]
  · simp only [PacketReceived, hpeek] at hr
    have h0b : (h.size == 0) = false := by simpa using h0
    simp only [h0b] at hr
    cases hl : extractLoop c fuel (srv.bufferOf peer ++ p) h with
    | none => simp [hl] at hr
    | some r =>
      cases r with
      | error f => simp [hl] at hr
      | ok pr =>
        obtain ⟨rest, frames1⟩ := pr
        simp only [hl, Bool.false_eq_true, if_false, Option.some.injEq, Except.ok.injEq,
          Prod.mk.injEq] at hr
        obtain ⟨-, hf⟩ := hr
        subst hf
        exact extractLoop_first c fuel _ h rest frames1 hle hl
  · simp [PacketReceived, hpeek, h0, extractLoop_last c fuel _ h removed hle hrem hleft]

theorem lenientCodec_peek_frame20_head :
    lenientCodec.peek (frame20.take 15) = .ok { seq := 7, ts := 0, size := 20 } := by
  simp [lenientCodec, readBytes, bigEndian, frame20, headerBytes, List.range, List.range.loop,
    List.getD]

theorem lenientCodec_peek_frame20 :
    lenientCodec.peek frame20 = .ok { seq := 7, ts := 0, size := 20 } := by
  simp [lenientCodec, readBytes, bigEndian, frame20, headerBytes, List.range, List.range.loop,
    List.getD]

/-- With header reads that do not fault, a header declaring size 20 of which 15 bytes are
delivered: nothing is extracted and the 15 bytes stay; after the last 5 bytes exactly one
frame of 20 bytes is extracted and the buffer is empty. -/
theorem PacketReceived_framing_lenient :
    PacketReceived lenientCodec 0 binaryServer 1 (frame20.take 15)
      = some (.ok (binaryServer.setBuffer 1 (frame20.take 15), [])) ∧
    PacketReceived lenientCodec 1 (binaryServer.setBuffer 1 (frame20.take 15)) 1
        (frame20.drop 15)
      = some (.ok ((binaryServer.setBuffer 1 (frame20.take 15)).setBuffer 1 [],
          [{ raw := frame20, header := { seq := 7, ts := 0, size := 20 },
             payload := [] }])) := by
  have hb0 : binaryServer.bufferOf 1 = [] := rfl
  have hb1 : (binaryServer.setBuffer 1 (frame20.take 15)).bufferOf 1 = frame20.take 15 := by
    simp [WorkServer.setBuffer, WorkServer.bufferOf]
  have hlen : frame20.length = 20 := rfl
  constructor
  · have h := (PacketReceived_framing lenientCodec 0 binaryServer 1 (frame20.take 15)
      { seq := 7, ts := 0, size := 20 }
      (by rw [hb0, List.nil_append]; exact lenientCodec_peek_frame20_head)
      (by simp)).1
      (by rw [hb0, List.nil_append]; simp [hlen])
    simpa [hb0] using h
  · have h := (PacketReceived_framing lenientCodec 0 (binaryServer.setBuffer 1 (frame20.take 15)) 1
      (frame20.drop 15) { seq := 7, ts := 0, size := 20 }
      (by rw [hb1, List.take_append_drop]; exact lenientCodec_peek_frame20)
      (by simp)).2
      (by rw [hb1, List.take_append_drop]; simp [hlen])
    have h2 := h.2 { seq := 7, ts := 0, size := 20 }
      (by
        rw [hb1, List.take_append_drop]
        have : frame20.take 20 = frame20 := by rw [← hlen]; exact List.take_length _
        simp only [this]
        exact lenientCodec_peek_frame20)
      (by rw [hb1, List.take_append_drop]; simp [hlen])
    rw [h2, hb1, List.take_append_drop]
    have ht : frame20.take 20 = frame20 := by rw [← hlen]; exact List.take_length _
    have hd : frame20.drop 20 = [] := by rw [← hlen]; exact List.drop_length _
    simp [ht, hd, lenientCodec, hlen]

/-- When the header at the head of the buffer declares a size other than 0, the frame it
declares is there, and at most a header's worth of bytes follows, `PacketReceived`
extracts that one frame. -/
theorem PacketReceived_one_frame (c : HeaderCodec) (fuel : Nat) (srv : WorkServer)
    (peer : Address) (p : List Nat) (h removed : SeqTsSizeHeader)
    (hpeek : c.peek (srv.bufferOf peer ++ p) = .ok h) (h0 : h.size ≠ 0)
    (hsize : h.size ≤ (srv.bufferOf peer ++ p).length)
    (hrem : c.peek ((srv.bufferOf peer ++ p).take h.size) = .ok removed)
    (hleft : ((srv.bufferOf peer ++ p).drop h.size).length ≤ c.serializedSize) :
    PacketReceived c (fuel + 1) srv peer p
      = some (.ok (srv.setBuffer peer ((srv.bufferOf peer ++ p).drop h.size),
          [{ raw := (srv.bufferOf peer ++ p).take h.size, header := removed,
             payload := ((srv.bufferOf peer ++ p).take h.size).drop c.serializedSize }])) := by
  simp [PacketReceived, hpeek, h0, extractLoop_last c fuel _ h removed hsize hrem hleft]

theorem lenientCodec_peek_headerBytes (size seq : Nat) (rest : List Nat) :
    lenientCodec.peek (headerBytes size seq ++ rest)
      = .ok { seq := seq, ts := 0, size := size } := by
  simp [lenientCodec, readBytes, bigEndian, headerBytes, List.range, List.range.loop,
    List.getD]

theorem strictCodec_peek_headerBytes (size seq : Nat) (rest : List Nat) :
    strictCodec.peek (headerBytes size seq ++ rest)
      = .ok { seq := seq, ts := 0, size := size } := by
  have hlen : ¬ (headerBytes size seq ++ rest).length < 20 := by
    simp [headerBytes]
  have := lenientCodec_peek_headerBytes size seq rest
  simp only [strictCodec, hlen, if_false]
  exact this

/-- Two header-only frames in one packet: for every codec that reads the two headers, the
first frame is extracted and the second is left in the buffer. -/
theorem PacketReceived_twoFrames (c : HeaderCodec) (fuel : Nat)
    (hss : c.serializedSize = 20)
    (hpk : ∀ size seq rest, c.peek (headerBytes size seq ++ rest)
      = .ok { seq := seq, ts := 0, size := size }) :
    PacketReceived c (fuel + 1) binaryServer 1 twoFrames
      = some (.ok (binaryServer.setBuffer 1 (headerBytes 20 8),
          [{ raw := frame20, header := { seq := 7, ts := 0, size := 20 },
             payload := [] }])) := by
  have hb0 : binaryServer.bufferOf 1 = [] := rfl
  have hlen : frame20.length = 20 := rfl
  have ht : twoFrames.take 20 = frame20 := by
    rw [twoFrames, ← hlen]
    exact List.take_left _ _
  have hd : twoFrames.drop 20 = headerBytes 20 8 := by
    rw [twoFrames, ← hlen]
    exact List.drop_left _ _
  have h := PacketReceived_one_frame c fuel binaryServer 1 twoFrames
    { seq := 7, ts := 0, size := 20 } { seq := 7, ts := 0, size := 20 }
    (by rw [hb0, List.nil_append]; exact hpk 20 7 _)
    (by simp)
    (by rw [hb0, List.nil_append]; simp [twoFrames, hlen, headerBytes])
    (by
      rw [hb0, List.nil_append]
      simp only [ht]
      have := hpk 20 7 []
      simpa [frame20] using this)
    (by rw [hb0, List.nil_append]; simp [hd, headerBytes, hss])
  rw [h, hb0, List.nil_append]
  simp [ht, hd, hss, hlen]

/-- Claim C14 (defect): two header-only frames of 20 bytes arrive in one packet. The first is
extracted; 20 bytes are left, which is not more than a serialized header, so the loop
ends without peeking, and `PacketReceived` returns normally with a buffer that is neither
shorter than a header nor shorter than the size (20) declared by the header at its head:
the buffer begins with a complete frame. All reads are within the packet, so the result
is the same for the codec that faults on short reads. -/
theorem C14_complete_frame_left_in_buffer (fuel : Nat) :
    PacketReceived lenientCodec (fuel + 1) binaryServer 1 twoFrames
      = some (.ok (binaryServer.setBuffer 1 (headerBytes 20 8),
          [{ raw := frame20, header := { seq := 7, ts := 0, size := 20 }, payload := [] }])) ∧
    PacketReceived strictCodec (fuel + 1) binaryServer 1 twoFrames
      = some (.ok (binaryServer.setBuffer 1 (headerBytes 20 8),
          [{ raw := frame20, header := { seq := 7, ts := 0, size := 20 }, payload := [] }])) ∧
    ¬ (headerBytes 20 8).length < lenientCodec.serializedSize ∧
    lenientCodec.peek (headerBytes 20 8) = .ok { seq := 8, ts := 0, size := 20 } ∧
    ¬ (headerBytes 20 8).length < 20 := by
  refine ⟨PacketReceived_twoFrames lenientCodec fuel rfl lenientCodec_peek_headerBytes,
    PacketReceived_twoFrames strictCodec fuel rfl strictCodec_peek_headerBytes,
    by simp [headerBytes, lenientCodec], ?_, by simp [headerBytes]⟩
  have := lenientCodec_peek_headerBytes 20 8 []
  simpa using this

/-- A header declaring size 0 met inside the loop, by a codec whose read of an empty packet
does not fault: the loop cuts an empty frame, peeks the same header again and never
ends. -/
theorem extractLoop_zero_size (c : HeaderCodec) (buffer : List Nat)
    (header onEmpty : SeqTsSizeHeader)
    (hlong : c.serializedSize < buffer.length)
    (hpeek : c.peek buffer = .ok header) (hzero : header.size = 0)
    (hempty : c.peek [] = .ok onEmpty) :
    ∀ fuel, extractLoop c fuel buffer header = none := by
  intro fuel
  induction fuel with
  | zero => simp [extractLoop, hzero]
  | succ fuel ih =>
    simp [extractLoop, hzero, hempty, hlong, hpeek, ih]

/-- Claim C15 (defect): a header declaring size 0 at the first peek aborts. Behind a complete
frame it is met by the peek inside the loop, which is not followed by the check: with a
codec whose reads do not fault `PacketReceived` does not return for any amount of fuel;
with the codec that faults on short reads the run is ended by the read of the empty frame
in `RemoveHeader`. -/
theorem C15_zero_size_inside_loop :
    (∀ fuel, PacketReceived lenientCodec fuel binaryServer 1 (headerBytes 0 7)
      = some (.error ServerFault.zeroSizeHeader)) ∧
    (∀ fuel, PacketReceived lenientCodec fuel binaryServer 1 zeroSizeSecond = none) ∧
    (∀ fuel, PacketReceived strictCodec (fuel + 2) binaryServer 1 zeroSizeSecond
      = some (.error ServerFault.readPastEnd)) := by
  have hb0 : binaryServer.bufferOf 1 = [] := rfl
  have hlen : frame20.length = 20 := rfl
  have ht : zeroSizeSecond.take 20 = frame20 := by
    rw [zeroSizeSecond, ← hlen]
    exact List.take_left _ _
  have hd : zeroSizeSecond.drop 20 = headerBytes 0 8 ++ [1] := by
    rw [zeroSizeSecond, ← hlen]
    exact List.drop_left _ _
  have hzlen : zeroSizeSecond.length = 41 := rfl
  refine ⟨fun fuel => ?_, fun fuel => ?_, fun fuel => ?_⟩
  · have := lenientCodec_peek_headerBytes 0 7 []
    simp only [List.append_nil] at this
    simp [PacketReceived, hb0, this]
  · have hp : lenientCodec.peek zeroSizeSecond = .ok { seq := 7, ts := 0, size := 20 } :=
      lenientCodec_peek_headerBytes 20 7 _
    have hp1 : lenientCodec.peek frame20 = .ok { seq := 7, ts := 0, size := 20 } := by
      have := lenientCodec_peek_headerBytes 20 7 []
      simpa [frame20] using this
    have hp2 : lenientCodec.peek (headerBytes 0 8 ++ [1])
        = .ok { seq := 8, ts := 0, size := 0 } := lenientCodec_peek_headerBytes 0 8 _
    have hloop := extractLoop_zero_size lenientCodec (headerBytes 0 8 ++ [1])
      { seq := 8, ts := 0, size := 0 } { seq := 0, ts := 0, size := 0 }
      (by simp [lenientCodec, headerBytes]) hp2 rfl
      (by simp [lenientCodec, readBytes, bigEndian, List.range, List.range.loop, List.getD])
    cases fuel with
    | zero => simp [PacketReceived, hb0, hp, extractLoop, hzlen]
    | succ fuel =>
      have hlong : lenientCodec.serializedSize < (headerBytes 0 8).length + 1 := by
        simp [lenientCodec, headerBytes]
      simp [PacketReceived, hb0, hp, extractLoop, hzlen, ht, hd, hp1, hp2, hlong, hloop fuel]
  · have hp : strictCodec.peek zeroSizeSecond = .ok { seq := 7, ts := 0, size := 20 } :=
      strictCodec_peek_headerBytes 20 7 _
    have hp1 : strictCodec.peek frame20 = .ok { seq := 7, ts := 0, size := 20 } := by
      have := strictCodec_peek_headerBytes 20 7 []
      simpa [frame20] using this
    have hp2 : strictCodec.peek (headerBytes 0 8 ++ [1])
        = .ok { seq := 8, ts := 0, size := 0 } := strictCodec_peek_headerBytes 0 8 _
    have hp3 : strictCodec.peek [] = .error ServerFault.readPastEnd := by
      simp [strictCodec]
    have hlong : strictCodec.serializedSize < (headerBytes 0 8).length + 1 := by
      simp [strictCodec, headerBytes]
    simp [PacketReceived, hb0, hp, extractLoop, hzlen, ht, hd, hp1, hp2, hp3, hlong]

/-- Claim C16 (defect): a header declaring the total size 5, less than the 20 bytes of the
header itself, is at the head of an empty peer's buffer. It is not rejected: with a codec
whose reads do not fault, `PacketReceived` returns normally, having cut the first 5 bytes
off the buffer as a frame (15 bytes are left); with the codec that faults on short reads
the run ends in `RemoveHeader`, after the 5 bytes were cut. Only the declared size 0 is
checked. -/
theorem C16_short_declared_size_not_rejected (fuel : Nat) :
    5 < lenientCodec.serializedSize ∧
    lenientCodec.peek (headerBytes 5 7) = .ok { seq := 7, ts := 0, size := 5 } ∧
    PacketReceived lenientCodec (fuel + 1) binaryServer 1 (headerBytes 5 7)
      = some (.ok (binaryServer.setBuffer 1 ((headerBytes 5 7).drop 5),
          [{ raw := [0, 0, 0, 0, 0], header := { seq := 0, ts := 0, size := 0 },
             payload := [] }])) ∧
    ((headerBytes 5 7).drop 5).length = 15 ∧
    PacketReceived strictCodec (fuel + 1) binaryServer 1 (headerBytes 5 7)
      = some (.error ServerFault.readPastEnd) := by
  have hb0 : binaryServer.bufferOf 1 = [] := rfl
  have hp : lenientCodec.peek (headerBytes 5 7) = .ok { seq := 7, ts := 0, size := 5 } := by
    have := lenientCodec_peek_headerBytes 5 7 []
    simpa using this
  have hps : strictCodec.peek (headerBytes 5 7) = .ok { seq := 7, ts := 0, size := 5 } := by
    have := strictCodec_peek_headerBytes 5 7 []
    simpa using this
  have ht : (headerBytes 5 7).take 5 = [0, 0, 0, 0, 0] := rfl
  have hpe : lenientCodec.peek [0, 0, 0, 0, 0] = .ok { seq := 0, ts := 0, size := 0 } := by
    simp [lenientCodec, readBytes, bigEndian, List.range, List.range.loop, List.getD]
  refine ⟨by simp [lenientCodec], hp, ?_, rfl, ?_⟩
  · have h := PacketReceived_one_frame lenientCodec fuel binaryServer 1 (headerBytes 5 7)
      { seq := 7, ts := 0, size := 5 } { seq := 0, ts := 0, size := 0 }
      (by rw [hb0, List.nil_append]; exact hp) (by simp)
      (by rw [hb0, List.nil_append]; simp [headerBytes])
      (by rw [hb0, List.nil_append]; simp only [ht]; exact hpe)
      (by rw [hb0, List.nil_append]; simp [headerBytes, lenientCodec])
    rw [h, hb0, List.nil_append]
    simp [ht, lenientCodec]
  · have hpe2 : strictCodec.peek [0, 0, 0, 0, 0] = .error ServerFault.readPastEnd := by
      simp [strictCodec]
    have hl : (headerBytes 5 7).length = 20 := rfl
    simp [PacketReceived, hb0, hps, extractLoop, hl, ht, hpe2]

/-- The loop conserves bytes: the buffer it is entered with is the frames it extracts, in
order, followed by the buffer it leaves; and every frame is as long as the size declared
by the header at the head of the bytes from that frame on. -/
theorem extractLoop_conserves (c : HeaderCodec) :
    ∀ (fuel : Nat) (buffer : List Nat) (header : SeqTsSizeHeader) (rest : List Nat)
      (frames : List Frame),
      c.peek buffer = .ok header →
      extractLoop c fuel buffer header = some (.ok (rest, frames)) →
      buffer = (frames.map Frame.raw).flatten ++ rest ∧
      ∀ pre f post, frames = pre ++ f :: post →
        ∃ h, c.peek (f.raw ++ ((post.map Frame.raw).flatten ++ rest)) = .ok h ∧
          f.raw.length = h.size := by
  intro fuel
  induction fuel with
  | zero =>
    intro buffer header rest frames _ h
    by_cases hsize : header.size ≤ buffer.length
    · simp [extractLoop, hsize] at h
    · simp only [extractLoop, hsize, if_false, Option.some.injEq, Except.ok.injEq,
        Prod.mk.injEq] at h
      obtain ⟨h1, h2⟩ := h
      subst h1 h2
      refine ⟨by simp, ?_⟩
      intro pre f post hf
      cases pre <;> cases hf
  | succ fuel ih =>
    intro buffer header rest frames hpeek h
    by_cases hsize : header.size ≤ buffer.length
    · simp only [extractLoop, hsize, if_true] at h
      cases hrem : c.peek (buffer.take header.size) with
      | error f => simp [hrem] at h
      | ok removed =>
        simp only [hrem] at h
        have hlen : (buffer.take header.size).length = header.size := by
          simp [hsize]
        by_cases hmore : c.serializedSize < (buffer.drop header.size).length
        · simp only [hmore, if_true] at h
          cases hnext : c.peek (buffer.drop header.size) with
          | error f => simp [hnext] at h
          | ok next =>
            simp only [hnext] at h
            cases hrec : extractLoop c fuel (buffer.drop header.size) next with
            | none => simp [hrec] at h
            | some r =>
              cases r with
              | error f => simp [hrec] at h
              | ok pr =>
                obtain ⟨rest1, frames1⟩ := pr
                simp only [hrec, Option.some.injEq, Except.ok.injEq, Prod.mk.injEq] at h
                obtain ⟨h1, h2⟩ := h
                subst h1 h2
                obtain ⟨hcons, hdecl⟩ := ih _ next rest1 frames1 hnext hrec
                have hbuf : buffer = buffer.take header.size
                    ++ ((frames1.map Frame.raw).flatten ++ rest1) := by
                  rw [← hcons]
                  exact (List.take_append_drop _ _).symm
                refine ⟨by simpa using hbuf, ?_⟩
                intro pre f post hf
                cases pre with
                | nil =>
                  simp only [List.nil_append, List.cons.injEq] at hf
                  obtain ⟨hf1, hf2⟩ := hf
                  subst hf1 hf2
                  exact ⟨header, by rw [← hbuf]; exact hpeek, hlen⟩
                | cons g pre1 =>
                  simp only [List.cons_append, List.cons.injEq] at hf
                  exact hdecl pre1 f post hf.2
        · simp only [hmore, if_false, Option.some.injEq, Except.ok.injEq, Prod.mk.injEq] at h
          obtain ⟨h1, h2⟩ := h
          subst h1 h2
          refine ⟨by simp, ?_⟩
          intro pre f post hf
          cases pre with
          | nil =>
            simp only [List.nil_append, List.cons.injEq] at hf
            obtain ⟨hf1, hf2⟩ := hf
            subst hf1 hf2
            refine ⟨header, ?_, hlen⟩
            simp only [List.map_nil, List.flatten_nil, List.nil_append, List.take_append_drop]
            exact hpeek
          | cons g pre1 =>
            simp only [List.cons_append, List.cons.injEq] at hf
            cases pre1 <;> simp at hf
    · simp only [extractLoop, hsize, if_false, Option.some.injEq, Except.ok.injEq,
        Prod.mk.injEq] at h
      obtain ⟨h1, h2⟩ := h
      subst h1 h2
      refine ⟨by simp, ?_⟩
      intro pre f post hf
      cases pre <;> cases hf

/-- The buffer of a peer after `setBuffer`. -/
theorem bufferOf_setBuffer_same (srv : WorkServer) (peer : Address) (b : List Nat) :
    (srv.setBuffer peer b).bufferOf peer = b := by
  simp [WorkServer.setBuffer, WorkServer.bufferOf]

theorem m_buffer_setBuffer_other (srv : WorkServer) (peer other : Address) (b : List Nat)
    (h : other ≠ peer) : (srv.setBuffer peer b).m_buffer other = srv.m_buffer other := by
  simp [WorkServer.setBuffer, h]

/-- A normal return of `PacketReceived`, unfolded. -/
theorem PacketReceived_ok_inv (c : HeaderCodec) (fuel : Nat) (srv srv1 : WorkServer)
    (peer : Address) (p : List Nat) (frames : List Frame)
    (h : PacketReceived c fuel srv peer p = some (.ok (srv1, frames))) :
    ∃ header rest, c.peek (srv.bufferOf peer ++ p) = .ok header ∧ header.size ≠ 0 ∧
      extractLoop c fuel (srv.bufferOf peer ++ p) header = some (.ok (rest, frames)) ∧
      srv1 = srv.setBuffer peer rest := by
  simp only [PacketReceived] at h
  cases hp : c.peek (srv.bufferOf peer ++ p) with
  | error f => simp [hp] at h
  | ok header =>
    simp only [hp] at h
    by_cases h0 : header.size = 0
    · simp [h0] at h
    · have h0b : (header.size == 0) = false := by simpa using h0
      simp only [h0b, Bool.false_eq_true, if_false] at h
      cases hl : extractLoop c fuel (srv.bufferOf peer ++ p) header with
      | none => simp [hl] at h
      | some r =>
        cases r with
        | error f => simp [hl] at h
        | ok pr =>
          obtain ⟨rest, frames1⟩ := pr
          simp only [hl, Option.some.injEq, Except.ok.injEq, Prod.mk.injEq] at h
          obtain ⟨h1, h2⟩ := h
          subst h2
          exact ⟨header, rest, rfl, h0, hl, h1.symm⟩

/-- Claim C17: for every call of `PacketReceived` that returns normally, the old buffer of
the peer followed by the arriving bytes equals the extracted frames (header included),
concatenated in extraction order, followed by the new buffer; and each frame is exactly
as long as the size declared by the header at the head of the bytes from that frame on.
So bytes are appended at the tail and consumed from the head in whole declared frames. -/
theorem C17_buffer_conservation (c : HeaderCodec) (fuel : Nat) (srv srv1 : WorkServer)
    (peer : Address) (p : List Nat) (frames : List Frame)
    (h : PacketReceived c fuel srv peer p = some (.ok (srv1, frames))) :
    srv.bufferOf peer ++ p = (frames.map Frame.raw).flatten ++ srv1.bufferOf peer ∧
    ∀ pre f post, frames = pre ++ f :: post →
      ∃ hd, c.peek (f.raw ++ ((post.map Frame.raw).flatten ++ srv1.bufferOf peer)) = .ok hd ∧
        f.raw.length = hd.size := by
  obtain ⟨header, rest, hp, -, hl, hs⟩ := PacketReceived_ok_inv c fuel srv srv1 peer p frames h
  subst hs
  rw [bufferOf_setBuffer_same]
  exact extractLoop_conserves c fuel _ header rest frames hp hl

/-- Claim C17 (witness): two header-only frames arrive at an empty buffer; the first is
extracted and the second stays, and together they are the bytes that arrived. -/
theorem C17_buffer_conservation_witness :
    binaryServer.bufferOf 1 ++ twoFrames
      = (([{ raw := frame20, header := { seq := 7, ts := 0, size := 20 },
             payload := [] }] : List Frame).map Frame.raw).flatten
        ++ (binaryServer.setBuffer 1 (headerBytes 20 8)).bufferOf 1 :=
  (C17_buffer_conservation lenientCodec 1 binaryServer _ 1 twoFrames _
    (PacketReceived_twoFrames lenientCodec 0 rfl lenientCodec_peek_headerBytes)).1

/-- `PacketReceived` for a peer reads the server only through the buffer of that peer. -/
theorem PacketReceived_of_bufferOf (c : HeaderCodec) (fuel : Nat) (srv srv1 : WorkServer)
    (peer : Address) (q : List Nat) (hbuf : srv1.bufferOf peer = srv.bufferOf peer) :
    PacketReceived c fuel srv1 peer q =
      match PacketReceived c fuel srv peer q with
      | none => none
      | some (.error f) => some (.error f)
      | some (.ok (s, frames)) => some (.ok (srv1.setBuffer peer (s.bufferOf peer), frames)) := by
  simp only [PacketReceived, hbuf]
  cases hp : c.peek (srv.bufferOf peer ++ q) with
  | error f => rfl
  | ok header =>
    simp only []
    by_cases h0 : (header.size == 0) = true
    · simp [h0]
    · simp only [h0, Bool.false_eq_true, if_false]
      cases hl : extractLoop c fuel (srv.bufferOf peer ++ q) header with
      | none => rfl
      | some r =>
        cases r with
        | error f => rfl
        | ok pr =>
          obtain ⟨rest, frames⟩ := pr
          simp [bufferOf_setBuffer_same]

theorem bufferOf_setBuffer_other (srv : WorkServer) (peer other : Address) (b : List Nat)
    (h : other ≠ peer) : (srv.setBuffer peer b).bufferOf other = srv.bufferOf other := by
  simp [WorkServer.bufferOf, m_buffer_setBuffer_other srv peer other b h]

/-- Claim C18 (counterexample): peer 1 delivers a header declaring size 0, then peer 2 delivers
a complete frame. The first call aborts (`NS_ABORT_IF`), which ends the run: the frame of
peer 2 is never extracted, although alone it would be. -/
theorem C18_counterexample :
    receiveAll lenientCodec 1 [(1, headerBytes 0 7), (2, frame20)] binaryServer
      = some (.error ServerFault.zeroSizeHeader) ∧
    receiveAll lenientCodec 1 [(2, frame20)] binaryServer
      = some (.ok (binaryServer.setBuffer 2 [],
          [(2, { raw := frame20, header := { seq := 7, ts := 0, size := 20 },
                 payload := [] })])) := by
  have hlen : frame20.length = 20 := rfl
  have hp1 : lenientCodec.peek frame20 = .ok { seq := 7, ts := 0, size := 20 } := by
    have := lenientCodec_peek_headerBytes 20 7 []
    simpa [frame20] using this
  have ht : frame20.take 20 = frame20 := by rw [← hlen]; exact List.take_length _
  have hd : frame20.drop 20 = [] := by rw [← hlen]; exact List.drop_length _
  constructor
  · have hp := lenientCodec_peek_headerBytes 0 7 []
    simp only [List.append_nil] at hp
    have hb0 : binaryServer.bufferOf 1 = [] := rfl
    simp [receiveAll, PacketReceived, hb0, hp]
  · have hb0 : binaryServer.bufferOf 2 = [] := rfl
    have h := PacketReceived_one_frame lenientCodec 0 binaryServer 2 frame20
      { seq := 7, ts := 0, size := 20 } { seq := 7, ts := 0, size := 20 }
      (by rw [hb0, List.nil_append]; exact hp1) (by simp)
      (by rw [hb0, List.nil_append]; simp [hlen])
      (by rw [hb0, List.nil_append]; simp only [ht]; exact hp1)
      (by rw [hb0, List.nil_append]; simp [hd])
    rw [hb0, List.nil_append] at h
    simp only [ht, hd] at h
    have hpay : frame20.drop lenientCodec.serializedSize = [] := hd
    rw [hpay] at h
    simp only [receiveAll, h]
    rfl

/-- Claim C18 (amended): when `PacketReceived` for peer `A` returns normally, the buffer of
every other peer `B` is unchanged and a later `PacketReceived` for `B` has the same
outcome (frames, fault or divergence, buffer of `B`) as without the call for `A`. A header
declaring size 0 at the head of the buffer of `A` aborts, which ends the run whatever
was to follow for other peers. -/
theorem C18_peer_isolation (c : HeaderCodec) (fuel : Nat) (srv srv1 : WorkServer)
    (A : Address) (p : List Nat) (frames : List Frame)
    (h : PacketReceived c fuel srv A p = some (.ok (srv1, frames))) :
    (∀ B, B ≠ A → srv1.m_buffer B = srv.m_buffer B) ∧
    (∀ B q, B ≠ A →
      PacketReceived c fuel srv1 B q =
        match PacketReceived c fuel srv B q with
        | none => none
        | some (.error f) => some (.error f)
        | some (.ok (s, fr)) => some (.ok (srv1.setBuffer B (s.bufferOf B), fr))) ∧
    (∀ (s : WorkServer) (p0 : List Nat) (hd : SeqTsSizeHeader)
        (later : List (Address × List Nat)),
      c.peek (s.bufferOf A ++ p0) = .ok hd → hd.size = 0 →
      receiveAll c fuel ((A, p0) :: later) s = some (.error ServerFault.zeroSizeHeader)) := by
  obtain ⟨header, rest, -, -, -, hs⟩ := PacketReceived_ok_inv c fuel srv srv1 A p frames h
  subst hs
  refine ⟨fun B hB => m_buffer_setBuffer_other srv A B rest hB, fun B q hB => ?_, ?_⟩
  · exact PacketReceived_of_bufferOf c fuel srv _ B q (bufferOf_setBuffer_other srv A B rest hB)
  · intro s p0 hd later hp hz
    simp [receiveAll, PacketReceived, hp, hz]

/-- Claim C18 (witness): peer 1 delivers two frames, the second of which stays in its buffer;
peer 2, unseen so far, still has no buffer, and a header declaring size 0 from peer 1
ends the run. -/
theorem C18_peer_isolation_witness :
    (binaryServer.setBuffer 1 (headerBytes 20 8)).m_buffer 2 = binaryServer.m_buffer 2 ∧
    receiveAll lenientCodec 1 [(1, headerBytes 0 7), (2, frame20)]
        (binaryServer.setBuffer 1 [])
      = some (.error ServerFault.zeroSizeHeader) := by
  have h := C18_peer_isolation lenientCodec 1 binaryServer _ 1 twoFrames _
    (PacketReceived_twoFrames lenientCodec 0 rfl lenientCodec_peek_headerBytes)
  refine ⟨h.1 2 (by decide), ?_⟩
  refine h.2.2 (binaryServer.setBuffer 1 []) (headerBytes 0 7)
    { seq := 7, ts := 0, size := 0 } [(2, frame20)] ?_ rfl
  rw [bufferOf_setBuffer_same, List.nil_append]
  have := lenientCodec_peek_headerBytes 0 7 []
  simpa using this

/-! ## HandlePacket and HandleRead -/

/-- Claim C19: for every non-empty frame, `HandlePacket` takes off its first byte and its last
byte and sends exactly one response, on the socket it was given: `"[Accepted]"` when
bytes remain, `"[Refused]"` otherwise. -/
theorem C19_HandlePacket_response (buffer : List Nat) (socket : Address)
    (h : buffer ≠ []) :
    HandlePacket buffer socket
      = [(socket, if (buffer.drop 1).dropLast = [] then refusedText else acceptedText)] := by
  cases buffer with
  | nil => exact absurd rfl h
  | cons b bs =>
    have hlen : (bs.take (bs.length - 1)).length = bs.dropLast.length := by
      rw [List.dropLast_eq_take]
    by_cases hd : bs.dropLast = []
    · have h0 : ¬ (bs.take (bs.length - 1)).length > 0 := by
        rw [hlen, hd]
        simp
      simp only [HandlePacket, List.isEmpty_cons, Bool.false_eq_true, if_false, List.drop_succ_cons,
        List.drop_zero, h0, hd, if_true]
    · have h0 : (bs.take (bs.length - 1)).length > 0 := by
        rw [hlen]
        exact List.length_pos.mpr hd
      simp only [HandlePacket, List.isEmpty_cons, Bool.false_eq_true, if_false, List.drop_succ_cons,
        List.drop_zero, h0, hd, if_true]

/-- Claim C19 (witness): the frame `"[hello]"` is answered `"[Accepted]"` and the frame `"[]"`
is answered `"[Refused]"`, each on the socket given (socket 9). -/
theorem C19_HandlePacket_response_witness :
    HandlePacket helloText 9 = [(9, acceptedText)] ∧
    HandlePacket [91, 93] 9 = [(9, refusedText)] := by
  constructor
  · have h := C19_HandlePacket_response helloText 9 (by simp [helloText])
    simpa [helloText] using h
  · have h := C19_HandlePacket_response [91, 93] 9 (by simp)
    simpa using h

/-- The position of the first `]` when none comes before it. -/
theorem findIdx_close (pre tail : List Nat) (h : 93 ∉ pre) :
    (pre ++ 93 :: tail).findIdx? (fun b => b == 93) = some pre.length := by
  have hnone : pre.findIdx? (fun b => b == 93) = none := by
    rw [List.findIdx?_eq_none_iff]
    intro x hx
    have : x ≠ 93 := fun he => h (he ▸ hx)
    simpa using this
  simp [List.findIdx?_append, hnone]

/-- The text frame of a packet `[` content `]` whose content holds neither `]` nor a NUL
byte is the whole packet, whatever follows it in memory. -/
theorem textFrame_bracketed (content beyond : List Nat)
    (h93 : 93 ∉ content) (h0 : 0 ∉ content) :
    textFrame (91 :: content ++ [93]) beyond = 91 :: content ++ [93] := by
  have hnz : ∀ a ∈ (91 :: content ++ [93]), (fun b : Nat => b != 0) a = true := by
    intro a ha
    have : a ≠ 0 := by
      rintro rfl
      simp at ha
      exact h0 ha
    simpa using this
  have hc : cString (91 :: content ++ [93]) beyond
      = (91 :: content) ++ 93 :: beyond.takeWhile (fun b => b != 0) := by
    unfold cString
    rw [List.takeWhile_append_of_pos hnz]
    simp
  have hpre : 93 ∉ (91 :: content) := by
    simp [h93]
  unfold textFrame
  rw [hc, findIdx_close _ _ hpre]
  simp only []
  rw [List.take_append_eq_append_take]
  simp

/-- Claim C20 (counterexample): the packet `[`, NUL, `]` (content: one NUL byte, no `]`) is cut
at the NUL byte by the conversion to a C string; no `]` is found in what is left, the
text frame is empty and no response is sent. -/
theorem C20_counterexample :
    (93 : Nat) ∉ [0] ∧ ([0] : List Nat) ≠ [] ∧
    ∃ r, HandleRead lenientCodec 0 textServer 9
        [{ data := 91 :: [0] ++ [93], peer := 1, beyond := [] }] = some (.ok r) ∧
      r.responses = [] := by
  refine ⟨by simp, by simp, _, rfl, ?_⟩
  simp [HandlePacket, textFrame, cString, List.takeWhile]

/-- With headers off, `HandleRead` on a socket holding one non-empty packet answers the text
frame of that packet and extracts no binary frame. -/
theorem HandleRead_single_text (c : HeaderCodec) (fuel : Nat) (srv : WorkServer)
    (socket : Address) (r : Received)
    (hoff : (srv.rxWithSeqTsSizeTraced && srv.m_enableSeqTsSizeHeader) = false)
    (hne : r.data ≠ []) :
    HandleRead c fuel srv socket [r] = some (.ok
      { srv := { srv with m_totalRx := toUint64 (srv.m_totalRx + r.data.length) }
        responses := HandlePacket (textFrame r.data r.beyond) socket
        frames := [] }) := by
  have hl : (r.data.length == 0) = false := by
    simpa using hne
  simp [HandleRead, readLoop, hl, hoff]

/-- Claim C20 (amended): with headers off, for every content `c` that holds neither `]` nor a
NUL byte, one call of `HandleRead` on a socket holding the packet `[` c `]` sends exactly
one response on that socket, `"[Accepted]"` iff `c` is not empty (else `"[Refused]"`),
extracts no binary frame and leaves the header switches of the server as they were. -/
theorem C20_text_framing (c : HeaderCodec) (fuel : Nat) (srv : WorkServer)
    (socket peer : Address) (content beyond : List Nat)
    (hoff : (srv.rxWithSeqTsSizeTraced && srv.m_enableSeqTsSizeHeader) = false)
    (h93 : 93 ∉ content) (h0 : 0 ∉ content) :
    ∃ r, HandleRead c fuel srv socket
        [{ data := 91 :: content ++ [93], peer := peer, beyond := beyond }] = some (.ok r) ∧
      r.responses = [(socket, if content = [] then refusedText else acceptedText)] ∧
      r.frames = [] ∧
      r.srv.rxWithSeqTsSizeTraced = srv.rxWithSeqTsSizeTraced ∧
      r.srv.m_enableSeqTsSizeHeader = srv.m_enableSeqTsSizeHeader := by
  have hne : (91 :: content ++ [93]) ≠ [] := by simp
  have hresp : HandlePacket (91 :: content ++ [93]) socket
      = [(socket, if content = [] then refusedText else acceptedText)] := by
    cases content with
    | nil => simp [HandlePacket]
    | cons x xs => simp [HandlePacket]
  refine ⟨_, HandleRead_single_text c fuel srv socket _ hoff hne, ?_, rfl, rfl, rfl⟩
  simp only [textFrame_bracketed content beyond h93 h0]
  exact hresp

/-- Claim C20 (witness): the bytes `"[hello]"` and later the bytes `"[]"`, each read by a call of
`HandleRead` on socket 9, are answered `"[Accepted]"` and then `"[Refused]"`. -/
theorem C20_text_framing_witness :
    ∃ r1 r2,
      HandleRead lenientCodec 0 textServer 9
        [{ data := 91 :: [104, 101, 108, 108, 111] ++ [93], peer := 1, beyond := [] }]
          = some (.ok r1) ∧
      r1.responses = [(9, acceptedText)] ∧
      HandleRead lenientCodec 0 r1.srv 9 [{ data := 91 :: [] ++ [93], peer := 1, beyond := [] }]
          = some (.ok r2) ∧
      r2.responses = [(9, refusedText)] := by
  obtain ⟨r1, h1, h2, -, h3, h4⟩ := C20_text_framing lenientCodec 0 textServer 9 1
    [104, 101, 108, 108, 111] [] rfl (by simp) (by simp)
  obtain ⟨r2, g1, g2, -⟩ := C20_text_framing lenientCodec 0 r1.srv 9 1 [] []
    (by rw [h3, h4]; rfl) (by simp) (by simp)
  exact ⟨r1, r2, h1, by simpa using h2, g1, by simpa using g2⟩
/-! ## Text frames of HandleRead -/

/-- The text frame depends only on the bytes of the packet followed by the bytes behind
it. -/
theorem textFrame_append (data beyond : List Nat) :
    textFrame data beyond = textFrame (data ++ beyond) [] := by
  simp [textFrame, cString]

/-- A packet whose first `]` is not preceded by a NUL byte: the text frame is the packet up
to and including that `]`, whatever follows in the packet and behind it. -/
theorem textFrame_first_close (pre rest beyond : List Nat)
    (h93 : 93 ∉ pre) (h0 : 0 ∉ pre) :
    textFrame (pre ++ 93 :: rest) beyond = pre ++ [93] := by
  have hnz : ∀ a ∈ pre, (fun b : Nat => b != 0) a = true := by
    intro a ha
    have : a ≠ 0 := by
      rintro rfl
      exact h0 ha
    simpa using this
  have hc : cString (pre ++ 93 :: rest) beyond
      = pre ++ 93 :: (rest ++ beyond).takeWhile (fun b => b != 0) := by
    unfold cString
    rw [List.append_assoc, List.takeWhile_append_of_pos hnz]
    simp [List.takeWhile]
  unfold textFrame
  rw [hc, findIdx_close _ _ h93]
  simp only []
  rw [List.take_append_eq_append_take]
  simp

/-- A NUL byte before the first `]` ends the string: no `]` is found and the text frame is
empty. -/
theorem textFrame_nul_cut (pre rest beyond : List Nat)
    (h93 : 93 ∉ pre) (h0 : 0 ∉ pre) :
    textFrame (pre ++ 0 :: rest) beyond = [] := by
  have hnz : ∀ a ∈ pre, (fun b : Nat => b != 0) a = true := by
    intro a ha
    have : a ≠ 0 := by
      rintro rfl
      exact h0 ha
    simpa using this
  have hc : cString (pre ++ 0 :: rest) beyond = pre := by
    unfold cString
    rw [List.append_assoc, List.takeWhile_append_of_pos hnz]
    simp [List.takeWhile]
  have hnone : pre.findIdx? (fun b => b == 93) = none := by
    rw [List.findIdx?_eq_none_iff]
    intro x hx
    have : x ≠ 93 := fun he => h93 (he ▸ hx)
    simpa using this
  unfold textFrame
  rw [hc, hnone]

/-- A packet with neither `]` nor a NUL byte: the string runs on into the bytes behind the
packet, and when these hold a `]` before any NUL byte the text frame ends there. -/
theorem textFrame_over_read (data pre rest : List Nat)
    (h93 : 93 ∉ data) (h0 : 0 ∉ data) (g93 : 93 ∉ pre) (g0 : 0 ∉ pre) :
    textFrame data (pre ++ 93 :: rest) = data ++ pre ++ [93] := by
  rw [textFrame_append, ← List.append_assoc]
  apply textFrame_first_close
  · simp [h93, g93]
  · simp [h0, g0]

/-- Claim C21 (defect): the packet `"Message!"` (the text payload of the sender) holds neither
`]` nor a NUL byte. The conversion `(char *) buffer` of its unterminated copy reads on
behind the packet: when a `]` follows there, the text frame is the packet and that byte,
and `"[Accepted]"` is sent; when a NUL byte follows, the frame is empty and nothing is
sent. So a packet without `]` can yield a frame and a response, and the frame is not a
function of the bytes received. Also, the packet NUL, `]` holds a `]`, but its text frame
is empty and not the prefix up to the `]`. -/
theorem C21_text_frame_reads_past_packet :
    (93 : Nat) ∉ z_message ∧ (0 : Nat) ∉ z_message ∧
    textFrame z_message [93] = z_message ++ [93] ∧
    (∃ r, HandleRead lenientCodec 0 textServer 9
        [{ data := z_message, peer := 1, beyond := [93] }] = some (.ok r) ∧
      r.responses = [(9, acceptedText)]) ∧
    (∃ r, HandleRead lenientCodec 0 textServer 9
        [{ data := z_message, peer := 1, beyond := [0] }] = some (.ok r) ∧
      r.responses = []) ∧
    (93 : Nat) ∈ [0, 93] ∧ (∀ beyond, textFrame [0, 93] beyond = []) := by
  refine ⟨by simp [z_message], by simp [z_message], ?_, ⟨_, rfl, ?_⟩, ⟨_, rfl, ?_⟩, by simp, ?_⟩
  · exact textFrame_over_read z_message [] [] (by simp [z_message]) (by simp [z_message])
      (by simp) (by simp)
  · rfl
  · rfl
  · intro beyond
    exact textFrame_nul_cut [] [93] beyond (by simp) (by simp)

/-! ## One call of HandleRead -/

/-- Overwriting a value with each element of a list leaves what the last element gave. -/
theorem foldl_overwrite (f : Received → List Nat) :
    ∀ (l : List Received) (init : List Nat),
      l.foldl (fun _ r => f r) init
        = match l.getLast? with
          | none => init
          | some r => f r := by
  intro l
  induction l with
  | nil => intro init; rfl
  | cons a rest ih =>
    intro init
    rw [List.foldl_cons, ih]
    cases rest with
    | nil => rfl
    | cons b rest2 =>
      have hc : (a :: b :: rest2).getLast? = (b :: rest2).getLast? := List.getLast?_cons_cons
      rw [hc]
      cases hg : (b :: rest2).getLast? with
      | none => simp at hg
      | some x => rfl

/-- The frame left in `newBuffer` by a non-empty list of packets. -/
theorem lastFrame_eq_foldl (l : List Received) (init : List Nat) (h : l ≠ []) :
    l.foldl (fun _ r => textFrame r.data r.beyond) init = lastFrame l := by
  rw [foldl_overwrite (fun r => textFrame r.data r.beyond)]
  unfold lastFrame
  cases hl : l.getLast? with
  | none => exact absurd (List.getLast?_eq_none_iff.mp hl) h
  | some r => rfl

/-- The server members that `setBuffer` leaves alone. -/
theorem PacketReceived_fields (c : HeaderCodec) (fuel : Nat) (srv srv1 : WorkServer)
    (peer : Address) (p : List Nat) (frames : List Frame)
    (h : PacketReceived c fuel srv peer p = some (.ok (srv1, frames))) :
    srv1.m_socketList = srv.m_socketList ∧ srv1.m_socket = srv.m_socket ∧
    srv1.m_totalRx = srv.m_totalRx ∧
    srv1.m_enableSeqTsSizeHeader = srv.m_enableSeqTsSizeHeader ∧
    srv1.rxWithSeqTsSizeTraced = srv.rxWithSeqTsSizeTraced ∧
    (∀ a, (srv.m_buffer a).isSome = true → (srv1.m_buffer a).isSome = true) := by
  obtain ⟨header, rest, -, -, -, hs⟩ := PacketReceived_ok_inv c fuel srv srv1 peer p frames h
  subst hs
  refine ⟨rfl, rfl, rfl, rfl, rfl, ?_⟩
  intro a ha
  simp only [WorkServer.setBuffer]
  split
  · rfl
  · exact ha

/-- What the receive loop of `HandleRead` leaves when it returns: the frame of the last
packet drained (or the value `newBuffer` had), the bytes of the drained packets counted,
the sockets and switches as before, no buffer removed. -/
theorem readLoop_ok_inv (c : HeaderCodec) (fuel : Nat) :
    ∀ (pending : List Received) (srv srv1 : WorkServer) (newBuffer last : List Nat)
      (frames : List Frame),
      readLoop c fuel pending srv newBuffer = some (.ok (srv1, last, frames)) →
      last = (drained pending).foldl (fun _ r => textFrame r.data r.beyond) newBuffer ∧
      srv1.m_totalRx = countRx srv.m_totalRx (drained pending) ∧
      srv1.m_socketList = srv.m_socketList ∧ srv1.m_socket = srv.m_socket ∧
      srv1.m_enableSeqTsSizeHeader = srv.m_enableSeqTsSizeHeader ∧
      srv1.rxWithSeqTsSizeTraced = srv.rxWithSeqTsSizeTraced ∧
      (∀ a, (srv.m_buffer a).isSome = true → (srv1.m_buffer a).isSome = true) := by
  intro pending
  induction pending with
  | nil =>
    intro srv srv1 newBuffer last frames h
    simp only [readLoop, Option.some.injEq, Except.ok.injEq, Prod.mk.injEq] at h
    obtain ⟨h1, h2, -⟩ := h
    subst h1 h2
    exact ⟨rfl, rfl, rfl, rfl, rfl, rfl, fun _ ha => ha⟩
  | cons r rest ih =>
    intro srv srv1 newBuffer last frames h
    by_cases hz : r.data.length = 0
    · have hb : (r.data.length != 0) = false := by simpa using hz
      have hd : drained (r :: rest) = [] := by
        simp only [drained, List.takeWhile, hb]
      have hz2 : (r.data.length == 0) = true := by simpa using hz
      simp only [readLoop, hz2, if_true, Option.some.injEq, Except.ok.injEq,
        Prod.mk.injEq] at h
      obtain ⟨h1, h2, -⟩ := h
      subst h1 h2
      rw [hd]
      exact ⟨rfl, rfl, rfl, rfl, rfl, rfl, fun _ ha => ha⟩
    · have hb : (r.data.length != 0) = true := by simpa using hz
      have hd : drained (r :: rest) = r :: drained rest := by
        simp only [drained, List.takeWhile, hb]
      have hz2 : (r.data.length == 0) = false := by simpa using hz
      rw [hd, List.foldl_cons]
      simp only [countRx, List.foldl_cons]
      simp only [readLoop, hz2, Bool.false_eq_true, if_false] at h
      by_cases hon : (srv.rxWithSeqTsSizeTraced && srv.m_enableSeqTsSizeHeader) = true
      · simp only [hon, if_true] at h
        cases hp : PacketReceived c fuel
            { srv with m_totalRx := toUint64 (srv.m_totalRx + r.data.length) } r.peer r.data with
        | none => simp [hp] at h
        | some res =>
          cases res with
          | error f => simp [hp] at h
          | ok pr =>
            obtain ⟨srv2, fr⟩ := pr
            simp only [hp] at h
            cases hl : readLoop c fuel rest srv2 (textFrame r.data r.beyond) with
            | none => simp [hl] at h
            | some res2 =>
              cases res2 with
              | error f => simp [hl] at h
              | ok q =>
                obtain ⟨srv3, last3, more⟩ := q
                simp only [hl, Option.some.injEq, Except.ok.injEq, Prod.mk.injEq] at h
                obtain ⟨h1, h2, -⟩ := h
                subst h1 h2
                obtain ⟨a1, a2, a3, a4, a5, a6, a7⟩ := ih srv2 srv3 _ last3 more hl
                obtain ⟨b1, b2, b3, b4, b5, b6⟩ := PacketReceived_fields c fuel _ srv2 _ _ fr hp
                refine ⟨a1, ?_, a3.trans b1, a4.trans b2, a5.trans b4, a6.trans b5,
                  fun a ha => a7 a (b6 a ha)⟩
                rw [a2, b3]
                rfl
      · have hoff : (srv.rxWithSeqTsSizeTraced && srv.m_enableSeqTsSizeHeader) = false := by
          simpa using hon
        simp only [hoff, Bool.false_eq_true, if_false] at h
        obtain ⟨a1, a2, a3, a4, a5, a6, a7⟩ := ih _ srv1 _ last frames h
        exact ⟨a1, a2, a3, a4, a5, a6, a7⟩

/-- With headers off the receive loop returns, and hands no packet to `PacketReceived`. -/
theorem readLoop_text (c : HeaderCodec) (fuel : Nat) :
    ∀ (pending : List Received) (srv : WorkServer) (newBuffer : List Nat),
      (srv.rxWithSeqTsSizeTraced && srv.m_enableSeqTsSizeHeader) = false →
      readLoop c fuel pending srv newBuffer = some (.ok
        ({ srv with m_totalRx := countRx srv.m_totalRx (drained pending) },
         (drained pending).foldl (fun _ r => textFrame r.data r.beyond) newBuffer, [])) := by
  intro pending
  induction pending with
  | nil =>
    intro srv newBuffer _
    rfl
  | cons r rest ih =>
    intro srv newBuffer hoff
    by_cases hz : r.data.length = 0
    · have hb : (r.data.length != 0) = false := by simpa using hz
      have hd : drained (r :: rest) = [] := by
        simp only [drained, List.takeWhile, hb]
      have hz2 : (r.data.length == 0) = true := by simpa using hz
      simp only [readLoop, hz2, if_true, hd]
      rfl
    · have hb : (r.data.length != 0) = true := by simpa using hz
      have hd : drained (r :: rest) = r :: drained rest := by
        simp only [drained, List.takeWhile, hb]
      have hz2 : (r.data.length == 0) = false := by simpa using hz
      simp only [readLoop, hz2, Bool.false_eq_true, if_false, hoff, hd]
      have hstep := ih { srv with m_totalRx := toUint64 (srv.m_totalRx + r.data.length) }
        (textFrame r.data r.beyond) hoff
      rw [hstep]
      rfl

/-- With headers off `HandleRead` returns: the drained packets are counted, the frame of
the last of them is handed to `HandlePacket`, and that is all. -/
theorem HandleRead_text_path (c : HeaderCodec) (fuel : Nat) (srv : WorkServer)
    (socket : Address) (pending : List Received)
    (hoff : (srv.rxWithSeqTsSizeTraced && srv.m_enableSeqTsSizeHeader) = false) :
    HandleRead c fuel srv socket pending = some (.ok
      { srv := { srv with m_totalRx := countRx srv.m_totalRx (drained pending) }
        responses := HandlePacket (lastFrame (drained pending)) socket
        frames := [] }) := by
  unfold HandleRead
  rw [readLoop_text c fuel pending srv [] hoff]
  simp only []
  rw [foldl_overwrite (fun r => textFrame r.data r.beyond)]
  rfl

/-- The responses of `HandlePacket` are at most one, on the socket given. -/
theorem HandlePacket_cases (buffer : List Nat) (socket : Address) :
    (buffer = [] → HandlePacket buffer socket = []) ∧
    (buffer ≠ [] → ∃ resp, HandlePacket buffer socket = [(socket, resp)]) := by
  constructor
  · rintro rfl
    rfl
  · intro h
    cases buffer with
    | nil => exact absurd rfl h
    | cons b bs => exact ⟨_, by simp only [HandlePacket, List.isEmpty_cons]; rfl⟩

/-- Claim C27: whenever one call of `HandleRead` returns, whatever number of packets it
drained (those before the first empty packet), it has sent at most one response: the one
`HandlePacket` gives to the text frame of the last packet drained, on the socket of the
call; none when that frame is empty (or no packet was drained), exactly one otherwise.
Every drained packet is counted in `m_totalRx`. With headers off the call does return. -/
theorem C27_one_response_per_read (c : HeaderCodec) (fuel : Nat) (srv : WorkServer)
    (socket : Address) (pending : List Received) :
    (∀ r, HandleRead c fuel srv socket pending = some (.ok r) →
      r.responses.length ≤ 1 ∧
      r.responses = HandlePacket (lastFrame (drained pending)) socket ∧
      (lastFrame (drained pending) = [] → r.responses = []) ∧
      (lastFrame (drained pending) ≠ [] → ∃ resp, r.responses = [(socket, resp)]) ∧
      r.srv.m_totalRx = countRx srv.m_totalRx (drained pending)) ∧
    ((srv.rxWithSeqTsSizeTraced && srv.m_enableSeqTsSizeHeader) = false →
      ∃ r, HandleRead c fuel srv socket pending = some (.ok r)) := by
  constructor
  · intro r h
    unfold HandleRead at h
    cases hl : readLoop c fuel pending srv [] with
    | none => simp [hl] at h
    | some res =>
      cases res with
      | error f => simp [hl] at h
      | ok q =>
        obtain ⟨srv1, last, frames⟩ := q
        simp only [hl, Option.some.injEq, Except.ok.injEq] at h
        subst h
        obtain ⟨a1, a2, -⟩ := readLoop_ok_inv c fuel pending srv srv1 [] last frames hl
        have hlast : last = lastFrame (drained pending) := by
          rw [a1, foldl_overwrite (fun r => textFrame r.data r.beyond)]
          rfl
        subst hlast
        obtain ⟨h1, h2⟩ := HandlePacket_cases (lastFrame (drained pending)) socket
        refine ⟨?_, rfl, h1, h2, a2⟩
        by_cases he : lastFrame (drained pending) = []
        · simp only [h1 he, List.length_nil]
          omega
        · obtain ⟨resp, hr⟩ := h2 he
          simp only [hr, List.length_singleton]
          omega
  · intro hoff
    exact ⟨_, HandleRead_text_path c fuel srv socket pending hoff⟩

/-- Claim C27 (witness): one call drains `"[hello]"`, `"[]"` and stops at an empty packet; a
fourth packet stays in the socket. Only `"[]"` is answered (`"[Refused]"`), and 9 bytes are
counted. -/
theorem C27_one_response_per_read_witness :
    ∃ r, HandleRead lenientCodec 0 textServer 9
        [{ data := helloText, peer := 1, beyond := [] },
         { data := [91, 93], peer := 1, beyond := [] },
         { data := [], peer := 1, beyond := [] },
         { data := helloText, peer := 1, beyond := [] }] = some (.ok r) ∧
      r.responses = [(9, refusedText)] ∧ r.srv.m_totalRx = 9 := by
  obtain ⟨r, hr⟩ := (C27_one_response_per_read lenientCodec 0 textServer 9
    [{ data := helloText, peer := 1, beyond := [] },
     { data := [91, 93], peer := 1, beyond := [] },
     { data := [], peer := 1, beyond := [] },
     { data := helloText, peer := 1, beyond := [] }]).2 rfl
  obtain ⟨-, h2, -, -, h5⟩ := (C27_one_response_per_read lenientCodec 0 textServer 9 _).1 r hr
  refine ⟨r, hr, ?_, ?_⟩
  · rw [h2]
    rfl
  · rw [h5]
    rfl

/-! ## Successive reads, connections -/

/-- The response to a packet that is one whole text frame `[` content `]`. -/
theorem HandlePacket_bracketed (content : List Nat) (socket : Address) :
    HandlePacket (bracketed content) socket = [(socket, verdict content)] := by
  cases content with
  | nil => simp [HandlePacket, bracketed, verdict]
  | cons x xs => simp [HandlePacket, bracketed, verdict]

/-- With headers off, a read of the single packet `[` content `]` (content without `]` and
NUL byte) counts the bytes and sends the response to that frame. -/
theorem serverStep_bracketed (c : HeaderCodec) (fuel : Nat) (srv : WorkServer)
    (socket peer : Address) (content beyond : List Nat)
    (hoff : (srv.rxWithSeqTsSizeTraced && srv.m_enableSeqTsSizeHeader) = false)
    (h93 : 93 ∉ content) (h0 : 0 ∉ content) :
    serverStep c fuel (readOne socket peer (bracketed content) beyond) srv
      = some (.ok ({ srv with m_totalRx := toUint64 (srv.m_totalRx + (content.length + 2)) },
          [(socket, verdict content)])) := by
  have hne : bracketed content ≠ [] := by simp [bracketed]
  have hframe : textFrame (bracketed content) beyond = bracketed content :=
    textFrame_bracketed content beyond h93 h0
  simp only [serverStep, readOne]
  rw [HandleRead_single_text c fuel srv socket _ hoff hne]
  simp only [hframe, HandlePacket_bracketed]
  simp [bracketed]

/-- Frames that arrive one per read, each as one packet, are answered one by one. -/
theorem serve_bracketed (c : HeaderCodec) (fuel : Nat) (socket peer : Address) :
    ∀ (frames : List (List Nat × List Nat)) (srv : WorkServer),
      (srv.rxWithSeqTsSizeTraced && srv.m_enableSeqTsSizeHeader) = false →
      (∀ f ∈ frames, 93 ∉ f.1 ∧ 0 ∉ f.1) →
      ∃ s, serve c fuel (frames.map (fun f => readOne socket peer (bracketed f.1) f.2)) srv
          = some (.ok (s, frames.map (fun f => (socket, verdict f.1)))) ∧
        s.rxWithSeqTsSizeTraced = srv.rxWithSeqTsSizeTraced ∧
        s.m_enableSeqTsSizeHeader = srv.m_enableSeqTsSizeHeader := by
  intro frames
  induction frames with
  | nil =>
    intro srv _ _
    exact ⟨srv, rfl, rfl, rfl⟩
  | cons f rest ih =>
    intro srv hoff hclean
    have hf := hclean f (List.mem_cons_self _ _)
    obtain ⟨s, hs, hs1, hs2⟩ :=
      ih { srv with m_totalRx := toUint64 (srv.m_totalRx + (f.1.length + 2)) } hoff
        (fun g hg => hclean g (List.mem_cons_of_mem _ hg))
    refine ⟨s, ?_, hs1, hs2⟩
    simp only [List.map_cons, serve]
    rw [serverStep_bracketed c fuel srv socket peer f.1 f.2 hoff hf.1 hf.2]
    simp only []
    rw [hs]
    rfl

/-- Claim C22 (counterexample): the stream `"[a]"` in one read is answered `"[Accepted]"`; cut
into the reads `"["` and `"a]"` it is answered `"[Refused]"` (from `"a]"` alone). The
stream `"[a][]"` in one read is answered `"[Accepted]"` only; with each frame in a read of
its own it is answered `"[Accepted]"`, `"[Refused]"`. -/
theorem C22_counterexample :
    (∃ s, serve lenientCodec 0 [readOne 9 1 [91, 97, 93] []] textServer
      = some (.ok (s, [(9, acceptedText)]))) ∧
    (∃ s, serve lenientCodec 0 [readOne 9 1 [91] [], readOne 9 1 [97, 93] []] textServer
      = some (.ok (s, [(9, refusedText)]))) ∧
    (∃ s, serve lenientCodec 0 [readOne 9 1 [91, 97, 93, 91, 93] []] textServer
      = some (.ok (s, [(9, acceptedText)]))) ∧
    (∃ s, serve lenientCodec 0 [readOne 9 1 [91, 97, 93] [], readOne 9 1 [91, 93] []]
        textServer
      = some (.ok (s, [(9, acceptedText), (9, refusedText)]))) :=
  ⟨⟨_, rfl⟩, ⟨_, rfl⟩, ⟨_, rfl⟩, ⟨_, rfl⟩⟩

/-- Claim C22 (amended): the text path keeps nothing from one read to the next. With headers
off, (1) when every frame `[` c `]` (c without `]` and NUL byte) arrives as one packet in
a read of its own, the responses are, in order, one per frame, `"[Accepted]"` iff c is
not empty; (2) the responses to a read are the same in every state of the server: they
are what `HandlePacket` gives to the first text frame of the last packet of that read, so
bytes of earlier reads and frames behind the first `]` of a packet are never answered. -/
theorem C22_text_frames_one_per_read (c : HeaderCodec) (fuel : Nat) (srv : WorkServer)
    (socket peer : Address) (frames : List (List Nat × List Nat))
    (hoff : (srv.rxWithSeqTsSizeTraced && srv.m_enableSeqTsSizeHeader) = false)
    (hclean : ∀ f ∈ frames, 93 ∉ f.1 ∧ 0 ∉ f.1) :
    (∃ s, serve c fuel (frames.map (fun f => readOne socket peer (bracketed f.1) f.2)) srv
        = some (.ok (s, frames.map (fun f => (socket, verdict f.1))))) ∧
    (∀ (srv2 : WorkServer) (pending : List Received),
      (srv2.rxWithSeqTsSizeTraced && srv2.m_enableSeqTsSizeHeader) = false →
      ∃ r r2, HandleRead c fuel srv socket pending = some (.ok r) ∧
        HandleRead c fuel srv2 socket pending = some (.ok r2) ∧
        r.responses = r2.responses ∧
        r.responses = HandlePacket (lastFrame (drained pending)) socket) := by
  constructor
  · obtain ⟨s, hs, -⟩ := serve_bracketed c fuel socket peer frames srv hoff hclean
    exact ⟨s, hs⟩
  · intro srv2 pending hoff2
    exact ⟨_, _, HandleRead_text_path c fuel srv socket pending hoff,
      HandleRead_text_path c fuel srv2 socket pending hoff2, rfl, rfl⟩

/-- Claim C22 (witness): `"[hello]"` and `"[]"`, each in a read of its own, are answered
`"[Accepted]"` and `"[Refused]"`; and the read `"a]"` is answered `"[Refused]"` by the
fresh server as by any other server with headers off. -/
theorem C22_text_frames_one_per_read_witness :
    (∃ s, serve lenientCodec 0
        [readOne 9 1 (bracketed [104, 101, 108, 108, 111]) [], readOne 9 1 (bracketed []) []]
        textServer
      = some (.ok (s, [(9, acceptedText), (9, refusedText)]))) ∧
    (∃ r, HandleRead lenientCodec 0 textServer 9 [{ data := [97, 93], peer := 1, beyond := [] }]
        = some (.ok r) ∧ r.responses = [(9, refusedText)]) := by
  have h := C22_text_frames_one_per_read lenientCodec 0 textServer 9 1
    [([104, 101, 108, 108, 111], []), ([], [])] rfl (by simp)
  constructor
  · obtain ⟨s, hs⟩ := h.1
    exact ⟨s, hs⟩
  · obtain ⟨r, r2, h1, -, -, h4⟩ :=
      h.2 textServer [{ data := [97, 93], peer := 1, beyond := [] }] rfl
    refine ⟨r, h1, ?_⟩
    rw [h4]
    rfl

/-- What one call leaves of the accepted sockets and of the buffers, `StopApplication`
apart. -/
theorem serverStep_bookkeeping (c : HeaderCodec) (fuel : Nat) (e : ServerEvent)
    (srv srv1 : WorkServer) (out : List (Address × List Nat))
    (hno : hasStop [e] = false)
    (h : serverStep c fuel e srv = some (.ok (srv1, out))) :
    srv1.m_socketList = srv.m_socketList ++ acceptedIn [e] ∧
    (∀ a, (srv.m_buffer a).isSome = true → (srv1.m_buffer a).isSome = true) := by
  cases e with
  | accept s =>
    simp only [serverStep, Option.some.injEq, Except.ok.injEq, Prod.mk.injEq] at h
    obtain ⟨h1, -⟩ := h
    subst h1
    exact ⟨rfl, fun _ ha => ha⟩
  | peerClose s =>
    simp only [serverStep, Option.some.injEq, Except.ok.injEq, Prod.mk.injEq] at h
    obtain ⟨h1, -⟩ := h
    subst h1
    exact ⟨by simp [acceptedIn, WorkServer.HandlePeerClose], fun _ ha => ha⟩
  | peerError s =>
    simp only [serverStep, Option.some.injEq, Except.ok.injEq, Prod.mk.injEq] at h
    obtain ⟨h1, -⟩ := h
    subst h1
    exact ⟨by simp [acceptedIn, WorkServer.HandlePeerError], fun _ ha => ha⟩
  | read socket pending =>
    simp only [serverStep] at h
    unfold HandleRead at h
    cases hl : readLoop c fuel pending srv [] with
    | none => simp [hl] at h
    | some res =>
      cases res with
      | error f => simp [hl] at h
      | ok q =>
        obtain ⟨srv2, last, frames⟩ := q
        simp only [hl, Option.some.injEq, Except.ok.injEq, Prod.mk.injEq] at h
        obtain ⟨h1, -⟩ := h
        subst h1
        obtain ⟨-, -, a3, -, -, -, a7⟩ := readLoop_ok_inv c fuel pending srv srv2 [] last frames hl
        exact ⟨by simpa [acceptedIn] using a3, a7⟩
  | stop => simp [hasStop] at hno

/-- The accepted sockets and the buffers over a sequence of calls without
`StopApplication`. -/
theorem serve_bookkeeping (c : HeaderCodec) (fuel : Nat) :
    ∀ (evs : List ServerEvent) (srv srv1 : WorkServer) (out : List (Address × List Nat)),
      hasStop evs = false →
      serve c fuel evs srv = some (.ok (srv1, out)) →
      srv1.m_socketList = srv.m_socketList ++ acceptedIn evs ∧
      (∀ a, (srv.m_buffer a).isSome = true → (srv1.m_buffer a).isSome = true) := by
  intro evs
  induction evs with
  | nil =>
    intro srv srv1 out _ h
    simp only [serve, Option.some.injEq, Except.ok.injEq, Prod.mk.injEq] at h
    obtain ⟨h1, -⟩ := h
    subst h1
    exact ⟨by simp [acceptedIn], fun _ ha => ha⟩
  | cons e rest ih =>
    intro srv srv1 out hno h
    have hne : hasStop [e] = false ∧ hasStop rest = false := by
      cases e <;> simp_all [hasStop]
    have hacc : acceptedIn (e :: rest) = acceptedIn [e] ++ acceptedIn rest := by
      cases e <;> simp [acceptedIn]
    simp only [serve] at h
    cases hs : serverStep c fuel e srv with
    | none => simp [hs] at h
    | some res =>
      cases res with
      | error f => simp [hs] at h
      | ok q =>
        obtain ⟨srv2, out1⟩ := q
        simp only [hs] at h
        cases hr : serve c fuel rest srv2 with
        | none => simp [hr] at h
        | some res2 =>
          cases res2 with
          | error f => simp [hr] at h
          | ok q2 =>
            obtain ⟨srv3, more⟩ := q2
            simp only [hr, Option.some.injEq, Except.ok.injEq, Prod.mk.injEq] at h
            obtain ⟨h1, -⟩ := h
            subst h1
            obtain ⟨a1, a2⟩ := serverStep_bookkeeping c fuel e srv srv2 out1 hne.1 hs
            obtain ⟨b1, b2⟩ := ih srv2 srv3 more hne.2 hr
            refine ⟨?_, fun a ha => b2 a (a2 a ha)⟩
            rw [b1, a1, hacc, List.append_assoc]

/-- Claim C23 (counterexample): socket 5 is accepted, 15 bytes of a 20-byte frame arrive on it
from peer 1, then the connection is closed and errors. The socket is still in
`m_socketList` and the buffer of peer 1 still holds the 15 bytes. -/
theorem C23_counterexample :
    ∃ s out, serve lenientCodec 1
        [ServerEvent.accept 5,
         ServerEvent.read 5 [{ data := frame20.take 15, peer := 1, beyond := [] }],
         ServerEvent.peerClose 5, ServerEvent.peerError 5] binaryServer
        = some (.ok (s, out)) ∧
      5 ∈ s.m_socketList ∧ s.m_buffer 1 = some (frame20.take 15) := by
  refine ⟨_, _, rfl, ?_, ?_⟩
  · simp [WorkServer.HandlePeerError, WorkServer.HandlePeerClose, WorkServer.HandleAccept,
      WorkServer.setBuffer, binaryServer, WorkServer.init]
  · rfl

/-- Claim C23 (amended): `HandlePeerClose` and `HandlePeerError` change nothing. Over every
sequence of calls without `StopApplication` that returns, `m_socketList` is the list at
the beginning followed by the sockets accepted since, in order (a closed or errored
connection stays in it), and no peer loses its receive buffer. `StopApplication` closes
exactly the sockets of `m_socketList`, in list order, and empties the list; it leaves the
receive buffers as they are. -/
theorem C23_connection_bookkeeping (c : HeaderCodec) (fuel : Nat) (evs : List ServerEvent)
    (srv srv1 : WorkServer) (out : List (Address × List Nat))
    (hno : hasStop evs = false)
    (hrun : serve c fuel evs srv = some (.ok (srv1, out))) :
    srv1.m_socketList = srv.m_socketList ++ acceptedIn evs ∧
    (∀ a, (srv.m_buffer a).isSome = true → (srv1.m_buffer a).isSome = true) ∧
    (∀ s, serverStep c fuel (ServerEvent.peerClose s) srv1 = some (.ok (srv1, [])) ∧
      serverStep c fuel (ServerEvent.peerError s) srv1 = some (.ok (srv1, []))) ∧
    srv1.StopApplication.2 = srv1.m_socketList ∧
    srv1.StopApplication.1.m_socketList = [] ∧
    srv1.StopApplication.1.m_buffer = srv1.m_buffer := by
  obtain ⟨h1, h2⟩ := serve_bookkeeping c fuel evs srv srv1 out hno hrun
  exact ⟨h1, h2, fun _ => ⟨rfl, rfl⟩, rfl, rfl, rfl⟩

/-- Claim C23 (witness): sockets 5 and 6 are accepted, bytes arrive from peer 1 on socket 5,
which is then closed: `m_socketList` is `[5, 6]`, the buffer of peer 1 is still there, and
`StopApplication` closes 5 and 6. -/
theorem C23_connection_bookkeeping_witness :
    ∃ s out, serve lenientCodec 1
        [ServerEvent.accept 5, ServerEvent.accept 6,
         ServerEvent.read 5 [{ data := frame20.take 15, peer := 1, beyond := [] }],
         ServerEvent.peerClose 5] binaryServer = some (.ok (s, out)) ∧
      s.m_socketList = [5, 6] ∧ s.StopApplication.2 = [5, 6] ∧
      s.StopApplication.1.m_socketList = [] := by
  refine ⟨_, _, rfl, ?_⟩
  have h := C23_connection_bookkeeping lenientCodec 1
    [ServerEvent.accept 5, ServerEvent.accept 6,
     ServerEvent.read 5 [{ data := frame20.take 15, peer := 1, beyond := [] }],
     ServerEvent.peerClose 5] binaryServer _ _ rfl rfl
  obtain ⟨h1, -, -, h4, h5, -⟩ := h
  refine ⟨?_, ?_, h5⟩
  · rw [h1]
    rfl
  · rw [h4, h1]
    rfl

/-! ## The debt stays within one packet -/

theorem pktBits_lt (a : DeviceEnforcer) : pktBits a < 4294967296 := by
  unfold pktBits toUint32
  omega

theorem pktBits_le (a : DeviceEnforcer) : pktBits a ≤ 8 * a.m_pktSize := by
  unfold pktBits toUint32
  omega

/-- An expired handle refers to no outstanding event. -/
theorem no_event_of_not_running (sim : Simulator) (id : EventId)
    (h : sim.IsRunning id = false) : ∀ e ∈ sim.events, id ≠ some e.uid := by
  intro e he hid
  subst hid
  simp only [Simulator.IsRunning, List.any_eq_false] at h
  exact h e he (by simp)

/-- A handle that is running refers to an outstanding event. -/
theorem event_of_running (sim : Simulator) (id : EventId)
    (h : sim.IsRunning id = true) : ∃ e ∈ sim.events, id = some e.uid := by
  cases id with
  | none => simp [Simulator.IsRunning] at h
  | some u =>
    simp only [Simulator.IsRunning, List.any_eq_true] at h
    obtain ⟨e, he, hu⟩ := h
    refine ⟨e, he, ?_⟩
    have : e.uid = u := by simpa using hu
    rw [this]

/-- Cancelling removes events and adds none. -/
theorem mem_of_mem_Cancel (sim : Simulator) (id : EventId) (e : ScheduledEvent)
    (h : e ∈ (sim.Cancel id).events) : e ∈ sim.events := by
  cases id with
  | none => exact h
  | some u =>
    simp only [Simulator.Cancel] at h
    exact List.mem_of_mem_filter h

/-- What `timely` says of a call that runs `CancelEvents` at time `now`. -/
theorem timely_cancel (now : Time) (w : Session)
    (h : (decide (w.app.m_lastStartTime ≤ now) &&
      w.sim.events.all (fun e => !(w.app.m_sendEvent == some e.uid) || decide (now ≤ e.ts)))
        = true) :
    w.app.m_lastStartTime ≤ now ∧
    ∀ e ∈ w.sim.events, w.app.m_sendEvent = some e.uid → now ≤ e.ts := by
  simp only [Bool.and_eq_true, decide_eq_true_eq, List.all_eq_true, Bool.or_eq_true,
    Bool.not_eq_true'] at h
  refine ⟨h.1, ?_⟩
  intro e he hid
  rcases h.2 e he with h1 | h1
  · rw [hid] at h1
    simp at h1
  · exact h1

/-- `CancelEvents` at a possible time keeps the debt within one packet. -/
theorem debtInv_CancelEvents (now : Time) (w : Session) (hinv : debtInv w)
    (ht : w.app.m_lastStartTime ≤ now)
    (hdue : ∀ e ∈ w.sim.events, w.app.m_sendEvent = some e.uid → now ≤ e.ts) :
    debtInv (CancelEvents now w) := by
  obtain ⟨hr, hev, hid⟩ := hinv
  have hexp := (CancelEvents_handles_expired now w).1
  have hP := pktBits_lt w.app
  refine ⟨?_, ?_, ?_⟩
  · show (CancelEvents now w).app.m_residualBits ≤ pktBits w.app
    by_cases hrun : w.sim.IsRunning w.app.m_sendEvent = true
    · by_cases hsnap : w.app.m_cbrRateFailSafe = w.app.m_cbrRate
      · rw [CancelEvents_residual_pending now w hrun hsnap]
        obtain ⟨e, he, heq⟩ := event_of_running _ _ hrun
        have h1 := hev e he heq
        have h2 := hdue e he heq
        have hR : (0 : ℚ) ≤ (w.app.m_cbrRate : ℚ) := Nat.cast_nonneg _
        have hle : (now - w.app.m_lastStartTime) * (w.app.m_cbrRate : ℚ)
            ≤ ((pktBits w.app - w.app.m_residualBits : Nat) : ℚ) :=
          le_trans (mul_le_mul_of_nonneg_right (by linarith) hR) h1
        have h0 : (0 : ℚ) ≤ (now - w.app.m_lastStartTime) * (w.app.m_cbrRate : ℚ) :=
          mul_nonneg (by linarith) hR
        have hf0 : 0 ≤ Int.floor ((now - w.app.m_lastStartTime) * (w.app.m_cbrRate : ℚ)) :=
          Int.floor_nonneg.mpr h0
        have hf1 : Int.floor ((now - w.app.m_lastStartTime) * (w.app.m_cbrRate : ℚ))
            ≤ ((pktBits w.app - w.app.m_residualBits : Nat) : Int) := by
          have := le_trans (Int.floor_le _) hle
          exact_mod_cast this
        unfold toUint32
        omega
      · rw [CancelEvents_residual_idle now w (Or.inr hsnap)]
        exact hr
    · have hrun2 : w.sim.IsRunning w.app.m_sendEvent = false := by simpa using hrun
      rw [CancelEvents_residual_idle now w (Or.inl hrun2)]
      exact hr
  · intro e he heq
    exact absurd heq (no_event_of_not_running _ _ hexp e he)
  · intro e he
    have h1 : e ∈ w.sim.events :=
      mem_of_mem_Cancel _ _ _ (mem_of_mem_Cancel _ _ _ he)
    have h2 : (CancelEvents now w).sim.nextUid = w.sim.nextUid := CancelEvents_nextUid now w
    rw [h2]
    exact hid e h1

/-- The bookkeeping does not depend on the socket and on the rate snapshot. -/
theorem debtInv_of_fields (w w1 : Session)
    (h1 : w1.app.m_residualBits = w.app.m_residualBits)
    (h2 : w1.app.m_pktSize = w.app.m_pktSize)
    (h3 : w1.app.m_sendEvent = w.app.m_sendEvent)
    (h4 : w1.app.m_lastStartTime = w.app.m_lastStartTime)
    (h5 : w1.app.m_cbrRate = w.app.m_cbrRate)
    (h6 : w1.sim = w.sim) (hinv : debtInv w) : debtInv w1 := by
  have hp : pktBits w1.app = pktBits w.app := by
    unfold pktBits
    rw [h2]
  unfold debtInv
  rw [h1, h3, h4, h5, h6, hp]
  exact hinv

/-- `StartSending` not before `m_lastStartTime` keeps the debt within one packet, and
does not abort. -/
theorem debtInv_StartSending (now : Time) (w : Session) (hinv : debtInv w)
    (ht : w.app.m_lastStartTime ≤ now) :
    ∃ w1, StartSending now w = .ok w1 ∧ debtInv w1 ∧
      w1.app.m_cbrRate = w.app.m_cbrRate ∧ w1.app.m_pktSize = w.app.m_pktSize := by
  obtain ⟨hr, hev, hid⟩ := hinv
  have hR : (0 : ℚ) ≤ (w.app.m_cbrRate : ℚ) := Nat.cast_nonneg _
  by_cases hb : budgetAllows w.app = true
  · have hb1 : budgetAllows ({ w with app := { w.app with m_lastStartTime := now } }).app
        = true := hb
    have hs := ScheduleNextTx_schedules now
      { w with app := { w.app with m_lastStartTime := now } } hb1 hr
    refine ⟨_, hs, ⟨hr, ?_, ?_⟩, rfl, rfl⟩
    · intro e he heq
      simp only [List.mem_append, List.mem_singleton] at he
      rcases he with he | he
      · have hlt := hid e he
        simp only [Option.some.injEq] at heq
        omega
      · subst he
        show (now + ((pktBits w.app - w.app.m_residualBits : Nat) : ℚ) / (w.app.m_cbrRate : ℚ)
            - now) * (w.app.m_cbrRate : ℚ)
          ≤ ((pktBits w.app - w.app.m_residualBits : Nat) : ℚ)
        by_cases hz : (w.app.m_cbrRate : ℚ) = 0
        · rw [hz]
          simp
        · have : (now + ((pktBits w.app - w.app.m_residualBits : Nat) : ℚ)
              / (w.app.m_cbrRate : ℚ) - now) * (w.app.m_cbrRate : ℚ)
              = ((pktBits w.app - w.app.m_residualBits : Nat) : ℚ) := by
            rw [add_sub_cancel_left, div_mul_cancel₀ _ hz]
          rw [this]
    · intro e he
      simp only [List.mem_append, List.mem_singleton] at he
      rcases he with he | he
      · have hlt := hid e he
        show e.uid < w.sim.nextUid + 1
        omega
      · subst he
        show w.sim.nextUid < w.sim.nextUid + 1
        omega
  · have hb1 : budgetAllows w.app = false := by simpa using hb
    have hs : StartSending now w
        = .ok { w with app := { w.app with m_lastStartTime := now } } := by
      simp only [StartSending, ScheduleNextTx]
      have hb2 : budgetAllows ({ w with app := { w.app with m_lastStartTime := now } }).app
          = false := hb1
      rw [hb2]
      rfl
    refine ⟨_, hs, ⟨hr, ?_, hid⟩, rfl, rfl⟩
    intro e he heq
    have h1 := hev e he heq
    show (e.ts - now) * (w.app.m_cbrRate : ℚ)
      ≤ ((pktBits w.app - w.app.m_residualBits : Nat) : ℚ)
    exact le_trans (mul_le_mul_of_nonneg_right (by linarith) hR) h1

/-- A run of `SendPacket` that returns leaves no debt and an expired send event. -/
theorem debtInv_SendPacket (hdrSize : Nat) (now : Time) (actual : Int) (w w1 : Session)
    (hid : ∀ e ∈ w.sim.events, e.uid < w.sim.nextUid)
    (h : SendPacket hdrSize now actual w = .ok w1) :
    debtInv w1 ∧ w1.app.m_cbrRate = w.app.m_cbrRate ∧ w1.app.m_pktSize = w.app.m_pktSize := by
  obtain ⟨hexp, ⟨packet, seq, hbuild⟩, hsock⟩ := SendPacket_ok_inv hdrSize now actual w w1 h
  have hw1 := SendPacket_reaches_send hdrSize now actual w packet seq hexp hbuild hsock
  rw [h] at hw1
  injection hw1 with hw1
  subst hw1
  refine ⟨⟨Nat.zero_le _, ?_, hid⟩, rfl, rfl⟩
  intro e he heq
  exact absurd heq (no_event_of_not_running _ _ hexp e he)

/-- A call at a possible time keeps the debt within one packet, and the rate and the packet
size as they are. -/
theorem step_debtInv (hdrSize : Nat) (a : Action) (w w1 : Session) (hinv : debtInv w)
    (ht : timely a w = true) (hstep : step hdrSize a w = .ok w1) :
    debtInv w1 ∧ w1.app.m_cbrRate = w.app.m_cbrRate ∧ w1.app.m_pktSize = w.app.m_pktSize := by
  cases a with
  | startApplication bindOk now =>
    obtain ⟨ht1, ht2⟩ := timely_cancel now w ht
    simp only [step, StartApplication] at hstep
    cases hs : w.app.m_socket with
    | none =>
      simp only [hs] at hstep
      cases bindOk with
      | false => simp at hstep
      | true =>
        simp only [if_true] at hstep
        injection hstep with hstep
        subst hstep
        refine ⟨debtInv_CancelEvents now _
          (debtInv_of_fields w _ rfl rfl rfl rfl rfl rfl hinv) ht1 ht2, rfl, rfl⟩
    | some sock =>
      simp only [hs] at hstep
      injection hstep with hstep
      subst hstep
      refine ⟨debtInv_CancelEvents now _
        (debtInv_of_fields w _ rfl rfl rfl rfl rfl rfl hinv) ht1 ht2, rfl, rfl⟩
  | startSending now =>
    have ht1 : w.app.m_lastStartTime ≤ now := by simpa [timely] using ht
    obtain ⟨w2, h2, hinv2, hr, hp⟩ := debtInv_StartSending now w hinv ht1
    simp only [step] at hstep
    rw [hstep] at h2
    injection h2 with h2
    subst h2
    exact ⟨hinv2, hr, hp⟩
  | sendPacketFires uid actual =>
    simp only [step, fire] at hstep
    cases hf : w.sim.events.find? (fun e => e.uid == uid) with
    | none =>
      simp only [hf] at hstep
      injection hstep with hstep
      subst hstep
      exact ⟨hinv, rfl, rfl⟩
    | some e =>
      simp only [hf] at hstep
      have hid : ∀ x ∈ ({ w with sim := { w.sim with
          events := w.sim.events.filter (fun x => x.uid != uid) } } : Session).sim.events,
          x.uid < ({ w with sim := { w.sim with
            events := w.sim.events.filter (fun x => x.uid != uid) } } : Session).sim.nextUid := by
        intro x hx
        exact hinv.2.2 x (List.mem_of_mem_filter hx)
      exact debtInv_SendPacket hdrSize e.ts actual
        { w with sim := { w.sim with
            events := w.sim.events.filter (fun x => x.uid != uid) } } w1 hid hstep
  | cancelEvents now =>
    obtain ⟨ht1, ht2⟩ := timely_cancel now w ht
    simp only [step] at hstep
    injection hstep with hstep
    subst hstep
    exact ⟨debtInv_CancelEvents now w hinv ht1 ht2, rfl, rfl⟩
  | stopApplication now =>
    obtain ⟨ht1, ht2⟩ := timely_cancel now w ht
    simp only [step] at hstep
    injection hstep with hstep
    subst hstep
    have hc := debtInv_CancelEvents now w hinv ht1 ht2
    have hfields : debtInv (StopApplication now w) := by
      apply debtInv_of_fields (CancelEvents now w) _ _ _ _ _ _ _ hc <;>
        (unfold StopApplication; simp only []; split <;> rfl)
    refine ⟨hfields, ?_, ?_⟩ <;>
      (unfold StopApplication; simp only []; split <;> rfl)

/-- `SendPacket` does not end by the abort of `ScheduleNextTx`. -/
theorem SendPacket_no_overflow (hdrSize : Nat) (now : Time) (actual : Int) (w : Session) :
    SendPacket hdrSize now actual w ≠ .error Fault.residualOverflow := by
  simp only [SendPacket, buildPacket]
  by_cases hsz : w.app.m_pktSize < hdrSize <;>
    by_cases hrun : w.sim.IsRunning w.app.m_sendEvent = true <;>
    cases w.app.m_unsentPacket <;> cases w.app.m_enableSeqTsSizeHeader <;>
    cases w.app.m_socket <;> simp [hsz, hrun]

/-- Within the bookkeeping no call ends by the abort of `ScheduleNextTx`. -/
theorem step_no_overflow (hdrSize : Nat) (a : Action) (w : Session) (hinv : debtInv w)
    (ht : timely a w = true) :
    step hdrSize a w ≠ .error Fault.residualOverflow := by
  cases a with
  | startApplication bindOk now =>
    simp only [step, StartApplication]
    cases w.app.m_socket with
    | none => cases bindOk <;> simp
    | some sock => simp
  | startSending now =>
    have ht1 : w.app.m_lastStartTime ≤ now := by simpa [timely] using ht
    obtain ⟨w2, h2, -⟩ := debtInv_StartSending now w hinv ht1
    simp only [step, h2]
    simp
  | sendPacketFires uid actual =>
    simp only [step, fire]
    cases hf : w.sim.events.find? (fun e => e.uid == uid) with
    | none => simp
    | some e => exact SendPacket_no_overflow hdrSize e.ts actual _
  | cancelEvents now => simp [step]
  | stopApplication now => simp [step]

/-- A fresh session is within the bookkeeping. -/
theorem debtInv_init (rate pktSize maxBytes : Nat) (hdr : Bool) :
    debtInv (Session.init rate pktSize maxBytes hdr) := by
  refine ⟨Nat.zero_le _, ?_, ?_⟩ <;>
  · intro e he
    simp [Session.init] at he

/-- A run whose calls come at possible times keeps the debt within one packet and does not
end by the abort of `ScheduleNextTx`. -/
theorem run_debtInv (hdrSize : Nat) :
    ∀ (acts : List Action) (w : Session),
      debtInv w → timelyRun hdrSize acts w = true →
      run hdrSize acts w ≠ .error Fault.residualOverflow ∧
      ∀ w1, run hdrSize acts w = .ok w1 →
        debtInv w1 ∧ w1.app.m_cbrRate = w.app.m_cbrRate ∧
          w1.app.m_pktSize = w.app.m_pktSize := by
  intro acts
  induction acts with
  | nil =>
    intro w hinv _
    refine ⟨by simp [run], ?_⟩
    intro w1 h
    simp only [run] at h
    injection h with h
    subst h
    exact ⟨hinv, rfl, rfl⟩
  | cons a rest ih =>
    intro w hinv ht
    simp only [timelyRun, Bool.and_eq_true] at ht
    obtain ⟨hta, htr⟩ := ht
    have hno := step_no_overflow hdrSize a w hinv hta
    cases hs : step hdrSize a w with
    | error f =>
      rw [hs] at hno
      refine ⟨?_, ?_⟩
      · simp only [run, hs]
        exact hno
      · intro w1 h
        simp [run, hs] at h
    | ok w2 =>
      simp only [hs] at htr
      obtain ⟨hinv2, hr2, hp2⟩ := step_debtInv hdrSize a w w2 hinv hta hs
      obtain ⟨h1, h2⟩ := ih w2 hinv2 htr
      refine ⟨?_, ?_⟩
      · simp only [run, hs]
        exact h1
      · intro w1 h
        simp only [run, hs] at h
        obtain ⟨a1, a2, a3⟩ := h2 w1 h
        exact ⟨a1, a2.trans hr2, a3.trans hp2⟩

/-- Claim C24: in every run of calls (`StartApplication`, `StartSending`, a scheduled
`SendPacket` firing at its due time, `CancelEvents`, `StopApplication`) from a fresh
session in which no call comes before `m_lastStartTime` and no call that cancels comes
after the due time of the pending send event, the rate and the packet size being those
of the beginning: the run does not end by the abort of `ScheduleNextTx`, and in the state
reached `m_residualBits ≤ m_pktSize * 8` (the `uint32_t` product, itself at most 8 times
the packet size), so that `ScheduleNextTx` does not abort there and its subtraction
`m_pktSize * 8 - m_residualBits` does not wrap. -/
theorem C24_residual_within_packet (hdrSize rate pktSize maxBytes : Nat) (hdr : Bool)
    (acts : List Action)
    (htime : timelyRun hdrSize acts (Session.init rate pktSize maxBytes hdr) = true) :
    run hdrSize acts (Session.init rate pktSize maxBytes hdr) ≠ .error Fault.residualOverflow ∧
    ∀ w, run hdrSize acts (Session.init rate pktSize maxBytes hdr) = .ok w →
      w.app.m_residualBits ≤ pktBits w.app ∧ pktBits w.app ≤ 8 * pktSize ∧
      (∀ now, ScheduleNextTx now w ≠ .error Fault.residualOverflow) ∧
      w.app.m_cbrRate = rate ∧ w.app.m_pktSize = pktSize := by
  obtain ⟨h1, h2⟩ := run_debtInv hdrSize acts _ (debtInv_init rate pktSize maxBytes hdr) htime
  refine ⟨h1, ?_⟩
  intro w hw
  obtain ⟨hinv, hr, hp⟩ := h2 w hw
  have hp1 : w.app.m_pktSize = pktSize := hp
  refine ⟨hinv.1, ?_, ?_, hr, hp1⟩
  · rw [← hp1]
    exact pktBits_le w.app
  · intro now
    have hle : ¬ w.app.m_residualBits > pktBits w.app := Nat.not_lt.mpr hinv.1
    unfold ScheduleNextTx
    split
    · simp only [hle, if_false]
      simp
    · simp

/-- Claim C24 (witness): in `debtRun` (packet size 1000 bits, rate 500 bit/s) two
cancellations, each 1 s after a start and before the send event is due, bring the debt to
exactly 1000 bits, the size of one packet. -/
theorem C24_residual_within_packet_witness :
    timelyRun 20 debtRun (Session.init 500 125 0 false) = true ∧
    ∃ w, run 20 debtRun (Session.init 500 125 0 false) = .ok w ∧
      w.app.m_residualBits = 1000 ∧ w.app.m_residualBits ≤ pktBits w.app := by
  have ht : timelyRun 20 debtRun (Session.init 500 125 0 false) = true := by
    simp [debtRun, timelyRun, timely, run, step, fire, StartApplication,
      CancelEvents, StartSending, ScheduleNextTx, SendPacket, buildPacket, budgetAllows,
      Session.init, DeviceEnforcer.init, pktBits, toUint32, toUint64, Simulator.Schedule,
      Simulator.IsRunning, Simulator.Cancel]
    norm_num
    have h500 : Int.toNat 500 = 500 := rfl
    rw [h500]
    norm_num
  have hrun : ∃ w, run 20 debtRun (Session.init 500 125 0 false) = .ok w ∧
      w.app.m_residualBits = 1000 := by
    simp [debtRun, run, step, fire, StartApplication,
      CancelEvents, StartSending, ScheduleNextTx, SendPacket, buildPacket, budgetAllows,
      Session.init, DeviceEnforcer.init, pktBits, toUint32, toUint64, Simulator.Schedule,
      Simulator.IsRunning, Simulator.Cancel]
    norm_num
    rfl
  obtain ⟨w, hw, hres⟩ := hrun
  have h := (C24_residual_within_packet 20 500 125 0 false debtRun ht).2 w hw
  exact ⟨ht, w, hw, hres, h.1⟩

/-! ## StartApplication with a pending send event -/

/-- Claim C25: `StartApplication` sets the snapshot `m_cbrRateFailSafe` to the rate before it
runs `CancelEvents`. So when a send event is pending (and the socket exists or can be
bound), the call returns with `m_residualBits` increased by
`floor ((now - m_lastStartTime) * m_cbrRate)` (as a `uint32_t` sum), whatever value the
snapshot had before, in particular when it differs from the rate. -/
theorem C25_StartApplication_debt (bindOk : Bool) (now : Time) (w : Session)
    (hrun : w.sim.IsRunning w.app.m_sendEvent = true)
    (hsock : w.app.m_socket.isSome = true ∨ bindOk = true) :
    ∃ w1, StartApplication bindOk now w = .ok w1 ∧
      w1.app.m_residualBits =
        toUint32 ((w.app.m_residualBits : Int)
          + Int.floor ((now - w.app.m_lastStartTime) * (w.app.m_cbrRate : ℚ))) ∧
      w1.app.m_cbrRateFailSafe = w.app.m_cbrRate ∧
      w1.app.m_cbrRate = w.app.m_cbrRate ∧
      w1.sim.IsRunning w1.app.m_sendEvent = false := by
  cases hs : w.app.m_socket with
  | none =>
    have hb : bindOk = true := by
      rcases hsock with h | h
      · simp [hs] at h
      · exact h
    subst hb
    have hst : StartApplication true now w = .ok (CancelEvents now
        { w with app := { w.app with
            m_socket := some { closed := false }
            m_cbrRateFailSafe := w.app.m_cbrRate } }) := by
      simp only [StartApplication, hs, if_true]
    refine ⟨_, hst, ?_, rfl, rfl, (CancelEvents_handles_expired now _).1⟩
    exact CancelEvents_residual_pending now _ hrun rfl
  | some sock =>
    have hst : StartApplication bindOk now w = .ok (CancelEvents now
        { w with app := { w.app with m_cbrRateFailSafe := w.app.m_cbrRate } }) := by
      simp only [StartApplication, hs]
    refine ⟨_, hst, ?_, rfl, rfl, (CancelEvents_handles_expired now _).1⟩
    exact CancelEvents_residual_pending now _ hrun rfl

/-- Claim C25 (witness): the send event was scheduled at 3 s under 250 bit/s and the rate is
now 500 bit/s. `StartApplication` at 4 s adds `(4 - 3) * 500 = 500` bits of debt, where
`CancelEvents` alone, the snapshot still being 250, adds none. -/
theorem C25_StartApplication_debt_witness :
    rateChangedSession.app.m_cbrRateFailSafe ≠ rateChangedSession.app.m_cbrRate ∧
    (∃ w1, StartApplication true 4 rateChangedSession = .ok w1 ∧
      w1.app.m_residualBits = 500) ∧
    (CancelEvents 4 rateChangedSession).app.m_residualBits = 0 := by
  refine ⟨by decide, ?_, ?_⟩
  · obtain ⟨w1, h1, h2, -⟩ := C25_StartApplication_debt true 4 rateChangedSession
      (by simp [rateChangedSession, Simulator.IsRunning]) (Or.inr rfl)
    refine ⟨w1, h1, ?_⟩
    rw [h2]
    simp [rateChangedSession, docSession, Session.connected, DeviceEnforcer.init, toUint32]
    norm_num
    rfl
  · rw [CancelEvents_residual_idle 4 rateChangedSession (Or.inr (by decide))]
    rfl

/-! ## Text frames of the sender -/

/-- The text frame `"Message!"` without a header. -/
theorem buildPacket_text (hdrSize : Nat) (now : Time) (a : DeviceEnforcer)
    (hhdr : a.m_enableSeqTsSizeHeader = false) (hcache : a.m_unsentPacket = none) :
    buildPacket hdrSize now a = .ok ({ header := none, payload := z_message }, a.m_seq) := by
  simp [buildPacket, hhdr, hcache]

/-- With headers off and a packet size other than 8, every run of `SendPacket` in which the
socket takes the 8 bytes of `"Message!"` offers that frame, caches it and counts nothing. -/
theorem sendAll_message (hdrSize : Nat) :
    ∀ (times : List Time) (w : Session),
      w.app.m_enableSeqTsSizeHeader = false →
      (w.app.m_unsentPacket = none ∨
        w.app.m_unsentPacket = some { header := none, payload := z_message }) →
      w.app.m_socket.isSome = true →
      w.sim.IsRunning w.app.m_sendEvent = false →
      w.app.m_pktSize ≠ 8 →
      ∃ w1, sendAll hdrSize 8 times w = .ok w1 ∧
        w1.wire = w.wire ++
          List.replicate times.length (({ header := none, payload := z_message } : Packet),
            (8 : Int)) ∧
        w1.app.m_totBytes = w.app.m_totBytes ∧
        (times ≠ [] →
          w1.app.m_unsentPacket = some { header := none, payload := z_message }) := by
  intro times
  induction times with
  | nil =>
    intro w _ _ _ _ _
    exact ⟨w, rfl, by simp, rfl, fun h => absurd rfl h⟩
  | cons t rest ih =>
    intro w hhdr hcache hsock hexp hsize
    have hbuild : buildPacket hdrSize t w.app
        = .ok ({ header := none, payload := z_message }, w.app.m_seq) := by
      rcases hcache with hc | hc
      · exact buildPacket_text hdrSize t w.app hhdr hc
      · simp [buildPacket, hc]
    have hsend := SendPacket_reaches_send hdrSize t 8 w _ _ hexp hbuild hsock
    have h8 : ¬ toUint32 8 = w.app.m_pktSize := by
      have : toUint32 8 = 8 := rfl
      rw [this]
      exact fun h => hsize h.symm
    simp only [h8, if_false] at hsend
    have hnext : ∃ w2, SendPacket hdrSize t 8 w = .ok w2 ∧
        w2.app.m_enableSeqTsSizeHeader = false ∧
        w2.app.m_unsentPacket = some { header := none, payload := z_message } ∧
        w2.app.m_socket.isSome = true ∧
        w2.sim.IsRunning w2.app.m_sendEvent = false ∧
        w2.app.m_pktSize ≠ 8 ∧
        w2.wire = w.wire ++ [({ header := none, payload := z_message }, 8)] ∧
        w2.app.m_totBytes = w.app.m_totBytes :=
      ⟨_, hsend, hhdr, rfl, hsock, hexp, hsize, rfl, rfl⟩
    obtain ⟨w2, hs2, g1, g2, g3, g4, g5, g6, g7⟩ := hnext
    obtain ⟨w1, h1, h2, h3, h4⟩ := ih w2 g1 (Or.inr g2) g3 g4 g5
    refine ⟨w1, ?_, ?_, h3.trans g7, ?_⟩
    · simp only [sendAll, hs2]
      exact h1
    · rw [h2, g6]
      simp [List.replicate_succ]
    · intro _
      cases rest with
      | nil =>
        simp only [sendAll] at h1
        injection h1 with h1
        subst h1
        exact g2
      | cons t2 rest2 => exact h4 (by simp)

/-- Claim C26: with headers off, a fresh frame is the 8 bytes `"Message!"` whatever
`m_pktSize` is. For every `m_pktSize` other than 8 and every number of runs of
`SendPacket` in each of which the socket takes all 8 bytes (`Send` returns 8): every run
offers that same frame, `m_totBytes` stays what it was, and after the first run the frame
is in the cache, from where the next run takes it. -/
theorem C26_message_never_counts (hdrSize : Nat) (w : Session) (times : List Time)
    (hhdr : w.app.m_enableSeqTsSizeHeader = false)
    (hcache : w.app.m_unsentPacket = none)
    (hsock : w.app.m_socket.isSome = true)
    (hexp : w.sim.IsRunning w.app.m_sendEvent = false)
    (hsize : w.app.m_pktSize ≠ 8) :
    (∀ now, buildPacket hdrSize now w.app
      = .ok ({ header := none, payload := z_message }, w.app.m_seq)) ∧
    z_message.length = 8 ∧
    ∃ w1, sendAll hdrSize 8 times w = .ok w1 ∧
      w1.wire = w.wire ++
        List.replicate times.length (({ header := none, payload := z_message } : Packet),
          (8 : Int)) ∧
      w1.app.m_totBytes = w.app.m_totBytes ∧
      (times ≠ [] →
        w1.app.m_unsentPacket = some { header := none, payload := z_message }) :=
  ⟨fun now => buildPacket_text hdrSize now w.app hhdr hcache, rfl,
    sendAll_message hdrSize times w hhdr (Or.inl hcache) hsock hexp hsize⟩

/-- Claim C26 (witness): the documentation session (packet size 125 bytes, headers off): three
runs of `SendPacket`, the socket taking the 8 bytes each time, offer `"Message!"` three
times and count no byte. -/
theorem C26_message_never_counts_witness :
    docSession.app.m_pktSize = 125 ∧
    ∃ w1, sendAll 20 8 [1, 2, 3] docSession = .ok w1 ∧
      w1.wire = List.replicate 3 (({ header := none, payload := z_message } : Packet),
        (8 : Int)) ∧
      w1.app.m_totBytes = 0 ∧
      w1.app.m_unsentPacket = some { header := none, payload := z_message } := by
  obtain ⟨-, -, w1, h1, h2, h3, h4⟩ := C26_message_never_counts 20 docSession [1, 2, 3]
    rfl rfl rfl rfl (by decide)
  exact ⟨rfl, w1, h1, by simpa [docSession, Session.connected] using h2, h3, h4 (by simp)⟩
/-! ## The first peek of PacketReceived -/

/-- Claim C13 (defect): `PacketReceived` peeks the header right after appending, without
testing that a whole header has arrived (the peek inside the loop is guarded by such a
test). For a frame declaring size 20 of which 15 bytes are delivered, the buffer is
shorter than the declared size, but with header reads that fault past the end of the
packet (assertions on) the call ends in `PeekHeader` instead of waiting; and when only 7
bytes are delivered, the size field itself is incomplete and reads as 0 with reads that do
not fault, so the call aborts on the size check. Only with reads that do not fault and the
size field complete does the call wait for the rest and then extract the one frame. -/
theorem C13_header_peeked_before_complete :
    lenientCodec.peek frame20 = .ok { seq := 7, ts := 0, size := 20 } ∧
    (frame20.take 15).length < 20 ∧
    (∀ fuel, PacketReceived strictCodec fuel binaryServer 1 (frame20.take 15)
      = some (.error ServerFault.readPastEnd)) ∧
    (∀ fuel, PacketReceived lenientCodec fuel binaryServer 1 (frame20.take 7)
      = some (.error ServerFault.zeroSizeHeader)) ∧
    PacketReceived lenientCodec 0 binaryServer 1 (frame20.take 15)
      = some (.ok (binaryServer.setBuffer 1 (frame20.take 15), [])) ∧
    PacketReceived lenientCodec 1 (binaryServer.setBuffer 1 (frame20.take 15)) 1
        (frame20.drop 15)
      = some (.ok ((binaryServer.setBuffer 1 (frame20.take 15)).setBuffer 1 [],
          [{ raw := frame20, header := { seq := 7, ts := 0, size := 20 },
             payload := [] }])) := by
  refine ⟨lenientCodec_peek_frame20, by decide, ?_, ?_, PacketReceived_framing_lenient.1,
    PacketReceived_framing_lenient.2⟩
  · intro fuel
    have hpeek : strictCodec.peek (binaryServer.bufferOf 1 ++ frame20.take 15)
        = .error ServerFault.readPastEnd := by
      simp [strictCodec, binaryServer, WorkServer.init, WorkServer.bufferOf, frame20,
        headerBytes]
    simp only [PacketReceived, hpeek]
  · intro fuel
    have hpeek : lenientCodec.peek (binaryServer.bufferOf 1 ++ frame20.take 7)
        = .ok { seq := 0, ts := 0, size := 0 } := by
      simp [lenientCodec, readBytes, bigEndian, binaryServer, WorkServer.init,
        WorkServer.bufferOf, frame20, headerBytes, List.range, List.range.loop, List.getD]
    simp only [PacketReceived, hpeek]
    rfl

/-! ## Restart after a cancellation -/

end ns3
